import Mathlib

namespace Blackbox

/-! ## Transient windows (src/src/Window.cc, `BlackboxWindow::getTransientInfo`)

Managed windows are heap objects; a `BlackboxWindow *` is modelled by the
number of the object it points to. -/

/-- The value of `client.transient_for`: the null pointer, the sentinel
`(BlackboxWindow *) ~0ul`, or a pointer to a managed window. -/
inductive TransientFor where
  | null
  | root
  | win (p : Nat)
  deriving DecidableEq, Repr

/-- The fields of `BlackboxWindow::client` that the transient and visibility
code reads and writes. -/
structure Client where
  window : Nat
  window_group : Nat
  transient_for : TransientFor
  transientList : List Nat
  workspace : Nat
  modal : Bool
  visible : Bool
  iconic : Bool
  shaded : Bool
  current_state : Nat
  functions : Nat := 0
  deriving DecidableEq, Repr

/-- The heap of managed windows, indexed by pointer. -/
abbrev Heap := Nat → Client

/-- The registry lookups getTransientInfo performs: the root window of the
screen, `blackbox->findWindow`, and `blackbox->findWindowGroup(g)` followed by
`group->find(screen)` (a null result is `none`). -/
structure Registry where
  rootWindow : Nat
  findWindow : Nat → Option Nat
  groupFind : Nat → Option Nat

/-- The X constant `None`. -/
def XNone : Nat := 0

/-- BlackboxWindow::getTransientFor -/
def getTransientFor (c : Client) : Option Nat :=
  match c.transient_for with
  | .win p => some p
  | _ => none

/-- The loop `while (w->client.transient_for && ... != ~0ul)` that closes
getTransientInfo, started at `w`: `some true` when it meets
`w->client.transient_for == this` (the link is then cleared), `some false`
when the chain ends, `none` when the fuel runs out. -/
def circularCheck (h : Heap) (this : Nat) : Nat → Nat → Option Bool
  | 0, _ => none
  | fuel + 1, w =>
    match (h w).transient_for with
    | .win p => if p = this then some true else circularCheck h this fuel p
    | _ => some false

/-- The statement `client.transient_for->client.transientList.remove(this)`
guarded by the test on transient_for. -/
def unregisterTransient (h : Heap) (this : Nat) : Heap :=
  match (h this).transient_for with
  | .win p =>
    Function.update h p
      { h p with transientList := (h p).transientList.filter (fun q => q ≠ this) }
  | _ => h

/-- The owner that `blackbox->findWindow(trans_for)` and the group fallback
resolve, `none` for a null pointer. -/
def resolveOwner (reg : Registry) (c : Client) (trans_for : Nat) : Option Nat :=
  match reg.findWindow trans_for with
  | some p => some p
  | none =>
    if c.window_group ≠ 0 ∧ trans_for = c.window_group then
      reg.groupFind c.window_group
    else none

/-- BlackboxWindow::getTransientInfo run on the window `this`; `hint` is what
XGetTransientForHint returns (`none` when the property is not set). -/
def getTransientInfo (reg : Registry) (hint : Option Nat) (fuel : Nat)
    (h : Heap) (this : Nat) : Option Heap :=
  let h1 := unregisterTransient h this
  let h2 := Function.update h1 this { h1 this with transient_for := .null }
  match hint with
  | none => some h2
  | some trans_for =>
    if trans_for = (h2 this).window then some h2
    else if trans_for = XNone ∨ trans_for = reg.rootWindow then
      some (Function.update h2 this
        { h2 this with transient_for := .root, modal := true })
    else
      match resolveOwner reg (h2 this) trans_for with
      | none => some h2
      | some t =>
        if t = this then some h2
        else
          let h3 := Function.update h2 this { h2 this with transient_for := .win t }
          match circularCheck h3 this fuel this with
          | none => none
          | some true => some h2
          | some false =>
            let h4 := Function.update h3 t
              { h3 t with transientList := (h3 t).transientList ++ [this] }
            some (Function.update h4 this
              { h4 this with workspace := (h4 t).workspace })

/-- The call sequence "getTransientInfo runs on every window of `order`", the
window `w` carrying the hint `hints w`. -/
def getTransientInfoAll (reg : Registry) (hints : Nat → Option Nat) (fuel : Nat) :
    List Nat → Heap → Option Heap
  | [], h => some h
  | w :: ws, h =>
    match getTransientInfo reg (hints w) fuel h w with
    | none => none
    | some h' => getTransientInfoAll reg hints fuel ws h'

/-- The link `a.transient_for == b`. -/
def link (h : Heap) (a b : Nat) : Prop := (h a).transient_for = .win b

/-- No window reaches itself by following transient_for links. -/
def Acyclic (h : Heap) : Prop := ∀ w, ¬ Relation.TransGen (link h) w w

/-- Every transient_for pointer points to one of the `n` managed windows
`0 .. n-1`. -/
def Managed (h : Heap) (n : Nat) : Prop :=
  ∀ w p, (h w).transient_for = .win p → p < n

/-- The registry only hands out pointers to the `n` managed windows. -/
def RegistryOK (reg : Registry) (n : Nat) : Prop :=
  (∀ x p, reg.findWindow x = some p → p < n) ∧
  (∀ g p, reg.groupFind g = some p → p < n)

/-- Three freshly managed windows with client window ids 10, 11 and 12. -/
def cycleHeap : Heap := fun i =>
  { window := i + 10, window_group := 0, transient_for := .null, transientList := [],
    workspace := 0, modal := false, visible := false, iconic := false, shaded := false,
    current_state := 0 }

/-- The registry that knows the three windows of `cycleHeap`. -/
def cycleRegistry : Registry :=
  { rootWindow := 1
    findWindow := fun x => if 10 ≤ x ∧ x < 13 then some (x - 10) else none
    groupFind := fun _ => none }

/-- WM_TRANSIENT_FOR hints 10 -> 11 -> 12 -> 10. -/
def cycleHints : Nat → Option Nat := fun i => some ((i + 1) % 3 + 10)

/-! ## Window geometry (src/src/Window.cc)

`unsigned int` values are naturals below `2^32` with wrapping arithmetic;
`int` coordinates are integers, wrapped to 32 bits where the code converts an
unsigned expression back to `int`. -/

/-- The modulus of `unsigned int` arithmetic. -/
def UMAX : Nat := 4294967296

/-- Unsigned addition. -/
def uadd (a b : Nat) : Nat := (a + b) % UMAX

/-- Unsigned subtraction. -/
def usub (a b : Nat) : Nat := (a + (UMAX - b % UMAX)) % UMAX

/-- Unsigned multiplication. -/
def umul (a b : Nat) : Nat := (a * b) % UMAX

/-- Unsigned division; `none` is the division by zero. -/
def udiv (a b : Nat) : Option Nat := if b = 0 then none else some (a / b)

/-- Conversion of an integer expression to `unsigned int`. -/
def toUnsigned (z : Int) : Nat := (z % (UMAX : Int)).toNat

/-- Conversion of an expression to `int` (two's complement). -/
def toSigned (z : Int) : Int := (z + 2147483648) % (UMAX : Int) - 2147483648

/-- Modelled from the spec: bt::Rect (lib/Rect.hh is not among the sources), the
rectangle (x, y, w, h) of the data model. It is held by its corners, the right
and bottom edges inclusive (right = x + w - 1), the convention with which
lib/Application.cc merges expose rectangles. -/
structure Rect where
  x1 : Int
  y1 : Int
  x2 : Int
  y2 : Int
  deriving DecidableEq, Repr

namespace Rect

/-- The constructor `Rect(x, y, w, h)`, also `setRect`. -/
def ofSize (x y : Int) (w h : Nat) : Rect :=
  { x1 := x, y1 := y, x2 := toSigned (w + x - 1), y2 := toSigned (h + y - 1) }

def left (r : Rect) : Int := r.x1
def top (r : Rect) : Int := r.y1
def right (r : Rect) : Int := r.x2
def bottom (r : Rect) : Int := r.y2
def x (r : Rect) : Int := r.x1
def y (r : Rect) : Int := r.y1

/-- The unsigned `width()`. -/
def width (r : Rect) : Nat := toUnsigned (r.x2 - r.x1 + 1)

/-- The unsigned `height()`. -/
def height (r : Rect) : Nat := toUnsigned (r.y2 - r.y1 + 1)

def setX (r : Rect) (x : Int) : Rect := { r with x1 := x, x2 := r.x2 + (x - r.x1) }
def setY (r : Rect) (y : Int) : Rect := { r with y1 := y, y2 := r.y2 + (y - r.y1) }
def setPos (r : Rect) (x y : Int) : Rect := (r.setX x).setY y
def setWidth (r : Rect) (w : Nat) : Rect := { r with x2 := toSigned (w + r.x1 - 1) }
def setHeight (r : Rect) (h : Nat) : Rect := { r with y2 := toSigned (h + r.y1 - 1) }
def setSize (r : Rect) (w h : Nat) : Rect := (r.setWidth w).setHeight h
def setCoords (l t r b : Int) : Rect := { x1 := l, y1 := t, x2 := r, y2 := b }

/-- All four corners are values of type `int`. -/
def IsInt (r : Rect) : Prop :=
  (-2147483648 ≤ r.x1 ∧ r.x1 < 2147483648) ∧ (-2147483648 ≤ r.y1 ∧ r.y1 < 2147483648) ∧
  (-2147483648 ≤ r.x2 ∧ r.x2 < 2147483648) ∧ (-2147483648 ≤ r.y2 ∧ r.y2 < 2147483648)

end Rect

/-- The frame margins `frame.margin`. -/
structure Margin where
  left : Nat
  right : Nat
  top : Nat
  bottom : Nat
  deriving DecidableEq, Repr

/-- The resize corner `BlackboxWindow::Corner`. -/
inductive Corner where
  | TopLeft
  | TopRight
  | BottomLeft
  | BottomRight
  deriving DecidableEq, Repr

/-- The flag bits of XSizeHints (X11/Xutil.h). -/
def PMinSize : Nat := 16
def PMaxSize : Nat := 32
def PResizeInc : Nat := 64
def PAspect : Nat := 128
def PBaseSize : Nat := 256
def PWinGravity : Nat := 512

/-- The test `flags & bit`. -/
def hasFlag (flags bit : Nat) : Bool := flags &&& bit != 0

/-- The X requests and drawing subroutines a window issues, in order. A
subroutine that only talks to the server or draws is one entry, and so is the
call of a member function or of the screen that is not followed further here
(`raiseWindow`, `iconify`, `close`). -/
inductive XRequest where
  | XMoveWindow (x y : Int)
  | XSendConfigureNotify (x y : Int) (w h : Nat)
  | XFlush
  | configureShape
  | positionWindows
  | decorate
  | redrawWindowFrame
  | redrawAllButtons
  | setStateProperties (state : Nat)
  | removeIcon
  | XMapWindowClient
  | XMapSubwindowsFrame
  | XMapWindowFrame
  | XUnmapWindowFrame
  | XGrabServer
  | XSelectInput (structureNotify : Bool)
  | XUnmapWindowClient
  | XUngrabServer
  | addIcon
  | XGrabPointer
  | XUngrabPointer
  | XDrawRectangle (x y : Int) (w h : Nat)
  | showPosition (x y : Int)
  | showGeometry (w h : Nat)
  | hideGeometry
  | raiseWindow
  | redrawMaximizeButton
  | redrawIconifyButton
  | redrawCloseButton
  | iconify
  | close
  deriving DecidableEq, Repr

/-- The geometry, size hints and state flags of one BlackboxWindow
(`client.*`, `client.state.*` and `frame.*`). -/
structure BlackboxWindow where
  normal_hint_flags : Nat
  min_width : Nat
  min_height : Nat
  max_width : Nat
  max_height : Nat
  width_inc : Nat
  height_inc : Nat
  min_aspect_x : Nat
  min_aspect_y : Nat
  max_aspect_x : Nat
  max_aspect_y : Nat
  base_width : Nat
  base_height : Nat
  win_gravity : Nat
  rect : Rect
  premax : Rect
  current_state : Nat
  maximized : Nat
  fullscreen : Bool
  resizing : Bool
  moving : Bool
  shaded : Bool
  shaped : Bool
  frame_rect : Rect
  changing : Rect
  margin : Margin
  border_w : Nat
  inside_w : Nat
  inside_h : Nat
  deriving DecidableEq, Repr

/-- The WM_NORMAL_HINTS property as Xlib returns it (fields of type `int`). -/
structure XSizeHints where
  flags : Nat
  min_width : Int
  min_height : Int
  max_width : Int
  max_height : Int
  width_inc : Int
  height_inc : Int
  min_aspect_x : Int
  min_aspect_y : Int
  max_aspect_x : Int
  max_aspect_y : Int
  base_width : Int
  base_height : Int
  win_gravity : Int
  deriving DecidableEq, Repr

/-- NorthWestGravity (X11/X.h). -/
def NorthWestGravity : Nat := 1

/-- BlackboxWindow::getWMNormalHints; `screen_w` and `screen_h` are the size of
`screen->screenInfo().rect()`, `prop` is the property (`none` when
XGetWMNormalHints fails). -/
def getWMNormalHints (screen_w screen_h : Nat) (prop : Option XSizeHints)
    (w : BlackboxWindow) : BlackboxWindow :=
  let w := { w with
    min_width := 1, min_height := 1, width_inc := 1, height_inc := 1,
    base_width := 0, base_height := 0, win_gravity := NorthWestGravity,
    min_aspect_x := 1, min_aspect_y := 1, max_aspect_x := 1, max_aspect_y := 1,
    max_width := screen_w, max_height := screen_h }
  match prop with
  | none => w
  | some sizehint =>
    let w := { w with normal_hint_flags := sizehint.flags }
    let w :=
      if hasFlag sizehint.flags PMinSize then
        let w := if sizehint.min_width ≥ 0 then
          { w with min_width := toUnsigned sizehint.min_width } else w
        if sizehint.min_height ≥ 0 then
          { w with min_height := toUnsigned sizehint.min_height } else w
      else w
    let w :=
      if hasFlag sizehint.flags PMaxSize then
        let w := if sizehint.max_width > toSigned w.min_width then
          { w with max_width := toUnsigned sizehint.max_width }
          else { w with max_width := w.min_width }
        if sizehint.max_height > toSigned w.min_height then
          { w with max_height := toUnsigned sizehint.max_height }
          else { w with max_height := w.min_height }
      else w
    let w :=
      if hasFlag sizehint.flags PResizeInc then
        { w with width_inc := toUnsigned sizehint.width_inc,
                 height_inc := toUnsigned sizehint.height_inc }
      else w
    let w :=
      if hasFlag sizehint.flags PAspect then
        { w with min_aspect_x := toUnsigned sizehint.min_aspect_x,
                 min_aspect_y := toUnsigned sizehint.min_aspect_y,
                 max_aspect_x := toUnsigned sizehint.max_aspect_x,
                 max_aspect_y := toUnsigned sizehint.max_aspect_y }
      else w
    let w :=
      if hasFlag sizehint.flags PBaseSize then
        { w with base_width := toUnsigned sizehint.base_width,
                 base_height := toUnsigned sizehint.base_height }
      else w
    if hasFlag sizehint.flags PWinGravity then
      { w with win_gravity := toUnsigned sizehint.win_gravity }
    else w

/-- The minimum-aspect adjustment of constrain (`min_asp_x * dh > min_asp_y * dw`). -/
def constrainMinAspect (w : BlackboxWindow) (dw dh : Nat) : Option (Nat × Nat) :=
  if umul w.min_aspect_x dh > umul w.min_aspect_y dw then
    match udiv (umul w.min_aspect_x dh) w.min_aspect_y with
    | none => none
    | some q =>
      match udiv (umul (usub q dw) w.width_inc) w.width_inc with
      | none => none
      | some delta =>
        if uadd dw delta ≤ w.max_width then some (uadd dw delta, dh)
        else
          match udiv (umul dw w.min_aspect_y) w.min_aspect_x with
          | none => none
          | some q2 =>
            match udiv (umul (usub dh q2) w.height_inc) w.height_inc with
            | none => none
            | some delta2 =>
              if usub dh delta2 ≥ w.min_height then some (dw, usub dh delta2)
              else some (dw, dh)
  else some (dw, dh)

/-- The maximum-aspect adjustment of constrain (`max_asp_x * dh < max_asp_y * dw`). -/
def constrainMaxAspect (w : BlackboxWindow) (dw dh : Nat) : Option (Nat × Nat) :=
  if umul w.max_aspect_x dh < umul w.max_aspect_y dw then
    match udiv (umul w.max_aspect_y dw) w.max_aspect_x with
    | none => none
    | some q =>
      match udiv (umul (usub q dh) w.height_inc) w.height_inc with
      | none => none
      | some delta =>
        if uadd dh delta ≤ w.max_height then some (dw, uadd dh delta)
        else
          match udiv (umul dh w.max_aspect_x) w.max_aspect_y with
          | none => none
          | some q2 =>
            match udiv (umul (usub dw q2) w.width_inc) w.width_inc with
            | none => none
            | some delta2 =>
              if usub dw delta2 ≥ w.min_width then some (usub dw delta2, dh)
              else some (dw, dh)
  else some (dw, dh)

/-- The "fit to size increments" step of constrain. -/
def constrainIncrements (w : BlackboxWindow) (base_width base_height dw dh : Nat) :
    Option (Nat × Nat) :=
  if hasFlag w.normal_hint_flags PResizeInc then
    match udiv (usub dw base_width) w.width_inc with
    | none => none
    | some qw =>
      match udiv (usub dh base_height) w.height_inc with
      | none => none
      | some qh =>
        some (uadd (umul qw w.width_inc) base_width, uadd (umul qh w.height_inc) base_height)
  else some (dw, dh)

/-- The client size `(dw, dh)` constrain arrives at for the client rectangle
`r` (frame.changing without the margins), the value it passes to
`frame.changing.setSize`. `none` when the assertion fails or a division by
zero is met. -/
def constrainSize (w : BlackboxWindow) (r : Rect) : Option (Nat × Nat) :=
  let dw := r.width
  let dh := r.height
  let base_width := if w.base_width ≠ 0 then w.base_width else w.min_width
  let base_height := if w.base_height ≠ 0 then w.base_height else w.min_height
  let dw := if dw < w.min_width then w.min_width else dw
  let dh := if dh < w.min_height then w.min_height else dh
  let dw := if dw > w.max_width then w.max_width else dw
  let dh := if dh > w.max_height then w.max_height else dh
  if dw ≥ base_width ∧ dh ≥ base_height then
    match constrainIncrements w base_width base_height dw dh with
    | none => none
    | some (dw, dh) =>
      if hasFlag w.normal_hint_flags PAspect then
        match constrainMinAspect w dw dh with
        | none => none
        | some (dw, dh) => constrainMaxAspect w dw dh
      else some (dw, dh)
  else none

/-- The first statement of constrain: frame.changing without the frame margin. -/
def stripMargin (w : BlackboxWindow) : Rect :=
  Rect.setCoords
    (w.changing.left + toSigned w.margin.left)
    (w.changing.top + toSigned w.margin.top)
    (w.changing.right - toSigned w.margin.right)
    (w.changing.bottom - toSigned w.margin.bottom)

/-- BlackboxWindow::constrain: the window with the constrained
`frame.changing`. -/
def constrain (w : BlackboxWindow) (anchor : Corner) : Option BlackboxWindow :=
  let c0 := stripMargin w
  match constrainSize w c0 with
  | none => none
  | some (dw, dh) =>
    let c1 := c0.setSize dw dh
    let c2 := Rect.setCoords
      (toSigned (c1.left - w.margin.left))
      (toSigned (c1.top - w.margin.top))
      (toSigned (c1.right + w.margin.right))
      (toSigned (c1.bottom + w.margin.bottom))
    let dx := w.frame_rect.right - c2.right
    let dy := w.frame_rect.bottom - c2.bottom
    let c3 :=
      match anchor with
      | .TopLeft => c2
      | .TopRight => c2.setPos (c2.x + dx) c2.y
      | .BottomLeft => c2.setPos c2.x (c2.y + dy)
      | .BottomRight => c2.setPos (c2.x + dx) (c2.y + dy)
    some { w with changing := c3 }

/-- The client size that constrain computes for the requested frame rectangle
`w.changing`. -/
def constrainClientSize (w : BlackboxWindow) : Option (Nat × Nat) :=
  constrainSize w (stripMargin w)

/-- The shape shared by the two aspect adjustments of constrain: `d1` may grow
up to `max1`, otherwise `d2` may shrink down to `min2`. -/
def aspectStep (ax ay inc1 inc2 max1 min2 d1 d2 : Nat) : Option (Nat × Nat) :=
  if umul ax d2 > umul ay d1 then
    match udiv (umul ax d2) ay with
    | none => none
    | some q =>
      match udiv (umul (usub q d1) inc1) inc1 with
      | none => none
      | some delta =>
        if uadd d1 delta ≤ max1 then some (uadd d1 delta, d2)
        else
          match udiv (umul d1 ay) ax with
          | none => none
          | some q2 =>
            match udiv (umul (usub d2 q2) inc2) inc2 with
            | none => none
            | some delta2 =>
              if usub d2 delta2 ≥ min2 then some (d1, usub d2 delta2)
              else some (d1, d2)
  else some (d1, d2)

/-- A window whose hints put the minimum size off the increment grid:
PMinSize | PResizeInc | PBaseSize with min 10x10, base 4x4, increment 7x7, on a
1024x768 screen, asked for a 10x10 client. -/
def offGridHints : XSizeHints :=
  { flags := 336, min_width := 10, min_height := 10, max_width := 0, max_height := 0,
    width_inc := 7, height_inc := 7, min_aspect_x := 0, min_aspect_y := 0,
    max_aspect_x := 0, max_aspect_y := 0, base_width := 4, base_height := 4,
    win_gravity := 0 }

/-- A window with no hints and no decorations, its frame at (0,0) 10x10. -/
def plainWindow : BlackboxWindow :=
  { normal_hint_flags := 0, min_width := 1, min_height := 1, max_width := 1024,
    max_height := 768, width_inc := 1, height_inc := 1, min_aspect_x := 1,
    min_aspect_y := 1, max_aspect_x := 1, max_aspect_y := 1, base_width := 0,
    base_height := 0, win_gravity := 1, rect := Rect.ofSize 0 0 10 10,
    premax := Rect.ofSize 0 0 10 10, current_state := 1, maximized := 0,
    fullscreen := false, resizing := false, moving := false, shaded := false,
    shaped := false, frame_rect := Rect.ofSize 0 0 10 10,
    changing := Rect.ofSize 0 0 10 10,
    margin := { left := 0, right := 0, top := 0, bottom := 0 }, border_w := 0,
    inside_w := 10, inside_h := 10 }

/-- The window `plainWindow` after reading `offGridHints`. -/
def offGridWindow : BlackboxWindow := getWMNormalHints 1024 768 (some offGridHints) plainWindow

/-- Hints with PMinSize | PResizeInc | PAspect: min 10x10, increment 10x10,
minimum aspect 3/4, maximum aspect 4/1. -/
def aspectHints : XSizeHints :=
  { flags := 208, min_width := 10, min_height := 10, max_width := 0, max_height := 0,
    width_inc := 10, height_inc := 10, min_aspect_x := 3, min_aspect_y := 4,
    max_aspect_x := 4, max_aspect_y := 1, base_width := 0, base_height := 0,
    win_gravity := 0 }

/-- The window `plainWindow` after reading `aspectHints`, asked for a 20x30
client. -/
def aspectWindow : BlackboxWindow :=
  { getWMNormalHints 1024 768 (some aspectHints) plainWindow with
    changing := Rect.ofSize 0 0 20 30 }

/-- BlackboxWindow::setState as far as the modelled fields go: it stores the
state and rewrites the WM_STATE and _NET_WM_STATE properties. -/
def setState (w : BlackboxWindow) (new_state : Nat) : BlackboxWindow × List XRequest :=
  ({ w with current_state := new_state }, [XRequest.setStateProperties new_state])

/-- The tail of configure under `if (send_event)`: client.rect follows the
frame and a synthetic ConfigureNotify goes to the client. -/
def sendConfigureNotify (w : BlackboxWindow) : BlackboxWindow × List XRequest :=
  let cr := w.rect.setPos (toSigned (w.frame_rect.left + w.margin.left))
    (toSigned (w.frame_rect.top + w.margin.top))
  ({ w with rect := cr },
    [XRequest.XSendConfigureNotify cr.x cr.y cr.width cr.height, XRequest.XFlush])

/-- The branch of configure taken when the size changes: the window and the
requests of configureShape, positionWindows, decorate and redrawWindowFrame. -/
def configureResize (w : BlackboxWindow) (dx dy : Int) (dw dh : Nat) :
    BlackboxWindow × List XRequest :=
  let fr := Rect.ofSize dx dy dw dh
  let inside_w := usub fr.width (umul w.border_w 2)
  let inside_h := usub fr.height (umul w.border_w 2)
  let fr := if fr.right ≤ 0 ∨ fr.bottom ≤ 0 then fr.setPos 0 0 else fr
  let cr := Rect.setCoords
    (toSigned (fr.left + w.margin.left)) (toSigned (fr.top + w.margin.top))
    (toSigned (fr.right - w.margin.right)) (toSigned (fr.bottom - w.margin.bottom))
  -- positionWindows also re-anchors client.rect on the frame
  let cr := cr.setPos (toSigned (fr.left + w.margin.left)) (toSigned (fr.top + w.margin.top))
  ({ w with frame_rect := fr, inside_w := inside_w, inside_h := inside_h, rect := cr },
    (if w.shaped then [XRequest.configureShape] else []) ++
      [XRequest.positionWindows, XRequest.decorate, XRequest.redrawWindowFrame])

/-- The branch of configure taken when only the position may change. -/
def configureMove (w : BlackboxWindow) (dx dy : Int) : BlackboxWindow × List XRequest :=
  let fr := w.frame_rect.setPos dx dy
  ({ w with frame_rect := fr }, [XRequest.XMoveWindow fr.x fr.y])

/-- BlackboxWindow::configure(int dx, int dy, unsigned dw, unsigned dh). -/
def configure (w : BlackboxWindow) (dx dy : Int) (dw dh : Nat) :
    BlackboxWindow × List XRequest :=
  let send_event : Bool :=
    decide ((w.frame_rect.x ≠ dx ∨ w.frame_rect.y ≠ dy) ∧ w.moving = false)
  if dw ≠ w.frame_rect.width ∨ dh ≠ w.frame_rect.height then
    let r := configureResize w dx dy dw dh
    if send_event then ((sendConfigureNotify r.1).1, r.2 ++ (sendConfigureNotify r.1).2)
    else r
  else
    let r := configureMove w dx dy
    if (if w.moving = false then true else send_event) then
      ((sendConfigureNotify r.1).1, r.2 ++ (sendConfigureNotify r.1).2)
    else r

/-- The overload `configure(const bt::Rect &r)`. -/
def configureRect (w : BlackboxWindow) (r : Rect) : BlackboxWindow × List XRequest :=
  configure w r.x r.y r.width r.height

/-- BlackboxWindow::maximize(button); `availableArea` is
`screen->availableArea()`. `none` is a failed assertion or division by zero
(in constrain, or `assert(0)` for a button outside 1..3). -/
def maximize (availableArea : Rect) (w : BlackboxWindow) (button : Nat) :
    Option (BlackboxWindow × List XRequest) :=
  if w.maximized ≠ 0 then
    let w := { w with maximized := 0 }
    let (w, log1) :=
      if ¬ w.fullscreen then
        let (w, l) := if ¬ w.resizing then configureRect w w.premax else (w, [])
        (w, l ++ [XRequest.redrawAllButtons])
      else (w, [])
    let (w, log2) := setState w w.current_state
    some (w, log1 ++ log2)
  else
    let w := { w with maximized := button }
    if ¬ w.fullscreen then
      let w := { w with changing := availableArea, premax := w.frame_rect }
      let changing? : Option Rect :=
        match button with
        | 1 => some w.changing
        | 2 => some ((w.changing.setX w.premax.x).setWidth w.premax.width)
        | 3 => some ((w.changing.setY w.premax.y).setHeight w.premax.height)
        | _ => none
      match changing? with
      | none => none
      | some ch =>
        match constrain { w with changing := ch } Corner.TopLeft with
        | none => none
        | some w =>
          let w := if w.shaded then { w with shaded := false } else w
          let (w, log1) := configureRect w w.changing
          let (w, log2) := setState w w.current_state
          some (w, log1 ++ [XRequest.redrawAllButtons] ++ log2)
    else
      let (w, log2) := setState w w.current_state
      some (w, log2)

/-- A window whose frame lies wholly left of the screen: (-500, 10) 100x100,
with the default hints of a 1024x768 screen. -/
def offScreenWindow : BlackboxWindow :=
  { plainWindow with frame_rect := Rect.ofSize (-500) 10 100 100,
                     rect := Rect.ofSize (-500) 10 100 100 }

/-- A window at (30, 40) 100x100 on a 1024x768 screen. -/
def onScreenWindow : BlackboxWindow :=
  { plainWindow with frame_rect := Rect.ofSize 30 40 100 100,
                     rect := Rect.ofSize 30 40 100 100 }

/-- The window `onScreenWindow` after maximize(2) on a 1024x768 available area,
with the requests issued. -/
def maximizedOnce : BlackboxWindow × List XRequest :=
  (maximize (Rect.ofSize 0 0 1024 768) onScreenWindow 2).getD (onScreenWindow, [])

/-- The frame rectangle configure leaves behind. -/
def configuredFrame (w : BlackboxWindow) (dx dy : Int) (dw dh : Nat) : Rect :=
  if dw ≠ w.frame_rect.width ∨ dh ≠ w.frame_rect.height then
    if (Rect.ofSize dx dy dw dh).right ≤ 0 ∨ (Rect.ofSize dx dy dw dh).bottom ≤ 0 then
      (Rect.ofSize dx dy dw dh).setPos 0 0
    else Rect.ofSize dx dy dw dh
  else w.frame_rect.setPos dx dy

/-! ## Visibility (src/src/Window.cc, `show` and `hide`) -/

/-- The ICCCM window states (X11/Xutil.h). -/
def WithdrawnState : Nat := 0
def NormalState : Nat := 1
def IconicState : Nat := 3

/-- BlackboxWindow::setState on a heap window: stores the state and rewrites
the state properties. -/
def Client.setState (c : Client) (new_state : Nat) : Client × List XRequest :=
  ({ c with current_state := new_state }, [XRequest.setStateProperties new_state])

/-- BlackboxWindow::show on the window `this`, with the X requests issued by it
and by the transients it shows in turn. The fuel bounds the depth of the
recursion through transient lists. -/
def «show» : Nat → Heap → Nat → Option (Heap × List XRequest)
  | 0, _, _ => none
  | fuel + 1, h, this =>
    if (h this).visible then some (h, [])
    else
      let log0 := if (h this).iconic then [XRequest.removeIcon] else []
      let c := { h this with iconic := false, visible := true }
      let (c, log1) := c.setState (if c.shaded then IconicState else NormalState)
      let h := Function.update h this c
      let log := log0 ++ log1 ++
        [XRequest.XMapWindowClient, XRequest.XMapSubwindowsFrame, XRequest.XMapWindowFrame]
      (h this).transientList.foldl
        (fun acc t =>
          match acc with
          | none => none
          | some (h, log) =>
            match «show» fuel h t with
            | none => none
            | some (h', l) => some (h', log ++ l))
        (some (h, log))

/-- BlackboxWindow::hide on the window `this`. -/
def hide (h : Heap) (this : Nat) : Heap × List XRequest :=
  if ¬ (h this).visible then (h, [])
  else
    let c := { h this with visible := false }
    let (c, log1) := c.setState (if c.iconic then IconicState else c.current_state)
    (Function.update h this c,
      log1 ++ [XRequest.XUnmapWindowFrame, XRequest.XGrabServer, XRequest.XSelectInput false,
        XRequest.XUnmapWindowClient, XRequest.XSelectInput true, XRequest.XUngrabServer])

/-! ## Workspace (src/src/Workspace.cc) -/

/-- What Workspace reads and writes of a BlackboxWindow through its accessors
(`getWindowNumber`, `isTransient`, `getTransientFor`, `getTransient`,
`isIconic`, `isShaded`, `getXFrame`, `getWidth`, ...). -/
structure WsWindow where
  window_number : Int
  workspace : Nat
  transient : Bool
  transient_for : Option Nat
  transient_child : Option Nat
  iconic : Bool
  shaded : Bool
  x_frame : Int
  y_frame : Int
  width : Nat
  height : Nat
  title_height : Nat
  deriving DecidableEq, Repr

/-- The windows of the session and the window that holds the input focus
(`isFocused()` of a window is "the focused window is this one"). -/
structure Session where
  win : Nat → WsWindow
  focused : Option Nat

/-- The fields of a Workspace. -/
structure Workspace where
  id : Nat
  stackingList : List Nat
  windowList : List Nat
  lastfocus : Option Nat
  cascade_x : Int
  cascade_y : Int
  deriving DecidableEq, Repr

/-- Modelled from the spec: LinkedList (LinkedList.hh is not among the sources),
the ordered list of member windows; `remove(int index)` takes out the element
at a position and does nothing for a position outside the list. -/
def LinkedList.removeAt (l : List Nat) (index : Int) : List Nat :=
  if 0 ≤ index ∧ index < l.length then l.eraseIdx index.toNat else l

/-- Modelled from the spec: LinkedList (LinkedList.hh is not among the sources);
`remove(T *)` takes out the element that is this pointer. -/
def LinkedList.remove (l : List Nat) (w : Nat) : List Nat := l.erase w

/-- The loop that closes removeWindow: `bw->setWindowNumber(i)` down the list,
counting from `i`. -/
def renumber (win : Nat → WsWindow) : List Nat → Int → (Nat → WsWindow)
  | [], _ => win
  | bw :: rest, i =>
    renumber (Function.update win bw { win bw with window_number := i }) rest (i + 1)

/-- Workspace::removeWindow; `setInputFocus p` tells whether
`p->setInputFocus()` succeeds (the window then holds the focus). The result is
the returned count with the new session and workspace. -/
def removeWindow (setInputFocus : Nat → Bool) (s : Session) (ws : Workspace)
    (w : Option Nat) : Int × Session × Workspace :=
  match w with
  | none => (-1, s, ws)
  | some w =>
    let stacking := LinkedList.remove ws.stackingList w
    let s1 : Session :=
      if s.focused = some w then
        let newfocus := if (s.win w).transient then (s.win w).transient_for else none
        let newfocus := match newfocus with
          | some p => some p
          | none => stacking.head?
        match newfocus with
        | none => { s with focused := none }
        | some p => if setInputFocus p then { s with focused := some p }
                    else { s with focused := none }
      else s
    let lastfocus := if ws.lastfocus = some w then none else ws.lastfocus
    let members := LinkedList.removeAt ws.windowList (s1.win w).window_number
    let win := renumber s1.win members 0
    (members.length, { s1 with win := win },
      { ws with stackingList := stacking, lastfocus := lastfocus, windowList := members })

/-- A window record with only its number set. -/
def numbered (i : Int) : WsWindow :=
  { window_number := i, workspace := 0, transient := false, transient_for := none,
    transient_child := none, iconic := false, shaded := false, x_frame := 0, y_frame := 0,
    width := 100, height := 100, title_height := 10 }

/-- Three windows 7, 8, 9 numbered 0, 1, 2; every other pointer is unused. -/
def threeWindows : Session :=
  { win := fun p => if p = 7 then numbered 0 else if p = 8 then numbered 1 else numbered 2
    focused := some 8 }

/-- The workspace that holds the three windows of `threeWindows`. -/
def threeMembers : Workspace :=
  { id := 0, stackingList := [8, 7, 9], windowList := [7, 8, 9], lastfocus := some 8,
    cascade_x := 0, cascade_y := 0 }

/-! ## Window placement (src/src/Workspace.cc, `Workspace::placeWindow`) -/

namespace Rect

/-- Modelled from the spec: the constructor `Rect(x, y, w, h)` of Util.hh (not
among the sources) on `int` arguments, for the rectangles placeWindow builds;
right and bottom are inclusive as in `Rect.ofSize`. -/
def make (x y w h : Int) : Rect := { x1 := x, y1 := y, x2 := x + w - 1, y2 := y + h - 1 }

/-- Modelled from the spec: `Rect::intersects` (Util.cc is not among the
sources): the two rectangles share a pixel. -/
def intersects (a b : Rect) : Bool :=
  decide (max a.x1 b.x1 ≤ min a.x2 b.x2 ∧ max a.y1 b.y1 ≤ min a.y2 b.y2)

/-- Modelled from the spec: `Rect::operator&=` (Util.cc is not among the
sources): the part common to both rectangles. -/
def inter (a b : Rect) : Rect :=
  { x1 := max a.x1 b.x1, y1 := max a.y1 b.y1, x2 := min a.x2 b.x2, y2 := min a.y2 b.y2 }

end Rect

/-- `BScreen::windowPlacement()`. -/
inductive Placement where
  | SmartRow
  | SmartColumn
  | Cascade
  deriving DecidableEq, Repr

/-- What placeWindow asks of the screen: the available area, the border width of
the style and the placement policy. -/
structure BScreen where
  availableArea : Rect
  borderWidth : Nat
  windowPlacement : Placement

/-- INT_MAX of a 32-bit `int`. -/
def INT_MAX : Int := 2147483647

/-- The rectangle `Rect two(...)` / `Rect r(...)` that placeWindow builds for a
member window `c`. -/
def memberRect (borderWidth : Nat) (c : WsWindow) : Rect :=
  let h : Int := if c.shaded then c.title_height else c.height
  Rect.make c.x_frame c.y_frame (c.width + borderWidth * 2) (h + borderWidth * 2)

/-- The rectangles of the members `c != win` of the window list, in list
order. -/
def otherRects (s : Session) (ws : Workspace) (borderWidth : Nat) (win : Nat) : List Rect :=
  (ws.windowList.filter (fun c => c ≠ win)).map (fun c => memberRect borderWidth (s.win c))

/-- The macro CALC_OVERLAP: the overlap value of the candidate
`Rect one(x, y, width, height)` with the other members. -/
def CALC_OVERLAP (others : List Rect) (x y width height : Int) : Int :=
  others.foldl
    (fun overlap two =>
      if two.intersects (Rect.make x y width height) then
        overlap +
          ((two.inter (Rect.make x y width height)).right -
              (two.inter (Rect.make x y width height)).left) *
            ((two.inter (Rect.make x y width height)).bottom -
              (two.inter (Rect.make x y width height)).top)
      else overlap)
    0

/-- The macro CALC_POSSIBLE_X for one member rectangle `r`. -/
def CALC_POSSIBLE_X (r : Rect) (x width possible : Int) : Int :=
  let possible :=
    if r.right > x then (if possible < r.right then possible else r.right) else possible
  if r.left - width > x then
    (if possible < r.left - width then possible else r.left - width)
  else possible

/-- The macro CALC_POSSIBLE_Y for one member rectangle `r`. -/
def CALC_POSSIBLE_Y (r : Rect) (y height possible : Int) : Int :=
  let possible :=
    if r.bottom > y then (if possible < r.bottom then possible else r.bottom) else possible
  if r.top - height > y then
    (if possible < r.top - height then possible else r.top - height)
  else possible

/-- The variables of the scan loop: the candidate origin, the best place so far
and its overlap. -/
structure Scan where
  x : Int
  y : Int
  place_x : Int
  place_y : Int
  min : Int
  deriving DecidableEq, Repr

/-- The value `overlap` gets at the top of a SmartRow iteration. -/
def rowOverlap (avail : Rect) (others : List Rect) (width height : Int) (s : Scan) : Int :=
  if s.y + height > avail.bottom then -1
  else if s.x + width > avail.right then -2
  else CALC_OVERLAP others s.x s.y width height

/-- The value `overlap` gets at the top of a SmartColumn iteration. -/
def columnOverlap (avail : Rect) (others : List Rect) (width height : Int) (s : Scan) : Int :=
  if s.y + height > avail.bottom then -2
  else if s.x + width > avail.right then -1
  else CALC_OVERLAP others s.x s.y width height

/-- The next candidate along a row: the loop under `if (overlap > 0)` of
SmartRow, also the one under `overlap == -2` of SmartColumn when `all` is
set (no test on the rows the member spans). -/
def nextX (avail : Rect) (others : List Rect) (width height : Int) (s : Scan) (all : Bool) :
    Int :=
  others.foldl
    (fun possible r =>
      if all ∨ (s.y < r.bottom ∧ r.top < s.y + height) then CALC_POSSIBLE_X r s.x width possible
      else possible)
    (if avail.right - width > s.x then avail.right - width else avail.right)

/-- The next candidate down a column: the loop under `overlap == -2` of
SmartRow when `all` is set, and the one under `if (overlap > 0)` of
SmartColumn. -/
def nextY (avail : Rect) (others : List Rect) (width height : Int) (s : Scan) (all : Bool) :
    Int :=
  others.foldl
    (fun possible r =>
      if all ∨ (s.x < r.right ∧ r.left < s.x + width) then CALC_POSSIBLE_Y r s.y height possible
      else possible)
    (if avail.bottom - height > s.y then avail.bottom - height else avail.bottom)

/-- The part of an iteration that follows the computation of `overlap`, up to
the new candidate, for SmartRow. The second component is `overlap`. -/
def smartRowStep (avail : Rect) (others : List Rect) (width height : Int) (s : Scan) :
    Scan × Int :=
  let overlap := rowOverlap avail others width height s
  if overlap = 0 then ({ s with place_x := s.x, place_y := s.y }, overlap)
  else
    let s := if overlap ≥ 0 ∧ overlap < s.min then
      { s with min := overlap, place_x := s.x, place_y := s.y } else s
    if overlap > 0 then ({ s with x := nextX avail others width height s false }, overlap)
    else if overlap = -2 then
      ({ s with x := avail.x, y := nextY avail others width height s true }, overlap)
    else (s, overlap)

/-- One iteration of the SmartColumn loop. -/
def smartColumnStep (avail : Rect) (others : List Rect) (width height : Int) (s : Scan) :
    Scan × Int :=
  let overlap := columnOverlap avail others width height s
  if overlap = 0 then ({ s with place_x := s.x, place_y := s.y }, overlap)
  else
    let s := if overlap ≥ 0 ∧ overlap < s.min then
      { s with min := overlap, place_x := s.x, place_y := s.y } else s
    if overlap > 0 then ({ s with y := nextY avail others width height s false }, overlap)
    else if overlap = -2 then
      ({ s with y := avail.y, x := nextX avail others width height s true }, overlap)
    else (s, overlap)

/-- The loop `do { ... } while (overlap != 0 && overlap != -1)` over a step
function: the variables and the last `overlap` when it ends. -/
def scanLoop (step : Scan → Scan × Int) : Nat → Scan → Option (Scan × Int)
  | 0, _ => none
  | fuel + 1, s =>
    if (step s).2 ≠ 0 ∧ (step s).2 ≠ -1 then scanLoop step fuel (step s).1
    else some (step s)

/-- The size placeWindow scans with: the frame size, cut to one pixel less than
the available area when it does not fit (`width >= avail.width()` compares as
unsigned). -/
def clipSize (size : Int) (availSize : Nat) : Int :=
  if toUnsigned size ≥ availSize then toSigned ((availSize : Int) - 1) else size

/-- The scan of the SmartRow case (SmartColumn when `column` is set) as
placeWindow runs it: from the top-left corner of the available area, with the
clipped frame size of `win`, against the other members. The result is the scan
variables and the last `overlap`. -/
def smartScan (scr : BScreen) (s : Session) (ws : Workspace) (win : Nat) (column : Bool)
    (fuel : Nat) : Option (Scan × Int) :=
  let avail := scr.availableArea
  let width : Int := (s.win win).width + scr.borderWidth * 2
  let height : Int := (s.win win).height + scr.borderWidth * 2
  let start : Scan :=
    { x := avail.x, y := avail.y, place_x := avail.x, place_y := avail.y, min := INT_MAX }
  let others := otherRects s ws scr.borderWidth win
  if column then
    scanLoop (smartColumnStep avail others (clipSize width avail.width)
      (clipSize height avail.height)) fuel start
  else
    scanLoop (smartRowStep avail others (clipSize width avail.width)
      (clipSize height avail.height)) fuel start

/-- Workspace::placeWindow: the workspace (its cascade point may move) and the
position `(place_x, place_y)` passed to `win->configure`. `none` when the fuel
of the scan runs out or Cascade divides by a zero width or height. -/
def placeWindow (scr : BScreen) (s : Session) (ws : Workspace) (win : Nat) (fuel : Nat) :
    Option (Workspace × Int × Int) :=
  let avail := scr.availableArea
  let width : Int := (s.win win).width + scr.borderWidth * 2
  let height : Int := (s.win win).height + scr.borderWidth * 2
  match scr.windowPlacement with
  | .SmartRow =>
    match smartScan scr s ws win false fuel with
    | none => none
    | some r => some (ws, r.1.place_x, r.1.place_y)
  | .SmartColumn =>
    match smartScan scr s ws win true fuel with
    | none => none
    | some r => some (ws, r.1.place_x, r.1.place_y)
  | .Cascade =>
    let off : Bool := ws.cascade_x + width > avail.right ∨ ws.cascade_y + height > avail.bottom
    let place_x := if off then toSigned (toUnsigned (avail.width - width) / 2) else ws.cascade_x
    let place_y := if off then toSigned (toUnsigned (avail.height - height) / 2)
      else ws.cascade_y
    if avail.width = 0 ∨ avail.height = 0 then none
    else
      some ({ ws with
          cascade_x := toSigned ((toUnsigned (ws.cascade_x + 32) % avail.width : Nat) : Int),
          cascade_y := toSigned ((toUnsigned (ws.cascade_y + 32) % avail.height : Nat) : Int) },
        place_x, place_y)

/-- The available area has a positive width and height that fit an `int`. -/
def Rect.Proper (r : Rect) : Prop :=
  1 ≤ r.x2 - r.x1 + 1 ∧ r.x2 - r.x1 + 1 < 2147483648 ∧
  1 ≤ r.y2 - r.y1 + 1 ∧ r.y2 - r.y1 + 1 < 2147483648

/-- A 1024x768 screen with border width 1 and the SmartRow policy. -/
def rowScreen : BScreen :=
  { availableArea := Rect.make 0 0 1024 768, borderWidth := 1,
    windowPlacement := Placement.SmartRow }

/-- Window 7 of `threeWindows` alone on its workspace. -/
def loneMember : Workspace :=
  { id := 0, stackingList := [], windowList := [7], lastfocus := none,
    cascade_x := 0, cascade_y := 0 }

/-- The fields of an XEvent the dispatcher reads or rewrites. -/
structure XEvent where
  type : Nat
  window : Nat
  x : Int
  y : Int
  width : Int
  height : Int
  state : Nat
  time : Nat
  deriving DecidableEq, Repr

/-- The event type codes (X11/X.h). -/
def KeyPress : Nat := 2
def KeyRelease : Nat := 3
def ButtonPress : Nat := 4
def ButtonRelease : Nat := 5
def MotionNotify : Nat := 6
def EnterNotify : Nat := 7
def LeaveNotify : Nat := 8
def Expose : Nat := 12
def NoExpose : Nat := 14
def DestroyNotify : Nat := 17
def UnmapNotify : Nat := 18
def MapNotify : Nat := 19
def ReparentNotify : Nat := 21
def ConfigureNotify : Nat := 22
def ConfigureRequest : Nat := 23
def PropertyNotify : Nat := 28
def ClientMessage : Nat := 33

/-- LockMask (X11/X.h). -/
def LockMask : Nat := 2

/-- The state of bt::Application that process_event uses: the handler map,
which handlers are menus (`dynamic_cast<Menu*>`), the open menus, the menu
grab, the server time, the lock masks of the display and the base of the shape
events (`none` without the extension). -/
structure Application where
  eventhandlers : Nat → Option Nat
  isMenu : Nat → Bool
  menus : List Nat
  menu_grab : Bool
  xserver_time : Nat
  NumLockMask : Nat
  ScrollLockMask : Nat
  shape_event_base : Option Nat

/-- What process_event does to the outside: an XAllowEvents request, or the
call of the handler method that belongs to the type of the event. -/
inductive Effect where
  | XAllowEventsPointer (time : Nat)
  | XAllowEventsKeyboard (time : Nat)
  | deliver (handler : Nat) (event : XEvent)
  deriving DecidableEq, Repr

/-- Xlib's XCheckTypedWindowEvent on the event queue: the first queued event of
that window and type is taken out and returned. -/
def XCheckTypedWindowEvent (q : List XEvent) (w ty : Nat) : Option (XEvent × List XEvent) :=
  match q with
  | [] => none
  | e :: rest =>
    if e.window = w ∧ e.type = ty then some (e, rest)
    else
      match XCheckTypedWindowEvent rest w ty with
      | none => none
      | some (r, q') => some (r, e :: q')

/-- The loop `while (XCheckTypedWindowEvent(..., &realevent)) ++i;` of the
MotionNotify and ConfigureNotify cases: the queue left, `realevent` and `i`. -/
def compressEvents (w ty : Nat) :
    Nat → List XEvent → Option XEvent → Nat → Option (List XEvent × Option XEvent × Nat)
  | 0, _, _, _ => none
  | fuel + 1, q, realevent, i =>
    match XCheckTypedWindowEvent q w ty with
    | none => some (q, realevent, i)
    | some (ev, q') => compressEvents w ty fuel q' (some ev) (i + 1)

/-- The loop of the Expose case, which also merges the exposed area
`(ex1, ey1, ex2, ey2)`. -/
def compressExpose (w : Nat) :
    Nat → List XEvent → Option XEvent → Nat → Int × Int × Int × Int →
      Option (List XEvent × Option XEvent × Nat × (Int × Int × Int × Int))
  | 0, _, _, _, _ => none
  | fuel + 1, q, realevent, i, (ex1, ey1, ex2, ey2) =>
    match XCheckTypedWindowEvent q w Expose with
    | none => some (q, realevent, i, (ex1, ey1, ex2, ey2))
    | some (ev, q') =>
      compressExpose w fuel q' (some ev) (i + 1)
        (min ev.x ex1, min ev.y ey1, max (ev.x + ev.width - 1) ex2,
          max (ev.y + ev.height - 1) ey2)

/-- The statement `state &= ~mask` on an unsigned int. -/
def stripMask (state mask : Nat) : Nat := state &&& (4294967295 ^^^ mask)

/-- The handler and the request chosen under `if (menu_grab)` for pointer
events; `none` is `menus.front()` on an empty list. -/
def pointerHandler (app : Application) (handler : Nat) : Option (Nat × List Effect) :=
  if app.menu_grab then
    if app.isMenu handler then some (handler, [Effect.XAllowEventsPointer app.xserver_time])
    else
      match app.menus.head? with
      | none => none
      | some m => some (m, [Effect.XAllowEventsPointer app.xserver_time])
  else some (handler, [])

/-- bt::Application::process_event on the event `event` (already taken from
the queue by XNextEvent), with the rest of the queue `q`: the application, the
queue and the effects afterwards. The fuel bounds the compression loops. -/
def process_event (app : Application) (q : List XEvent) (event : XEvent) (fuel : Nat) :
    Option (Application × List XEvent × List Effect) :=
  match app.eventhandlers event.window with
  | none => some (app, q, [])
  | some handler =>
    if event.type = ButtonPress ∨ event.type = ButtonRelease ∨ event.type = MotionNotify then
      match pointerHandler app handler with
      | none => none
      | some (handler, allow) =>
        let lock := app.NumLockMask ||| app.ScrollLockMask ||| LockMask
        if event.type = MotionNotify then
          let app := { app with xserver_time := event.time }
          match compressEvents event.window MotionNotify fuel q none 0 with
          | none => none
          | some (q, realevent, i) =>
            let event := if i > 0 then realevent.getD event else event
            let event := { event with state := stripMask event.state lock }
            some (app, q, allow ++ [Effect.deliver handler event])
        else
          let app := { app with xserver_time := event.time }
          let event := { event with state := stripMask event.state lock }
          some (app, q, allow ++ [Effect.deliver handler event])
    else if event.type = EnterNotify ∨ event.type = LeaveNotify then
      if app.menu_grab ∧ ¬ app.isMenu handler then some (app, q, [])
      else some ({ app with xserver_time := event.time }, q, [Effect.deliver handler event])
    else if event.type = KeyPress ∨ event.type = KeyRelease then
      let target : Option (Nat × List Effect) :=
        if app.menu_grab then
          match app.menus.head? with
          | none => none
          | some m => some (m, [Effect.XAllowEventsKeyboard app.xserver_time])
        else some (handler, [])
      match target with
      | none => none
      | some (handler, allow) =>
        let app := { app with xserver_time := event.time }
        let lock := app.ScrollLockMask ||| LockMask
        let event := { event with state := stripMask event.state lock }
        some (app, q, allow ++ [Effect.deliver handler event])
    else if event.type = PropertyNotify then
      some ({ app with xserver_time := event.time }, q, [Effect.deliver handler event])
    else if event.type = Expose then
      match compressExpose event.window fuel q none 0
          (event.x, event.y, event.x + event.width - 1, event.y + event.height - 1) with
      | none => none
      | some (q, realevent, i, (ex1, ey1, ex2, ey2)) =>
        let event := if i > 0 then realevent.getD event else event
        let event := { event with x := ex1, y := ey1, width := ex2 - ex1 + 1,
                                  height := ey2 - ey1 + 1 }
        some (app, q, [Effect.deliver handler event])
    else if event.type = ConfigureNotify then
      match compressEvents event.window ConfigureNotify fuel q none 0 with
      | none => none
      | some (q, realevent, i) =>
        let event := if i > 0 then realevent.getD event else event
        some (app, q, [Effect.deliver handler event])
    else if event.type = MapNotify ∨ event.type = UnmapNotify ∨ event.type = ReparentNotify ∨
        event.type = DestroyNotify ∨ event.type = ConfigureRequest ∨
        event.type = ClientMessage then
      some (app, q, [Effect.deliver handler event])
    else if event.type = NoExpose then some (app, q, [])
    else if app.shape_event_base = some event.type then
      some (app, q, [Effect.deliver handler event])
    else some (app, q, [])

/-- A MotionNotify event for window 5 at `(x, y)`. -/
def motionAt (x y : Int) : XEvent :=
  { type := MotionNotify, window := 5, x := x, y := y, width := 0, height := 0,
    state := 0, time := 0 }

/-- An application in which window 5 has the handler 1 and no menu is open. -/
def plainApplication : Application :=
  { eventhandlers := fun w => if w = 5 then some 1 else none, isMenu := fun _ => false,
    menus := [], menu_grab := false, xserver_time := 0, NumLockMask := 16,
    ScrollLockMask := 0, shape_event_base := none }

/-- The member `C` and the window at `(x, y)` have more than a line of pixels
in common: both factors of the term CALC_OVERLAP adds for `C` are positive. -/
def overlapsAt (C : Rect) (x y width height : Int) : Prop :=
  max C.x1 x < min C.x2 (x + width - 1) ∧ max C.y1 y < min C.y2 (y + height - 1)

/-- The action `data.l[0]` of a _NET_WM_STATE message as the branch tells the
values apart: `netwm.wmStateRemove()`, `wmStateAdd()`, `wmStateToggle()`, or
any other value. -/
inductive NetAction where
  | remove
  | add
  | toggle
  | unknown
  deriving DecidableEq, Repr

/-- The state atoms `data.l[1]` and `data.l[2]` as the maximize part of the
branch tells them apart; `unnamed` is an atom that none of the tests of the
branch matches (0 in a message that names one state only). A message that
names another state (modal, shaded, skip, fullscreen, above, below) runs code
of its own before the maximize block. -/
inductive NetState where
  | maximizedHorz
  | maximizedVert
  | hidden
  | unnamed
  deriving DecidableEq, Repr

/-- The flag `max_horz` of the _NET_WM_STATE branch. -/
def maxHorzFlag (w : BlackboxWindow) (action : NetAction) (first second : NetState) : Int :=
  if first = NetState.maximizedHorz ∨ second = NetState.maximizedHorz then
    if action = NetAction.add ∨
        (action = NetAction.toggle ∧ ¬ (w.maximized = 1 ∨ w.maximized = 3)) then 1
    else -1
  else 0

/-- The flag `max_vert` of the _NET_WM_STATE branch. -/
def maxVertFlag (w : BlackboxWindow) (action : NetAction) (first second : NetState) : Int :=
  if first = NetState.maximizedVert ∨ second = NetState.maximizedVert then
    if action = NetAction.add ∨
        (action = NetAction.toggle ∧ ¬ (w.maximized = 1 ∨ w.maximized = 2)) then 1
    else -1
  else 0

/-- The button the maximize block chooses from the two flags (0: none). -/
def maximizeButton (max_horz max_vert : Int) : Nat :=
  if max_horz = 1 ∧ max_vert ≠ 1 then 3
  else if max_vert = 1 ∧ max_horz ≠ 1 then 2
  else if max_vert = 1 ∧ max_horz = 1 then 1
  else 0

/-- The _NET_WM_STATE branch of clientMessageEvent for a message whose two
atoms are maximize states, Hidden or unnamed: the two flags and the block
`if (max_horz != 0 || max_vert != 0)`. -/
def netWMStateMaximize (availableArea : Rect) (w : BlackboxWindow) (action : NetAction)
    (first second : NetState) : Option (BlackboxWindow × List XRequest) :=
  let max_horz := maxHorzFlag w action first second
  let max_vert := maxVertFlag w action first second
  if max_horz ≠ 0 ∨ max_vert ≠ 0 then
    match (if w.maximized ≠ 0 then maximize availableArea w 0 else some (w, [])) with
    | none => none
    | some (w1, log1) =>
      if maximizeButton max_horz max_vert ≠ 0 then
        match maximize availableArea w1 (maximizeButton max_horz max_vert) with
        | none => none
        | some (w2, log2) => some (w2, log1 ++ log2)
      else some (w1, log1)
  else some (w, [])

/-- The window `onScreenWindow` maximized horizontally (mode 3) on a 1024x768
available area. -/
def maximizedHorz : BlackboxWindow :=
  ((maximize (Rect.ofSize 0 0 1024 768) onScreenWindow 3).getD (onScreenWindow, [])).1

/-- The window `onScreenWindow` maximized vertically (mode 2). -/
def maximizedVert : BlackboxWindow := maximizedOnce.1

/-- Size hints under which constrain runs to its end: min <= max, the base
size not above the minimum size (the assertion of constrain), and no zero
among the divisors the increment and aspect steps use. -/
def SizeHintsOK (w : BlackboxWindow) : Prop :=
  w.min_width ≤ w.max_width ∧ w.min_height ≤ w.max_height ∧
  w.base_width ≤ w.min_width ∧ w.base_height ≤ w.min_height ∧
  (hasFlag w.normal_hint_flags PResizeInc = true ∨ hasFlag w.normal_hint_flags PAspect = true →
    w.width_inc ≠ 0 ∧ w.height_inc ≠ 0) ∧
  (hasFlag w.normal_hint_flags PAspect = true →
    w.min_aspect_x ≠ 0 ∧ w.min_aspect_y ≠ 0 ∧ w.max_aspect_x ≠ 0 ∧ w.max_aspect_y ≠ 0)

/-- The size hints of a window, in the order of the structure. -/
def sizeHints (w : BlackboxWindow) : List Nat :=
  [w.normal_hint_flags, w.min_width, w.min_height, w.max_width, w.max_height, w.width_inc,
    w.height_inc, w.min_aspect_x, w.min_aspect_y, w.max_aspect_x, w.max_aspect_y,
    w.base_width, w.base_height]

/-! ## Synthetic ConfigureNotify (src/src/Window.cc, `configure`) -/

/-- The request is the `XSendEvent` of a synthetic ConfigureNotify. -/
def XRequest.isConfigureNotify : XRequest → Bool
  | .XSendConfigureNotify _ _ _ _ => true
  | _ => false

/-- The number of synthetic ConfigureNotify events among the requests. -/
def configureNotifyCount (log : List XRequest) : Nat :=
  log.countP XRequest.isConfigureNotify

/-- The window `onScreenWindow` with the shape extension in use. -/
def shapedWindow : BlackboxWindow := { onScreenWindow with shaped := true }

/-! ## Iconify (src/src/Window.cc, `iconify` and the WM_CHANGE_STATE message) -/

/-- BlackboxWindow::iconify on the window `this`, with the requests issued
(`screen->addIcon` is one entry). The fuel bounds the depth of the recursion
through the owner and the transient lists. -/
def iconify : Nat → Heap → Nat → Option (Heap × List XRequest)
  | 0, _, _ => none
  | fuel + 1, h, this =>
    if (h this).iconic then some (h, [])
    else
      let owner : Option (Heap × List XRequest) :=
        match (h this).transient_for with
        | .win p => if ¬ (h p).iconic then iconify fuel h p else some (h, [])
        | _ => some (h, [])
      match owner with
      | none => none
      | some (h, log1) =>
        let h := Function.update h this { h this with iconic := true }
        let r := hide h this
        (r.1 this).transientList.foldl
          (fun acc t =>
            match acc with
            | none => none
            | some (h, log) =>
              match iconify fuel h t with
              | none => none
              | some (h', l) => some (h', log ++ l))
          (some (r.1, log1 ++ [XRequest.addIcon] ++ r.2))

/-- The window is iconic and not visible. -/
def Done (h : Heap) (v : Nat) : Prop := (h v).iconic = true ∧ (h v).visible = false

/-- The window `u` is `v` or is reachable from `v` through transient lists. -/
def Below (g : Heap) (v u : Nat) : Prop :=
  Relation.ReflTransGen (fun a b => b ∈ (g a).transientList) v u

/-- The window `v` and every window reachable from it through the transient
lists of `g` are iconic and not visible in `h`. -/
def Closed (g h : Heap) (v : Nat) : Prop := ∀ u, Below g v u → Done h u

/-- The transient lists mirror the transient_for links. -/
def Mirrored (h : Heap) : Prop :=
  ∀ a b, a ∈ (h b).transientList ↔ (h a).transient_for = .win b

/-- The heap `h` has the transient_for links and transient lists of `g`. -/
def SameTransients (g h : Heap) : Prop :=
  ∀ v, (h v).transient_for = (g v).transient_for ∧ (h v).transientList = (g v).transientList

/-- Every entry of a transient list is one of the `n` managed windows. -/
def ListsManaged (h : Heap) (n : Nat) : Prop := ∀ b, ∀ c ∈ (h b).transientList, c < n

/-- The loop over the transient list that closes iconify. -/
def iconifyAll (fuel : Nat) (l : List Nat) (start : Option (Heap × List XRequest)) :
    Option (Heap × List XRequest) :=
  l.foldl
    (fun acc t =>
      match acc with
      | none => none
      | some (h, log) =>
        match iconify fuel h t with
        | none => none
        | some (h', l) => some (h', log ++ l))
    start

/-- Two managed windows, window 1 a transient of window 0 (and in its
transient list), window 1 visible; `owner_iconic` says whether window 0 is
already iconic (and then not visible). -/
def pairHeap (owner_iconic : Bool) : Heap := fun i =>
  if i = 0 then
    { window := 10, window_group := 0, transient_for := .null, transientList := [1],
      workspace := 0, modal := false, visible := !owner_iconic, iconic := owner_iconic,
      shaded := false, current_state := 1 }
  else if i = 1 then
    { window := 11, window_group := 0, transient_for := .win 0, transientList := [],
      workspace := 0, modal := false, visible := true, iconic := false, shaded := false,
      current_state := 1 }
  else
    { window := i + 10, window_group := 0, transient_for := .null, transientList := [],
      workspace := 0, modal := false, visible := false, iconic := false, shaded := false,
      current_state := 0 }

/-! ## Size hints read and applied (getWMNormalHints, constrain) -/

/-- Hints with PMinSize only: a minimum size of 2000x2000. -/
def hugeMinHints : XSizeHints :=
  { flags := 16, min_width := 2000, min_height := 2000, max_width := 0, max_height := 0,
    width_inc := 0, height_inc := 0, min_aspect_x := 0, min_aspect_y := 0,
    max_aspect_x := 0, max_aspect_y := 0, base_width := 0, base_height := 0,
    win_gravity := 0 }

/-- The window `plainWindow` after reading `hugeMinHints` on a 1024x768 screen. -/
def hugeMinWindow : BlackboxWindow := getWMNormalHints 1024 768 (some hugeMinHints) plainWindow

/-- A requested rectangle (50, 40) 200x150 for the window `onScreenWindow`,
whose frame is at (30, 40) 100x100. -/
def resizeRequest : BlackboxWindow :=
  { onScreenWindow with changing := Rect.ofSize 50 40 200 150 }

/-- The workspaces of the screen by number (`screen->getWorkspace(n)`). -/
abbrev Workspaces := Nat → Workspace

/-- The loop `while (bottom->isTransient())` that opens raiseWindow and
lowerWindow: the bottom-most owner of the chain. -/
def findBottom (s : Session) : Nat → Nat → Option Nat
  | 0, _ => none
  | fuel + 1, bottom =>
    if (s.win bottom).transient then
      match (s.win bottom).transient_for with
      | none => some bottom
      | some bw => findBottom s fuel bw
    else some bottom

/-- The loop `while (win->hasTransient() && win->getTransient())` that counts
the chain: the window it ends on and the count `i`. -/
def findTop (s : Session) : Nat → Nat → Nat → Option (Nat × Nat)
  | 0, _, _ => none
  | fuel + 1, win, i =>
    match (s.win win).transient_child with
    | none => some (win, i)
    | some t => findTop s fuel t (i + 1)

/-- The statements `wkspc->stackingList->remove(win);` and
`wkspc->stackingList->insert(win, 0);` on the workspace of `win`. -/
def restackFront (s : Session) (wss : Workspaces) (win : Nat) : Workspaces :=
  Function.update wss (s.win win).workspace
    { wss (s.win win).workspace with
      stackingList := win :: LinkedList.remove (wss (s.win win).workspace).stackingList win }

/-- The statements `wkspc->stackingList->remove(win);` and
`wkspc->stackingList->insert(win);` on the workspace of `win`. -/
def restackBack (s : Session) (wss : Workspaces) (win : Nat) : Workspaces :=
  Function.update wss (s.win win).workspace
    { wss (s.win win).workspace with
      stackingList := LinkedList.remove (wss (s.win win).workspace).stackingList win ++ [win] }

/-- The loop `while (True)` of raiseWindow from `win` up the chain: the
workspaces and the windows written to `nstack`. -/
def raiseLoop (s : Session) : Nat → Workspaces → Nat → Option (Workspaces × List Nat)
  | 0, _, _ => none
  | fuel + 1, wss, win =>
    let wss := if ¬ (s.win win).iconic then restackFront s wss win else wss
    match (s.win win).transient_child with
    | none => some (wss, [win])
    | some t =>
      match raiseLoop s fuel wss t with
      | none => none
      | some (wss', stack) => some (wss', win :: stack)

/-- Workspace::raiseWindow: the workspaces and the windows passed to
`screen->raiseWindows`. -/
def raiseWindow (fuel : Nat) (s : Session) (wss : Workspaces) (w : Nat) :
    Option (Workspaces × List Nat) :=
  match findBottom s fuel w with
  | none => none
  | some bottom =>
    match findTop s fuel bottom 1 with
    | none => none
    | some _ => raiseLoop s fuel wss bottom

/-- The loop `while (True)` of lowerWindow from `win` down the owners. -/
def lowerLoop (s : Session) : Nat → Workspaces → Nat → Option (Workspaces × List Nat)
  | 0, _, _ => none
  | fuel + 1, wss, win =>
    let wss := if ¬ (s.win win).iconic then restackBack s wss win else wss
    match (s.win win).transient_for with
    | none => some (wss, [win])
    | some p =>
      match lowerLoop s fuel wss p with
      | none => none
      | some (wss', stack) => some (wss', win :: stack)

/-- Workspace::lowerWindow: the workspaces and the windows passed to
XRestackWindows. -/
def lowerWindow (fuel : Nat) (s : Session) (wss : Workspaces) (w : Nat) :
    Option (Workspaces × List Nat) :=
  match findBottom s fuel w with
  | none => none
  | some bottom =>
    match findTop s fuel bottom 1 with
    | none => none
    | some top => lowerLoop s fuel wss top.1

/-- The statement `if (place) placeWindow(w);` of addWindow on the workspace
number `k`: placeWindow ends with `win->configure(place_x, place_y, ...)`. -/
def placeFirst (scr : BScreen) (fuel : Nat) (s : Session) (wss : Workspaces) (k w : Nat)
    (place : Bool) : Option (Session × Workspaces) :=
  if place then
    match placeWindow scr s (wss k) w fuel with
    | none => none
    | some (ws, px, py) =>
      let moved : WsWindow := { s.win w with x_frame := px, y_frame := py }
      some ({ s with win := Function.update s.win w moved }, Function.update wss k ws)
  else some (s, wss)

/-- The statements of addWindow from `w->setWorkspace(id)` to
`windowList->insert(w)`. -/
def enterWindow (s : Session) (wss : Workspaces) (k w : Nat) : Session × Workspaces :=
  let entered : WsWindow :=
    { s.win w with workspace := (wss k).id,
                   window_number := ((wss k).windowList.length : Int) }
  let joined : Workspace :=
    { wss k with stackingList := w :: (wss k).stackingList,
                 windowList := (wss k).windowList ++ [w] }
  ({ s with win := Function.update s.win w entered }, Function.update wss k joined)

/-- Workspace::addWindow on the workspace number `k`: the returned window
number with the new session and workspaces; `none` when placeWindow or
raiseWindow does not return. -/
def addWindow (scr : BScreen) (fuel : Nat) (s : Session) (wss : Workspaces) (k : Nat)
    (w : Option Nat) (place : Bool) : Option (Int × Session × Workspaces) :=
  match w with
  | none => some (-1, s, wss)
  | some w =>
    match placeFirst scr fuel s wss k w place with
    | none => none
    | some (s, wss) =>
      match raiseWindow fuel (enterWindow s wss k w).1 (enterWindow s wss k w).2 w with
      | none => none
      | some (wss', _) =>
        some (((enterWindow s wss k w).1.win w).window_number, (enterWindow s wss k w).1, wss')

/-- The three windows of a transient chain 1 <- 2 <- 3 on workspace 0 (window
2 is a transient of window 1, window 3 of window 2), and other windows without
transients, all on workspace 0. -/
def chainSession : Session :=
  { win := fun p =>
      if p = 1 then { numbered 0 with transient_child := some 2 }
      else if p = 2 then
        { numbered 1 with transient := true, transient_for := some 1, transient_child := some 3 }
      else if p = 3 then { numbered 2 with transient := true, transient_for := some 2 }
      else numbered 3
    focused := none }

/-- Workspace 0 holds the windows 1, 2, 3 and 4, stacked 4, 3, 1, 2; the other
workspaces are empty. -/
def chainWorkspaces : Workspaces := fun k =>
  if k = 0 then
    { id := 0, stackingList := [4, 3, 1, 2], windowList := [1, 2, 3, 4], lastfocus := none,
      cascade_x := 0, cascade_y := 0 }
  else
    { id := k, stackingList := [], windowList := [], lastfocus := none,
      cascade_x := 0, cascade_y := 0 }

/-- The windows a loop visits that goes from `a` to `next a` until there is no
next window. -/
def follow (next : Nat → Option Nat) : Nat → Nat → Option (List Nat)
  | 0, _ => none
  | fuel + 1, a =>
    match next a with
    | none => some [a]
    | some b =>
      match follow next fuel b with
      | none => none
      | some l => some (a :: l)

/-- The owner the loop of `findBottom` goes to from `b`. -/
def ownerNext (s : Session) (b : Nat) : Option Nat :=
  if (s.win b).transient then (s.win b).transient_for else none

/-- The transient chain from `bottom` up, through `getTransient()`. -/
def transientChain (s : Session) (fuel bottom : Nat) : Option (List Nat) :=
  follow (fun a => (s.win a).transient_child) fuel bottom

/-- The chain of `next` is finite and acyclic: every window it names is one of
the `n` managed windows and none reaches itself. -/
def ChainOK (next : Nat → Option Nat) (n : Nat) : Prop :=
  (∀ a b, next a = some b → b < n) ∧
  (∀ x, ¬ Relation.TransGen (fun a b => next a = some b) x x)

/-- The restacking raiseWindow does for the windows of `l` in turn. -/
def restackAll (s : Session) (wss : Workspaces) (l : List Nat) : Workspaces :=
  l.foldl (fun wss x => if ¬ (s.win x).iconic then restackFront s wss x else wss) wss

/-- The non-iconic windows of `l` that live on workspace `k`. -/
def stackedOn (s : Session) (k : Nat) (l : List Nat) : List Nat :=
  l.filter (fun x => decide ((s.win x).iconic = false ∧ (s.win x).workspace = k))

/-- Two dialogs of one owner: the windows 2 and 3 are both transients of the
window 1, whose single transient pointer names the window 3; all on
workspace 0. -/
def twoDialogs : Session :=
  { win := fun p =>
      if p = 1 then { numbered 0 with transient_child := some 3 }
      else if p = 2 then { numbered 1 with transient := true, transient_for := some 1 }
      else if p = 3 then { numbered 2 with transient := true, transient_for := some 1 }
      else numbered 3
    focused := none }

/-- Workspace 0 holds the windows 1, 2, 3 and 4, stacked 2, 1, 3, 4; the other
workspaces are empty. -/
def twoDialogWorkspaces : Workspaces := fun k =>
  if k = 0 then
    { id := 0, stackingList := [2, 1, 3, 4], windowList := [1, 2, 3, 4], lastfocus := none,
      cascade_x := 0, cascade_y := 0 }
  else
    { id := k, stackingList := [], windowList := [], lastfocus := none,
      cascade_x := 0, cascade_y := 0 }

/-! ## The stacking invariant of a workspace -/

/-- Every window in a stacking list is a non-iconic window of the member list
of the same workspace. -/
def StackingOK (s : Session) (wss : Workspaces) : Prop :=
  ∀ k, ∀ x ∈ (wss k).stackingList, x ∈ (wss k).windowList ∧ (s.win x).iconic = false

/-- Every non-iconic window among the `n` managed ones, `w` apart, is a member
of the workspace its workspace number names. -/
def MembersBut (s : Session) (wss : Workspaces) (n : Nat) (w : Option Nat) : Prop :=
  ∀ x, x < n → some x ≠ w → (s.win x).iconic = false →
    x ∈ (wss (s.win x).workspace).windowList

/-- The owner and transient pointers of the session point to the `n` managed
windows. -/
def Bounded (s : Session) (n : Nat) : Prop :=
  (∀ a b, (s.win a).transient_for = some b → b < n) ∧
  (∀ a b, (s.win a).transient_child = some b → b < n)

/-- The session `chainSession` with window 9 iconic. -/
def iconSession : Session :=
  { chainSession with win := fun p =>
      if p = 9 then { numbered 4 with iconic := true } else chainSession.win p }

/-- Workspaces without windows. -/
def emptyWorkspaces : Workspaces := fun k =>
  { id := k, stackingList := [], windowList := [], lastfocus := none,
    cascade_x := 0, cascade_y := 0 }

/-- Three managed windows 0 <- 1 <- 2 (window 1 is a transient of window 0,
window 2 of window 1), all on workspace 0. -/
def trioSession : Session :=
  { win := fun p =>
      if p = 0 then { numbered 0 with transient_child := some 1 }
      else if p = 1 then
        { numbered 1 with transient := true, transient_for := some 0, transient_child := some 2 }
      else if p = 2 then { numbered 2 with transient := true, transient_for := some 1 }
      else numbered 3
    focused := none }

/-- Workspace 0 holds the windows 0, 1 and 2, stacked 2, 0, 1; the other
workspaces are empty. -/
def trioWorkspaces : Workspaces := fun k =>
  if k = 0 then
    { id := 0, stackingList := [2, 0, 1], windowList := [0, 1, 2], lastfocus := none,
      cascade_x := 0, cascade_y := 0 }
  else
    { id := k, stackingList := [], windowList := [], lastfocus := none,
      cascade_x := 0, cascade_y := 0 }

/-! ## Transient links in both directions (getTransientInfo, ~BlackboxWindow) -/

/-- For the windows that `live` marks as managed: window `a` is in the
transientList of window `b` exactly once when `a.transient_for == b`, and not at
all otherwise. -/
def Bidirectional (live : Nat → Prop) (h : Heap) : Prop :=
  ∀ a b, live a → live b →
    (h b).transientList.count a = if (h a).transient_for = .win b then 1 else 0

/-- The registry only hands out pointers to managed windows. -/
def RegistryLive (reg : Registry) (live : Nat → Prop) : Prop :=
  (∀ x p, reg.findWindow x = some p → live p) ∧ (∀ g p, reg.groupFind g = some p → live p)

/-- BlackboxWindow::isTransient (Window.hh): `client.transient_for` is not the
null pointer. -/
def isTransient (c : Client) : Bool :=
  match c.transient_for with
  | .null => false
  | _ => true

/-- The part of ~BlackboxWindow that takes the window out of the transient
links: it leaves the list of its owner, and its transients get a null
transient_for. -/
def destroyTransients (h : Heap) (this : Nat) : Heap :=
  let h1 :=
    if isTransient (h this) then
      Function.update (unregisterTransient h this) this
        { unregisterTransient h this this with transient_for := .null }
    else h
  (h1 this).transientList.foldl
    (fun h c => Function.update h c { h c with transient_for := .null }) h1

/-- Three managed windows with client window ids 10, 11 and 12; the second is a
transient of the first. -/
def ownedHeap : Heap := fun i =>
  { window := i + 10, window_group := 0,
    transient_for := if i = 1 then .win 0 else .null,
    transientList := if i = 0 then [1] else [],
    workspace := 0, modal := false, visible := false, iconic := false, shaded := false,
    current_state := 0 }

/-! ## Decoration and function flags (src/src/Window.cc, `get_decorations`,
the constructor, `getMWMHints`, `setFullScreen`) -/

/-- The window types `window_type_from_atom` returns. -/
inductive WindowType where
  | WindowTypeNormal
  | WindowTypeDialog
  | WindowTypeDesktop
  | WindowTypeDock
  | WindowTypeMenu
  | WindowTypeSplash
  | WindowTypeToolbar
  | WindowTypeUtility
  deriving DecidableEq, Repr

/-- The bit set `WindowFunctionFlags`, one field for each WindowFunction bit
that Window.cc names (the bit values are those of Window.hh, which is not among
the sources; only set, clear and test are used). -/
structure WindowFunctionFlags where
  resize : Bool
  move : Bool
  shade : Bool
  iconify : Bool
  maximize : Bool
  close : Bool
  deriving DecidableEq, Repr

/-- The bit set `WindowDecorationFlags`, one field for each WindowDecoration bit
that Window.cc names. -/
structure WindowDecorationFlags where
  titlebar : Bool
  handle : Bool
  grip : Bool
  border : Bool
  iconify : Bool
  maximize : Bool
  close : Bool
  deriving DecidableEq, Repr

/-- AllWindowFunctions: every function bit. -/
def AllWindowFunctions : WindowFunctionFlags :=
  { resize := true, move := true, shade := true, iconify := true, maximize := true,
    close := true }

/-- The value 0 of the function flags. -/
def NoWindowFunctions : WindowFunctionFlags :=
  { resize := false, move := false, shade := false, iconify := false, maximize := false,
    close := false }

/-- AllWindowDecorations: every decoration bit. -/
def AllWindowDecorations : WindowDecorationFlags :=
  { titlebar := true, handle := true, grip := true, border := true, iconify := true,
    maximize := true, close := true }

/-- The value 0 of the decoration flags. -/
def NoWindowDecorations : WindowDecorationFlags :=
  { titlebar := false, handle := false, grip := false, border := false, iconify := false,
    maximize := false, close := false }

/-- The static function get_decorations: the decorations and functions of a
window type. -/
def get_decorations (window_type : WindowType) :
    WindowDecorationFlags × WindowFunctionFlags :=
  match window_type with
  | .WindowTypeDialog =>
    ({ AllWindowDecorations with iconify := false, maximize := false },
      { AllWindowFunctions with shade := false, iconify := false, maximize := false })
  | .WindowTypeDesktop => (NoWindowDecorations, NoWindowFunctions)
  | .WindowTypeDock => (NoWindowDecorations, NoWindowFunctions)
  | .WindowTypeSplash => (NoWindowDecorations, NoWindowFunctions)
  | .WindowTypeUtility =>
    ({ AllWindowDecorations with maximize := false, iconify := false },
      { AllWindowFunctions with maximize := false, iconify := false })
  | _ => (AllWindowDecorations, AllWindowFunctions)

/-- The three elements of the _MOTIF_WM_HINTS property that getMWMHints reads. -/
structure PropMwmHints where
  flags : Nat
  functions : Nat
  decorations : Nat
  deriving DecidableEq, Repr

/-- The MWM flags. -/
def MWM_HINTS_FUNCTIONS : Nat := 1
def MWM_HINTS_DECORATIONS : Nat := 2

/-- The MWM functions. -/
def MWM_FUNC_ALL : Nat := 1
def MWM_FUNC_RESIZE : Nat := 2
def MWM_FUNC_MOVE : Nat := 4
def MWM_FUNC_MINIMIZE : Nat := 8
def MWM_FUNC_MAXIMIZE : Nat := 16
def MWM_FUNC_CLOSE : Nat := 32

/-- The MWM decorations. -/
def MWM_DECOR_ALL : Nat := 1
def MWM_DECOR_BORDER : Nat := 2
def MWM_DECOR_RESIZEH : Nat := 4
def MWM_DECOR_TITLE : Nat := 8
def MWM_DECOR_MENU : Nat := 16
def MWM_DECOR_MINIMIZE : Nat := 32
def MWM_DECOR_MAXIMIZE : Nat := 64

/-- The window type, the flags and the fullscreen state of a window
(`client.window_type`, `client.decorations`, `client.functions`,
`client.state.fullscreen`). -/
structure ClientFlags where
  window_type : WindowType
  decorations : WindowDecorationFlags
  functions : WindowFunctionFlags
  fullscreen : Bool
  deriving DecidableEq, Repr

/-- BlackboxWindow::getMWMHints; `prop` is the property, `none` when it cannot
be read or does not have three elements. -/
def getMWMHints (prop : Option PropMwmHints) (c : ClientFlags) : ClientFlags :=
  match prop with
  | none => c
  | some mwmhints =>
    let c :=
      if hasFlag mwmhints.flags MWM_HINTS_FUNCTIONS then
        if hasFlag mwmhints.functions MWM_FUNC_ALL then
          { c with functions := AllWindowFunctions }
        else
          { c with functions :=
              { resize := hasFlag mwmhints.functions MWM_FUNC_RESIZE,
                move := hasFlag mwmhints.functions MWM_FUNC_MOVE,
                shade := false,
                iconify := hasFlag mwmhints.functions MWM_FUNC_MINIMIZE,
                maximize := hasFlag mwmhints.functions MWM_FUNC_MAXIMIZE,
                close := hasFlag mwmhints.functions MWM_FUNC_CLOSE } }
      else c
    if hasFlag mwmhints.flags MWM_HINTS_DECORATIONS then
      if hasFlag mwmhints.decorations MWM_DECOR_ALL then
        { c with decorations := AllWindowDecorations }
      else
        { c with decorations :=
            { titlebar := hasFlag mwmhints.decorations MWM_DECOR_TITLE,
              handle := hasFlag mwmhints.decorations MWM_DECOR_RESIZEH,
              grip := false,
              border := hasFlag mwmhints.decorations MWM_DECOR_BORDER,
              iconify := hasFlag mwmhints.decorations MWM_DECOR_MINIMIZE,
              maximize := hasFlag mwmhints.decorations MWM_DECOR_MAXIMIZE,
              close := false } }
    else c

/-- The flag derivation of the constructor, from the window type that
getNetwmHints has read: a transient normal window becomes a dialog, then
get_decorations, getMWMHints and the fixed-size test on the size hints of
`w`. -/
def constructorFlags (window_type : WindowType) (transient : Bool)
    (mwm : Option PropMwmHints) (w : BlackboxWindow) : ClientFlags :=
  let window_type :=
    if window_type = .WindowTypeNormal ∧ transient = true then WindowType.WindowTypeDialog
    else window_type
  let c : ClientFlags :=
    { window_type := window_type, decorations := (get_decorations window_type).1,
      functions := (get_decorations window_type).2, fullscreen := false }
  let c := getMWMHints mwm c
  if hasFlag w.normal_hint_flags PMinSize ∧ hasFlag w.normal_hint_flags PMaxSize ∧
      w.max_width ≤ w.min_width ∧ w.max_height ≤ w.min_height then
    let decorations : WindowDecorationFlags :=
      { c.decorations with maximize := false, grip := false }
    let functions : WindowFunctionFlags :=
      { c.functions with resize := false, maximize := false }
    { c with decorations := decorations, functions := functions }
  else c

/-- BlackboxWindow::setFullScreen as far as the window type, the flags and the
fullscreen state go (the geometry, the layer and the state properties are left
out). -/
def setFullScreen (b : Bool) (c : ClientFlags) : ClientFlags :=
  if c.fullscreen = b then c
  else if b then
    let functions : WindowFunctionFlags :=
      { c.functions with resize := false, move := false, shade := false }
    { c with fullscreen := true, decorations := NoWindowDecorations, functions := functions }
  else
    { c with
      fullscreen := false, decorations := (get_decorations c.window_type).1,
      functions := (get_decorations c.window_type).2 }

/-- Hints with PMinSize | PMaxSize and the same minimum and maximum size
100x100: a window of fixed size. -/
def fixedSizeHints : XSizeHints :=
  { flags := 48, min_width := 100, min_height := 100, max_width := 100, max_height := 100,
    width_inc := 0, height_inc := 0, min_aspect_x := 0, min_aspect_y := 0,
    max_aspect_x := 0, max_aspect_y := 0, base_width := 0, base_height := 0,
    win_gravity := 0 }

/-- The window `plainWindow` after reading `fixedSizeHints`. -/
def fixedSizeWindow : BlackboxWindow :=
  getWMNormalHints 1024 768 (some fixedSizeHints) plainWindow

/-- Motif hints that ask for no decoration at all (the decorations element is
0). -/
def bareMwmHints : PropMwmHints := { flags := 2, functions := 0, decorations := 0 }

/-! ## Cascade placement (src/src/Workspace.cc, `Workspace::placeWindow`) -/

/-- A 1024x768 screen with a strut of 64 pixels on its left edge: the available
area is (64, 0) 960x768; border width 1, Cascade policy. -/
def strutScreen : BScreen :=
  { availableArea := Rect.make 64 0 960 768, borderWidth := 1,
    windowPlacement := Placement.Cascade }

/-- A session whose window 1 is 100x100. -/
def cascadeSession : Session :=
  { win := fun _ => { numbered 0 with width := 100, height := 100 }, focused := none }

/-- A workspace as its constructor leaves it (cascade point (0, 0)) with the
window 1 as its only member. -/
def freshWorkspace : Workspace :=
  { id := 0, stackingList := [1], windowList := [1], lastfocus := none,
    cascade_x := 0, cascade_y := 0 }

/-! ## Expose compression (src/lib/Application.cc, case Expose of
`process_event`) -/

/-- The queued events of type `ty` for the window `w`, in queue order. -/
def eventsOf (w ty : Nat) (q : List XEvent) : List XEvent :=
  q.filter (fun r => decide (r.window = w ∧ r.type = ty))

/-- The queued events that are not events of type `ty` for the window `w`. -/
def eventsBut (w ty : Nat) (q : List XEvent) : List XEvent :=
  q.filter (fun r => !decide (r.window = w ∧ r.type = ty))

/-- The rectangle (x, y, width, height) of the event `a` lies inside the
rectangle (x, y, w, h). -/
def XEvent.inside (a : XEvent) (x y w h : Int) : Prop :=
  x ≤ a.x ∧ y ≤ a.y ∧ a.x + a.width ≤ x + w ∧ a.y + a.height ≤ y + h

/-- An Expose event for window 5 with the rectangle (x, y, w, h). -/
def exposeAt (x y w h : Int) : XEvent :=
  { type := Expose, window := 5, x := x, y := y, width := w, height := h,
    state := 0, time := 0 }

/-! ## X errors and the event loop (src/src/BaseDisplay.cc, `handleXErrors`,
`BaseDisplay::eventLoop`) -/

/-- The error code BadWindow (X11/X.h). -/
def BadWindow : Nat := 3

/-- The variables the error handler and the event loop share:
`_shutdown`, `internal_error` and `last_bad_window`. -/
structure BaseDisplay where
  _shutdown : Bool
  internal_error : Bool
  last_bad_window : Nat
  deriving DecidableEq, Repr

/-- The static function handleXErrors on an error with the given code and
resource id; `none` is `abort()`. -/
def handleXErrors (d : BaseDisplay) (error_code resourceid : Nat) : Option BaseDisplay :=
  let d := if error_code = BadWindow then { d with last_bad_window := resourceid } else d
  if d.internal_error then none else some d

/-- What happens, in order, while the event loop runs: XNextEvent takes an event
from the queue, or Xlib calls the error handler. -/
inductive LoopStep where
  | event (e : XEvent)
  | xerror (error_code resourceid : Nat)
  deriving DecidableEq, Repr

/-- BaseDisplay::eventLoop over a run of steps: the variables afterwards and
the events passed to process_event, in order. An event for `last_bad_window`
is skipped (`continue`), any other event clears `last_bad_window` and is
dispatched; the loop ends once `_shutdown` or `internal_error` is set. `none`
is `abort()` in the error handler. -/
def eventLoop : BaseDisplay → List LoopStep → Option (BaseDisplay × List XEvent)
  | d, [] => some (d, [])
  | d, .xerror c r :: rest =>
    match handleXErrors d c r with
    | none => none
    | some d' => eventLoop d' rest
  | d, .event e :: rest =>
    if d._shutdown ∨ d.internal_error then some (d, [])
    else if d.last_bad_window ≠ XNone ∧ e.window = d.last_bad_window then eventLoop d rest
    else
      match eventLoop { d with last_bad_window := XNone } rest with
      | none => none
      | some (d', out) => some (d', e :: out)

/-- The variables when the loop starts. -/
def runningDisplay : BaseDisplay :=
  { _shutdown := false, internal_error := false, last_bad_window := XNone }

/-! ## Interactive move and resize (src/src/Window.cc, `motionNotifyEvent`,
`buttonReleaseEvent`, the start of `~BlackboxWindow`) -/

/-- The modifier and button masks (X11/X.h). -/
def Mod1Mask : Nat := 8
def Button1Mask : Nat := 256
def Button3Mask : Nat := 1024

/-- The results of XGrabPointer (X11/X.h). -/
def GrabSuccess : Nat := 0
def AlreadyGrabbed : Nat := 1

/-- The window of the frame an event is reported for (`frame.window`,
`frame.title`, ...); `other` is any other window. -/
inductive FramePart where
  | window
  | title
  | label
  | handle
  | left_grip
  | right_grip
  | maximize_button
  | iconify_button
  | close_button
  | other
  deriving DecidableEq, Repr

/-- The fields of an XMotionEvent that motionNotifyEvent reads. -/
structure XMotionEvent where
  window : FramePart
  state : Nat
  x : Int
  y : Int
  x_root : Int
  y_root : Int
  deriving DecidableEq, Repr

/-- The fields of an XButtonEvent that buttonReleaseEvent reads. -/
structure XButtonEvent where
  window : FramePart
  button : Nat
  state : Nat
  x : Int
  y : Int
  deriving DecidableEq, Repr

/-- What the move and resize code asks of the screen: the resources
doOpaqueMove, edgeSnapThreshold and doFullMax, the available area, the rectangle
of the screen and the button width of the window style. -/
structure DragScreen where
  doOpaqueMove : Bool
  edgeSnapThreshold : Int
  doFullMax : Bool
  availableArea : Rect
  screenRect : Rect
  button_width : Nat

/-- A managed window as the move and resize code sees it: the geometry and
state of `w`, the function flags, the grab point `frame.grab_x`, `frame.grab_y`
and whether the window is managed (`timer` is set). -/
structure DragWindow where
  w : BlackboxWindow
  functions : WindowFunctionFlags
  grab_x : Int
  grab_y : Int
  managed : Bool

/-- The rubber band: the XDrawRectangle request for the rectangle `r`. -/
def rubberBand (w : BlackboxWindow) (r : Rect) : XRequest :=
  let hw : Int := (w.border_w / 2 : Nat)
  XRequest.XDrawRectangle (r.x + hw) (r.y + hw) (usub r.width w.border_w)
    (usub r.height w.border_w)

/-- The static function collisionAdjust: the position `(x, y)` snapped to the
edges of `rect`. -/
def collisionAdjust (x y : Int) (width height : Nat) (rect : Rect) (snap_distance : Int) :
    Int × Int :=
  let wleft := x
  let wright := toSigned (x + width - 1)
  let wtop := y
  let wbottom := toSigned (y + height - 1)
  let dleft : Int := (wleft - rect.left).natAbs
  let dright : Int := (wright - rect.right).natAbs
  let dtop : Int := (wtop - rect.top).natAbs
  let dbottom : Int := (wbottom - rect.bottom).natAbs
  let x :=
    if dleft < snap_distance ∧ dleft ≤ dright then rect.left
    else if dright < snap_distance then toSigned (rect.right - width + 1)
    else x
  let y :=
    if dtop < snap_distance ∧ dtop ≤ dbottom then rect.top
    else if dbottom < snap_distance then toSigned (rect.bottom - height + 1)
    else y
  (x, y)

/-- BlackboxWindow::showGeometry: the request `screen->showGeometry(w, h)`;
`none` is a division by zero. -/
def showGeometry (w : BlackboxWindow) (r : Rect) : Option XRequest :=
  let w0 := usub r.width (uadd w.margin.left w.margin.right)
  let h0 := usub r.height (uadd w.margin.top w.margin.bottom)
  if hasFlag w.normal_hint_flags PResizeInc then
    let sub : Bool := hasFlag w.normal_hint_flags (PMinSize ||| PBaseSize)
    let w0 := if sub then usub w0 (if w.base_width ≠ 0 then w.base_width else w.min_width)
      else w0
    let h0 := if sub then usub h0 (if w.base_height ≠ 0 then w.base_height else w.min_height)
      else h0
    match udiv w0 w.width_inc, udiv h0 w.height_inc with
    | some qw, some qh => some (XRequest.showGeometry qw qh)
    | _, _ => none
  else some (XRequest.showGeometry w0 h0)

/-- The "begin a move" branch of motionNotifyEvent. The result of XGrabPointer
is `_grab_status`; the code does not look at it. -/
def beginMove (scr : DragScreen) (_grab_status : Nat) (d : DragWindow) :
    DragWindow × List XRequest :=
  let w := { d.w with moving := true }
  if ¬ scr.doOpaqueMove then
    let w := { w with changing := w.frame_rect }
    ({ d with w := w },
      [XRequest.XGrabPointer, XRequest.XGrabServer,
        XRequest.showPosition w.changing.x w.changing.y, rubberBand w w.changing])
  else ({ d with w := w }, [XRequest.XGrabPointer])

/-- The "continue a move" branch of motionNotifyEvent. -/
def continueMove (scr : DragScreen) (d : DragWindow) (event : XMotionEvent) :
    DragWindow × List XRequest :=
  let dx := toSigned (event.x_root - d.grab_x - d.w.border_w)
  let dy := toSigned (event.y_root - d.grab_y - d.w.border_w)
  let p : Int × Int :=
    if scr.edgeSnapThreshold ≠ 0 then
      let p := collisionAdjust dx dy d.w.frame_rect.width d.w.frame_rect.height
        scr.availableArea scr.edgeSnapThreshold
      if ¬ scr.doFullMax then
        collisionAdjust p.1 p.2 d.w.frame_rect.width d.w.frame_rect.height
          scr.screenRect scr.edgeSnapThreshold
      else p
    else (dx, dy)
  if scr.doOpaqueMove then
    let r := configure d.w p.1 p.2 d.w.frame_rect.width d.w.frame_rect.height
    ({ d with w := r.1 }, r.2 ++ [XRequest.showPosition p.1 p.2])
  else
    let w := { d.w with changing := d.w.changing.setPos p.1 p.2 }
    ({ d with w := w },
      [rubberBand d.w d.w.changing, rubberBand w w.changing, XRequest.showPosition p.1 p.2])

/-- The "begin a resize" branch of motionNotifyEvent; the result of
XGrabPointer is `_grab_status`, which the code does not look at. `none` is a
failed assertion or a division by zero in constrain or showGeometry. -/
def beginResize (_grab_status : Nat) (d : DragWindow) (event : XMotionEvent) :
    Option (DragWindow × List XRequest) :=
  let left : Bool := event.window = FramePart.left_grip
  let w := { d.w with resizing := true, changing := d.w.frame_rect }
  match constrain w (if left then Corner.TopRight else Corner.TopLeft) with
  | none => none
  | some w =>
    match showGeometry w w.changing with
    | none => none
    | some geom =>
      some ({ d with w := w, grab_x := event.x, grab_y := event.y },
        [XRequest.XGrabServer, XRequest.XGrabPointer, rubberBand w w.changing, geom])

/-- The "continue a resize" branch of motionNotifyEvent. -/
def continueResize (d : DragWindow) (event : XMotionEvent) :
    Option (DragWindow × List XRequest) :=
  let left : Bool := event.window = FramePart.left_grip
  let curr := d.w.changing
  let fr := d.w.frame_rect
  let ch :=
    if left then
      let delta := min (toSigned (event.x_root - d.grab_x))
        (toSigned (fr.right - uadd (uadd d.w.margin.left d.w.margin.right) 1))
      Rect.setCoords delta fr.top fr.right fr.bottom
    else
      let nw := max (toSigned (event.x - d.grab_x + fr.width))
        (toSigned (uadd (uadd d.w.margin.left d.w.margin.right) 1))
      curr.setWidth (toUnsigned nw)
  let nh := max (toSigned (event.y - d.grab_y + fr.height))
    (toSigned (uadd (uadd d.w.margin.top d.w.margin.bottom) 1))
  let ch := ch.setHeight (toUnsigned nh)
  match constrain { d.w with changing := ch } (if left then Corner.TopRight else Corner.TopLeft) with
  | none => none
  | some w =>
    if curr ≠ w.changing then
      match showGeometry w w.changing with
      | none => none
      | some geom => some ({ d with w := w }, [rubberBand w curr, rubberBand w w.changing, geom])
    else some ({ d with w := w }, [])

/-- BlackboxWindow::motionNotifyEvent; `grab_status` is what XGrabPointer
returns when the event begins a move or a resize. -/
def motionNotifyEvent (scr : DragScreen) (grab_status : Nat) (d : DragWindow)
    (event : XMotionEvent) : Option (DragWindow × List XRequest) :=
  if d.functions.move = true ∧ d.w.resizing = false ∧
      hasFlag event.state Button1Mask = true ∧
      (event.window = FramePart.title ∨ event.window = FramePart.label ∨
        event.window = FramePart.handle ∨ event.window = FramePart.window) then
    if d.w.moving = false then some (beginMove scr grab_status d)
    else some (continueMove scr d event)
  else if (d.functions.resize = true ∧
        (hasFlag event.state Button1Mask = true ∧
          (event.window = FramePart.right_grip ∨ event.window = FramePart.left_grip))) ∨
      (hasFlag event.state Button3Mask = true ∧ hasFlag event.state Mod1Mask = true ∧
        event.window = FramePart.window) then
    if d.w.resizing = false then beginResize grab_status d event
    else continueResize d event
  else some (d, [])

/-- Modelled from the spec: bt::within of lib/Util.hh (not among the sources):
the point lies in the square of a button. -/
def within (x y : Int) (width height : Nat) : Bool :=
  decide (0 ≤ x ∧ x ≤ width ∧ 0 ≤ y ∧ y ≤ height)

/-- BlackboxWindow::buttonReleaseEvent. -/
def buttonReleaseEvent (scr : DragScreen) (d : DragWindow) (event : XButtonEvent) :
    Option (DragWindow × List XRequest) :=
  if event.window = FramePart.maximize_button then
    if event.button < 4 then
      if within event.x event.y scr.button_width scr.button_width then
        match maximize scr.availableArea d.w event.button with
        | none => none
        | some r => some ({ d with w := r.1 }, r.2 ++ [XRequest.raiseWindow])
      else some (d, [XRequest.redrawMaximizeButton])
    else some (d, [])
  else if event.window = FramePart.iconify_button then
    if event.button = 1 then
      if within event.x event.y scr.button_width scr.button_width then
        some (d, [XRequest.iconify])
      else some (d, [XRequest.redrawIconifyButton])
    else some (d, [])
  else if event.window = FramePart.close_button then
    if event.button = 1 then
      if within event.x event.y scr.button_width scr.button_width then
        some (d, [XRequest.close, XRequest.redrawCloseButton])
      else some (d, [XRequest.redrawCloseButton])
    else some (d, [])
  else if d.w.moving = true then
    let w := { d.w with moving := false }
    if ¬ scr.doOpaqueMove then
      let r := configure w w.changing.x w.changing.y w.changing.width w.changing.height
      some ({ d with w := r.1 },
        [rubberBand w w.changing, XRequest.XUngrabServer] ++ r.2 ++
          [XRequest.hideGeometry, XRequest.XUngrabPointer])
    else
      let r := configure w w.frame_rect.x w.frame_rect.y w.frame_rect.width w.frame_rect.height
      some ({ d with w := r.1 }, r.2 ++ [XRequest.hideGeometry, XRequest.XUngrabPointer])
  else if d.w.resizing = true then
    let log0 := [rubberBand d.w d.w.changing, XRequest.XUngrabServer, XRequest.hideGeometry]
    match constrain d.w
        (if event.window = FramePart.left_grip then Corner.TopRight else Corner.TopLeft) with
    | none => none
    | some w =>
      let m : Option (BlackboxWindow × List XRequest) :=
        if w.maximized = 1 then maximize scr.availableArea w 0 else some (w, [])
      match m with
      | none => none
      | some (w, log1) =>
        let w := { w with resizing := false }
        let r := configure w w.changing.x w.changing.y w.changing.width w.changing.height
        some ({ d with w := r.1 }, log0 ++ log1 ++ r.2 ++ [XRequest.XUngrabPointer])
  else if event.window = FramePart.window then
    if event.button = 2 ∧ event.state = Mod1Mask then some (d, [XRequest.XUngrabPointer])
    else some (d, [])
  else some (d, [])

/-- The start of ~BlackboxWindow, up to the point where the window leaves its
group: the requests issued for a drag in progress. The rest of the destructor
issues no grab or ungrab request. -/
def destructor (d : DragWindow) : List XRequest :=
  if ¬ d.managed then []
  else if d.w.moving = true ∨ d.w.resizing = true then
    [XRequest.hideGeometry, XRequest.XUngrabPointer]
  else []

/-- The events delivered to one window. -/
inductive WindowEvent where
  | motion (grab_status : Nat) (event : XMotionEvent)
  | release (event : XButtonEvent)
  | destroy
  deriving DecidableEq, Repr

/-- The events `evs` delivered in order to the window `d`: the window at the
end (`none` once it is destroyed, after which nothing is delivered) and all the
requests issued. The outer `none` is a failed assertion or division by zero. -/
def deliver (scr : DragScreen) : Option DragWindow → List WindowEvent →
    Option (Option DragWindow × List XRequest)
  | d, [] => some (d, [])
  | none, _ :: _ => some (none, [])
  | some d, .motion grab_status event :: rest =>
    match motionNotifyEvent scr grab_status d event with
    | none => none
    | some (d', log) =>
      match deliver scr (some d') rest with
      | none => none
      | some (r, log') => some (r, log ++ log')
  | some d, .release event :: rest =>
    match buttonReleaseEvent scr d event with
    | none => none
    | some (d', log) =>
      match deliver scr (some d') rest with
      | none => none
      | some (r, log') => some (r, log ++ log')
  | some d, .destroy :: _ => some (none, destructor d)

/-- The number of XGrabServer requests in a log. -/
def grabServerCount (log : List XRequest) : Nat := log.count XRequest.XGrabServer

/-- The number of XUngrabServer requests in a log. -/
def ungrabServerCount (log : List XRequest) : Nat := log.count XRequest.XUngrabServer

/-- A screen of 1024x768 with rubber-band moves and no edge snapping. -/
def dragScreen : DragScreen :=
  { doOpaqueMove := false, edgeSnapThreshold := 0, doFullMax := false,
    availableArea := Rect.ofSize 0 0 1024 768, screenRect := Rect.ofSize 0 0 1024 768,
    button_width := 10 }

/-- The managed window `onScreenWindow` (frame at (30, 40) 100x100) with every
function allowed, neither moving nor resizing. -/
def idleWindow : DragWindow :=
  { w := onScreenWindow, functions := AllWindowFunctions, grab_x := 0, grab_y := 0,
    managed := true }

/-- Pointer motion with button 1 held, reported for the window `part` at
`(x, y)`. -/
def dragMotion (part : FramePart) (x y : Int) : XMotionEvent :=
  { window := part, state := Button1Mask, x := x, y := y, x_root := x, y_root := y }

/-! ## Window gravity (src/src/Window.cc, `applyGravity`, `restoreGravity`) -/

/-- The window gravities (X11/X.h). -/
def ForgetGravity : Nat := 0
def NorthGravity : Nat := 2
def NorthEastGravity : Nat := 3
def WestGravity : Nat := 4
def CenterGravity : Nat := 5
def EastGravity : Nat := 6
def SouthWestGravity : Nat := 7
def SouthGravity : Nat := 8
def SouthEastGravity : Nat := 9
def StaticGravity : Nat := 10

/-- The switch "apply horizontal window gravity" of applyGravity: the value it
passes to `r.setX`, for the gravity `g`, the frame margins `m` and
`client.rect.x()` = `x`. The margins are unsigned, so the sum is taken modulo
2^32 and converted back to `int`. -/
def applyGravityX (g : Nat) (m : Margin) (x : Int) : Int :=
  if g = NorthGravity ∨ g = SouthGravity ∨ g = CenterGravity then
    toSigned (x - (uadd m.left m.right / 2 : Nat))
  else if g = NorthEastGravity ∨ g = SouthEastGravity ∨ g = EastGravity then
    toSigned (x - (uadd m.left m.right : Nat) + 2)
  else if g = ForgetGravity ∨ g = StaticGravity then
    toSigned (x - (m.left : Nat))
  else x

/-- The switch "apply vertical window gravity" of applyGravity: the value it
passes to `r.setY`. -/
def applyGravityY (g : Nat) (m : Margin) (y : Int) : Int :=
  if g = CenterGravity ∨ g = EastGravity ∨ g = WestGravity then
    toSigned (y - (uadd m.top m.bottom / 2 : Nat))
  else if g = SouthWestGravity ∨ g = SouthEastGravity ∨ g = SouthGravity then
    toSigned (y - (uadd m.bottom m.top : Nat) + 2)
  else if g = ForgetGravity ∨ g = StaticGravity then
    toSigned (y - (m.top : Nat))
  else y

/-- BlackboxWindow::applyGravity on the rectangle `r`: it is positioned from
`client.rect`, the margins and the gravity of the window `w`. -/
def applyGravity (w : BlackboxWindow) (r : Rect) : Rect :=
  (r.setX (applyGravityX w.win_gravity w.margin w.rect.x)).setY
    (applyGravityY w.win_gravity w.margin w.rect.y)

/-- The switch "restore horizontal window gravity" of restoreGravity: the value
it passes to `r.setX`, for `frame.rect.x()` = `x`. -/
def restoreGravityX (g : Nat) (m : Margin) (x : Int) : Int :=
  if g = NorthGravity ∨ g = SouthGravity ∨ g = CenterGravity then
    toSigned (x + (uadd m.left m.right / 2 : Nat))
  else if g = NorthEastGravity ∨ g = SouthEastGravity ∨ g = EastGravity then
    toSigned (x + (uadd m.left m.right : Nat) - 2)
  else if g = ForgetGravity ∨ g = StaticGravity then
    toSigned (x + (m.left : Nat))
  else x

/-- The switch "restore vertical window gravity" of restoreGravity: the value
it passes to `r.setY`. -/
def restoreGravityY (g : Nat) (m : Margin) (y : Int) : Int :=
  if g = CenterGravity ∨ g = EastGravity ∨ g = WestGravity then
    toSigned (y + (uadd m.top m.bottom / 2 : Nat))
  else if g = SouthWestGravity ∨ g = SouthEastGravity ∨ g = SouthGravity then
    toSigned (y + (uadd m.top m.bottom : Nat) - 2)
  else if g = ForgetGravity ∨ g = StaticGravity then
    toSigned (y + (m.top : Nat))
  else y

/-- BlackboxWindow::restoreGravity on the rectangle `r`: it is positioned from
`frame.rect`, the margins and the gravity of the window `w`. -/
def restoreGravity (w : BlackboxWindow) (r : Rect) : Rect :=
  (r.setX (restoreGravityX w.win_gravity w.margin w.frame_rect.x)).setY
    (restoreGravityY w.win_gravity w.margin w.frame_rect.y)

/-- The position of a rectangle is a pair of values of type `int`. -/
def Rect.PosIsInt (r : Rect) : Prop :=
  (-2147483648 ≤ r.x1 ∧ r.x1 < 2147483648) ∧ (-2147483648 ≤ r.y1 ∧ r.y1 < 2147483648)

/-- The window `onScreenWindow` with margins 3, 5, 20, 8 and SouthEastGravity,
its client at (40, 70). -/
def gravityWindow : BlackboxWindow :=
  { onScreenWindow with
    win_gravity := SouthEastGravity,
    margin := { left := 3, right := 5, top := 20, bottom := 8 },
    rect := Rect.ofSize 40 70 92 72 }

/-! ## The assertion and the divisions of constrain (src/src/Window.cc) -/

/-- The sizes constrain compares in its assertion: `dw` and `dh` after the
clamp to the minimum and maximum size, and `base_width`, `base_height`. -/
def constrainClamp (w : BlackboxWindow) (r : Rect) : Nat × Nat × Nat × Nat :=
  let dw := r.width
  let dh := r.height
  let base_width := if w.base_width ≠ 0 then w.base_width else w.min_width
  let base_height := if w.base_height ≠ 0 then w.base_height else w.min_height
  let dw := if dw < w.min_width then w.min_width else dw
  let dh := if dh < w.min_height then w.min_height else dh
  let dw := if dw > w.max_width then w.max_width else dw
  let dh := if dh > w.max_height then w.max_height else dh
  (dw, dh, base_width, base_height)

/-- The condition `dw >= base_width && dh >= base_height` that constrain
asserts. -/
def constrainAssertion (w : BlackboxWindow) (r : Rect) : Bool :=
  decide ((constrainClamp w r).1 ≥ (constrainClamp w r).2.2.1 ∧
    (constrainClamp w r).2.1 ≥ (constrainClamp w r).2.2.2)

/-- Hints with PBaseSize only: a base size of 200x200. -/
def baseOnlyHints : XSizeHints :=
  { flags := 256, min_width := 0, min_height := 0, max_width := 0, max_height := 0,
    width_inc := 0, height_inc := 0, min_aspect_x := 0, min_aspect_y := 0,
    max_aspect_x := 0, max_aspect_y := 0, base_width := 200, base_height := 200,
    win_gravity := 0 }

/-- The window `plainWindow` after reading `baseOnlyHints` on a 1024x768
screen, asked for a 100x100 frame. -/
def baseOnlyWindow : BlackboxWindow :=
  { getWMNormalHints 1024 768 (some baseOnlyHints) plainWindow with
    changing := Rect.ofSize 0 0 100 100 }

/-- Hints with PResizeInc only and increments of 0. -/
def zeroIncHints : XSizeHints :=
  { flags := 64, min_width := 0, min_height := 0, max_width := 0, max_height := 0,
    width_inc := 0, height_inc := 0, min_aspect_x := 0, min_aspect_y := 0,
    max_aspect_x := 0, max_aspect_y := 0, base_width := 0, base_height := 0,
    win_gravity := 0 }

/-- The window `plainWindow` after reading `zeroIncHints` on a 1024x768 screen,
asked for a 100x100 frame. -/
def zeroIncWindow : BlackboxWindow :=
  { getWMNormalHints 1024 768 (some zeroIncHints) plainWindow with
    changing := Rect.ofSize 0 0 100 100 }

/-! ## The _NET_WM_STATE property (src/src/Window.cc, `setState`,
`getNetwmHints`) -/

/-- The atoms of the _NET_WM_STATE property the window manager knows
(`netwm.wmStateModal()`, ...); `other` is any other atom. -/
inductive NetAtom where
  | wmStateModal
  | wmStateMaximizedVert
  | wmStateMaximizedHorz
  | wmStateShaded
  | wmStateSkipTaskbar
  | wmStateSkipPager
  | wmStateHidden
  | wmStateFullscreen
  | wmStateAbove
  | wmStateBelow
  | other (atom : Nat)
  deriving DecidableEq, Repr

/-- The values of `client.state.skip`. -/
inductive Skip where
  | SKIP_NONE
  | SKIP_TASKBAR
  | SKIP_PAGER
  | SKIP_BOTH
  deriving DecidableEq, Repr

/-- The stacking layers `StackingList::Layer...` the two functions name. -/
inductive Layer where
  | LayerNormal
  | LayerFullScreen
  | LayerAbove
  | LayerBelow
  | LayerDesktop
  deriving DecidableEq, Repr

/-- The state of a window that is written to and read from _NET_WM_STATE:
`client.state.*`, the layer and `isTransient()`. -/
structure NetwmState where
  modal : Bool
  maximized : Nat
  shaded : Bool
  skip : Skip
  iconic : Bool
  fullscreen : Bool
  layer : Layer
  transient : Bool
  deriving DecidableEq, Repr

/-- The atom list setState builds for _NET_WM_STATE. -/
def setStateAtoms (c : NetwmState) : List NetAtom :=
  (if c.modal then [NetAtom.wmStateModal] else []) ++
  (if c.maximized = 0 then []
    else if c.maximized = 1 then [NetAtom.wmStateMaximizedVert, NetAtom.wmStateMaximizedHorz]
    else if c.maximized = 2 then [NetAtom.wmStateMaximizedVert]
    else if c.maximized = 3 then [NetAtom.wmStateMaximizedHorz]
    else []) ++
  (if c.shaded then [NetAtom.wmStateShaded] else []) ++
  (match c.skip with
    | .SKIP_NONE => []
    | .SKIP_BOTH => [NetAtom.wmStateSkipTaskbar, NetAtom.wmStateSkipPager]
    | .SKIP_TASKBAR => [NetAtom.wmStateSkipTaskbar]
    | .SKIP_PAGER => [NetAtom.wmStateSkipPager]) ++
  (if c.iconic then [NetAtom.wmStateHidden] else []) ++
  (if c.fullscreen then [NetAtom.wmStateFullscreen] else []) ++
  (match c.layer with
    | .LayerAbove => [NetAtom.wmStateAbove]
    | .LayerBelow => [NetAtom.wmStateBelow]
    | _ => [])

/-- What setState leaves in the property for an atom list: the property is
removed for the empty list (`none`), set to the list otherwise. -/
def setWMState (atoms : List NetAtom) : Option (List NetAtom) :=
  if atoms = [] then none else some atoms

/-- The body of the loop of getNetwmHints over the atoms of _NET_WM_STATE. -/
def netwmStateStep (c : NetwmState) (state : NetAtom) : NetwmState :=
  match state with
  | .wmStateModal => if c.transient then { c with modal := true } else c
  | .wmStateMaximizedVert =>
    if c.maximized = 0 then { c with maximized := 2 }
    else if c.maximized = 3 then { c with maximized := 1 }
    else c
  | .wmStateMaximizedHorz =>
    if c.maximized = 0 then { c with maximized := 3 }
    else if c.maximized = 2 then { c with maximized := 1 }
    else c
  | .wmStateShaded => { c with shaded := true }
  | .wmStateSkipTaskbar =>
    if c.skip = .SKIP_NONE then { c with skip := .SKIP_TASKBAR }
    else if c.skip = .SKIP_PAGER then { c with skip := .SKIP_BOTH }
    else c
  | .wmStateSkipPager =>
    if c.skip = .SKIP_NONE then { c with skip := .SKIP_PAGER }
    else if c.skip = .SKIP_TASKBAR then { c with skip := .SKIP_BOTH }
    else c
  | .wmStateHidden => { c with iconic := true }
  | .wmStateFullscreen => { c with fullscreen := true, layer := .LayerFullScreen }
  | .wmStateAbove => { c with layer := .LayerAbove }
  | .wmStateBelow => { c with layer := .LayerBelow }
  | .other _ => c

/-- The _NET_WM_STATE part of getNetwmHints: `prop` is what readWMState finds
(`none` when the property is not there). -/
def getNetwmHints (c : NetwmState) (prop : Option (List NetAtom)) : NetwmState :=
  match prop with
  | none => c
  | some atoms => atoms.foldl netwmStateStep c

/-- The maximize mode for "vertically maximized" and "horizontally
maximized". -/
def maximizeMode (vert horz : Bool) : Nat :=
  if vert ∧ horz then 1 else if vert then 2 else if horz then 3 else 0

/-- The state of a freshly managed window. -/
def freshState : NetwmState :=
  { modal := false, maximized := 0, shaded := false, skip := .SKIP_NONE, iconic := false,
    fullscreen := false, layer := .LayerNormal, transient := false }

/-! ### Transient cycles -/

theorem link_functional {h : Heap} {a b c : Nat} (h1 : link h a b) (h2 : link h a c) :
    b = c := by
  unfold link at h1 h2
  rw [h1] at h2
  injection h2

theorem transGen_step_functional {h : Heap} {w p c : Nat} (hl : link h w p)
    (hne : p ≠ c) (ht : Relation.TransGen (link h) w c) :
    Relation.TransGen (link h) p c := by
  rcases (Relation.TransGen.head'_iff).1 ht with ⟨b, hb, hrest⟩
  have hbp : b = p := link_functional hb hl
  subst hbp
  rcases Relation.reflTransGen_iff_eq_or_transGen.1 hrest with heq | htg
  · exact absurd heq.symm hne
  · exact htg

theorem circularCheck_spec (g h3 : Heap) (this n : Nat)
    (hag : ∀ w, w ≠ this → (h3 w).transient_for = (g w).transient_for)
    (hac : Acyclic g) (hm : Managed g n) :
    ∀ (fuel w : Nat) (seen : Finset Nat), w ≠ this → w < n → w ∉ seen →
      (∀ s ∈ seen, s < n) → (∀ s ∈ seen, Relation.TransGen (link g) s w) →
      n ≤ fuel + seen.card →
      ∃ b, circularCheck h3 this fuel w = some b ∧
        (b = true ↔ Relation.TransGen (link g) w this) := by
  intro fuel
  induction fuel with
  | zero =>
    intro w seen _ hwn hws hsn _ hcard
    exfalso
    have hsub : insert w seen ⊆ Finset.range n := by
      intro x hx
      rcases Finset.mem_insert.1 hx with rfl | hx
      · exact Finset.mem_range.2 hwn
      · exact Finset.mem_range.2 (hsn x hx)
    have hle := Finset.card_le_card hsub
    rw [Finset.card_insert_of_not_mem hws, Finset.card_range] at hle
    omega
  | succ fuel ih =>
    intro w seen hwt hwn hws hsn hreach hcard
    have hw3 := hag w hwt
    cases htf : (g w).transient_for with
    | null =>
      refine ⟨false, ?_, ?_⟩
      · simp [circularCheck, hw3, htf]
      · constructor
        · intro hb; cases hb
        · intro ht
          rcases (Relation.TransGen.head'_iff).1 ht with ⟨b, hb, _⟩
          unfold link at hb
          rw [htf] at hb
          cases hb
    | root =>
      refine ⟨false, ?_, ?_⟩
      · simp [circularCheck, hw3, htf]
      · constructor
        · intro hb; cases hb
        · intro ht
          rcases (Relation.TransGen.head'_iff).1 ht with ⟨b, hb, _⟩
          unfold link at hb
          rw [htf] at hb
          cases hb
    | win p =>
      have hl : link g w p := htf
      by_cases hp : p = this
      · refine ⟨true, ?_, ?_⟩
        · simp [circularCheck, hw3, htf, hp]
        · constructor
          · intro _
            exact Relation.TransGen.single (hp ▸ hl)
          · intro _; rfl
      · have hpn : p < n := hm w p htf
        have hpw : p ≠ w := by
          intro hpw
          exact hac w (Relation.TransGen.single (hpw ▸ hl))
        have hps : p ∉ insert w seen := by
          intro hps
          rcases Finset.mem_insert.1 hps with hpw2 | hps
          · exact hpw hpw2
          · exact hac w (Relation.TransGen.head hl (hreach p hps))
        have hsn2 : ∀ s ∈ insert w seen, s < n := by
          intro s hs
          rcases Finset.mem_insert.1 hs with rfl | hs
          · exact hwn
          · exact hsn s hs
        have hreach2 : ∀ s ∈ insert w seen, Relation.TransGen (link g) s p := by
          intro s hs
          rcases Finset.mem_insert.1 hs with rfl | hs
          · exact Relation.TransGen.single hl
          · exact Relation.TransGen.tail (hreach s hs) hl
        have hcard2 : n ≤ fuel + (insert w seen).card := by
          rw [Finset.card_insert_of_not_mem hws]
          omega
        rcases ih p (insert w seen) hp hpn hps hsn2 hreach2 hcard2 with ⟨b, hb, hiff⟩
        refine ⟨b, ?_, ?_⟩
        · simp [circularCheck, hw3, htf, hp, hb]
        · rw [hiff]
          constructor
          · intro ht
            exact Relation.TransGen.head hl ht
          · intro ht
            exact transGen_step_functional hl hp ht

theorem acyclic_of_sublink {g h : Heap} (hsub : ∀ a b, link g a b → link h a b)
    (hac : Acyclic h) : Acyclic g := by
  intro w hw
  exact hac w (Relation.TransGen.mono hsub hw)

theorem transGen_add_edge {g h : Heap} {this t : Nat}
    (hsub : ∀ a b, link h a b → link g a b ∨ (a = this ∧ b = t)) :
    ∀ {x y : Nat}, Relation.TransGen (link h) x y →
      Relation.TransGen (link g) x y ∨
      (Relation.ReflTransGen (link g) x this ∧ Relation.ReflTransGen (link g) t y) := by
  intro x y hxy
  induction hxy with
  | single hl =>
    rcases hsub _ _ hl with hl | ⟨rfl, rfl⟩
    · exact Or.inl (Relation.TransGen.single hl)
    · exact Or.inr ⟨Relation.ReflTransGen.refl, Relation.ReflTransGen.refl⟩
  | tail _ hl ih =>
    rcases hsub _ _ hl with hl | ⟨rfl, rfl⟩
    · rcases ih with ih | ⟨ih1, ih2⟩
      · exact Or.inl (Relation.TransGen.tail ih hl)
      · exact Or.inr ⟨ih1, Relation.ReflTransGen.tail ih2 hl⟩
    · rcases ih with ih | ⟨ih1, _⟩
      · exact Or.inr ⟨ih.to_reflTransGen, Relation.ReflTransGen.refl⟩
      · exact Or.inr ⟨ih1, Relation.ReflTransGen.refl⟩

theorem acyclic_add_edge {g h : Heap} {this t : Nat}
    (hsub : ∀ a b, link h a b → link g a b ∨ (a = this ∧ b = t))
    (hac : Acyclic g) (hne : t ≠ this)
    (hnr : ¬ Relation.TransGen (link g) t this) : Acyclic h := by
  intro w hw
  rcases transGen_add_edge hsub hw with hw | ⟨h1, h2⟩
  · exact hac w hw
  · have h3 : Relation.ReflTransGen (link g) t this := h2.trans h1
    rcases Relation.reflTransGen_iff_eq_or_transGen.1 h3 with heq | htg
    · exact hne heq.symm
    · exact hnr htg

theorem unregisterTransient_tf (h : Heap) (this w : Nat) :
    (unregisterTransient h this w).transient_for = (h w).transient_for := by
  unfold unregisterTransient
  cases htf : (h this).transient_for with
  | null => rfl
  | root => rfl
  | win p =>
    by_cases hw : w = p
    · subst hw; simp
    · simp [Function.update_noteq hw]

theorem unregisterTransient_window (h : Heap) (this w : Nat) :
    (unregisterTransient h this w).window = (h w).window := by
  unfold unregisterTransient
  cases htf : (h this).transient_for with
  | null => rfl
  | root => rfl
  | win p =>
    by_cases hw : w = p
    · subst hw; simp
    · simp [Function.update_noteq hw]

theorem resolveOwner_lt {reg : Registry} {n : Nat} (hreg : RegistryOK reg n)
    {c : Client} {x t : Nat} (h : resolveOwner reg c x = some t) : t < n := by
  unfold resolveOwner at h
  split at h
  · rename_i p hp
    injection h with h
    subst h
    exact hreg.1 _ _ hp
  · split at h
    · exact hreg.2 _ _ h
    · cases h

theorem resolveOwner_findWindow {reg : Registry} {c : Client} {x t p : Nat}
    (h : resolveOwner reg c x = some t) (hf : reg.findWindow x = some p) : t = p := by
  unfold resolveOwner at h
  rw [hf] at h
  injection h with h
  exact h.symm

/-- What one call of getTransientInfo does to the transient_for graph. -/
theorem getTransientInfo_result (reg : Registry) (n fuel : Nat) (h : Heap) (this : Nat)
    (hint : Option Nat) (hfuel : n < fuel) (hm : Managed h n) (hreg : RegistryOK reg n)
    (hac : Acyclic h) :
    ∃ h', getTransientInfo reg hint fuel h this = some h' ∧ Acyclic h' ∧
      Managed h' n ∧ (∀ w, (h' w).window = (h w).window) ∧
      (∀ w, w ≠ this → (h' w).transient_for = (h w).transient_for) ∧
      ((h' this).transient_for = .null ∨ (h' this).transient_for = .root ∨
        ∃ x t, hint = some x ∧ (∀ p, reg.findWindow x = some p → t = p) ∧
          (h' this).transient_for = .win t) := by
  obtain ⟨f, rfl⟩ : ∃ f, fuel = f + 1 := ⟨fuel - 1, by omega⟩
  -- the heap once the old link of `this` is dropped
  obtain ⟨h2, hh2⟩ : ∃ h2 : Heap, h2 = Function.update (unregisterTransient h this) this
      { unregisterTransient h this this with transient_for := .null } := ⟨_, rfl⟩
  have h2this : (h2 this).transient_for = .null := by rw [hh2]; simp
  have h2other : ∀ w, w ≠ this → (h2 w).transient_for = (h w).transient_for := by
    intro w hw
    rw [hh2, Function.update_noteq hw, unregisterTransient_tf]
  have h2win : ∀ w, (h2 w).window = (h w).window := by
    intro w
    by_cases hw : w = this
    · subst hw; rw [hh2]; simp [unregisterTransient_window]
    · rw [hh2, Function.update_noteq hw, unregisterTransient_window]
  have h2sub : ∀ a b, link h2 a b → link h a b := by
    intro a b hab
    unfold link at hab ⊢
    by_cases ha : a = this
    · subst ha; rw [h2this] at hab; cases hab
    · rw [h2other a ha] at hab; exact hab
  have h2ac : Acyclic h2 := acyclic_of_sublink h2sub hac
  have h2m : Managed h2 n := fun w p hp => hm w p (h2sub w p hp)
  have base : ∃ h', some h2 = some h' ∧ Acyclic h' ∧
      Managed h' n ∧ (∀ w, (h' w).window = (h w).window) ∧
      (∀ w, w ≠ this → (h' w).transient_for = (h w).transient_for) ∧
      ((h' this).transient_for = .null ∨ (h' this).transient_for = .root ∨
        ∃ x t, hint = some x ∧ (∀ p, reg.findWindow x = some p → t = p) ∧
          (h' this).transient_for = .win t) :=
    ⟨h2, rfl, h2ac, h2m, h2win, h2other, Or.inl h2this⟩
  unfold getTransientInfo
  simp only [← hh2]
  cases hint with
  | none => exact base
  | some x =>
    simp only
    split
    · exact base
    · split
      · -- transient for None or the root window
        refine ⟨_, rfl, ?_, ?_, ?_, ?_, Or.inr (Or.inl (by simp))⟩
        · refine acyclic_of_sublink ?_ h2ac
          intro a b hab
          unfold link at hab ⊢
          by_cases ha : a = this
          · subst ha; simp at hab
          · rw [Function.update_noteq ha] at hab; exact hab
        · intro w p hp
          by_cases hw : w = this
          · subst hw; simp at hp
          · rw [Function.update_noteq hw] at hp; exact h2m w p hp
        · intro w
          by_cases hw : w = this
          · subst hw; simp [h2win]
          · rw [Function.update_noteq hw]; exact h2win w
        · intro w hw
          rw [Function.update_noteq hw]; exact h2other w hw
      · cases hres : resolveOwner reg (h2 this) x with
        | none => exact base
        | some t =>
          simp only
          have htn : t < n := resolveOwner_lt hreg hres
          split
          · exact base
          · rename_i htne
            obtain ⟨h3, hh3⟩ : ∃ h3 : Heap, h3 = Function.update h2 this
                { h2 this with transient_for := .win t } := ⟨_, rfl⟩
            simp only [← hh3]
            have h3this : (h3 this).transient_for = .win t := by rw [hh3]; simp
            have h3other : ∀ w, w ≠ this → (h3 w).transient_for = (h2 w).transient_for := by
              intro w hw
              rw [hh3, Function.update_noteq hw]
            have h3win : ∀ w, (h3 w).window = (h w).window := by
              intro w
              by_cases hw : w = this
              · subst hw; rw [hh3]; simp [h2win]
              · rw [hh3, Function.update_noteq hw]; exact h2win w
            rcases circularCheck_spec h2 h3 this n h3other h2ac h2m f t ∅ htne htn
                (by simp) (by simp) (by simp) (by simp; omega) with ⟨b, hb, hiff⟩
            have hstep : circularCheck h3 this (f + 1) this = some b := by
              rw [circularCheck, h3this]
              simp [htne, hb]
            rw [hstep]
            cases b with
            | true => exact base
            | false =>
              simp only
              have hnr : ¬ Relation.TransGen (link h2) t this := by
                intro ht
                have := hiff.2 ht
                cases this
              obtain ⟨h4, hh4⟩ : ∃ h4 : Heap, h4 = Function.update h3 t
                  { h3 t with transientList := (h3 t).transientList ++ [this] } := ⟨_, rfl⟩
              simp only [← hh4]
              have h4tf : ∀ w, (h4 w).transient_for = (h3 w).transient_for := by
                intro w
                by_cases hw : w = t
                · subst hw; rw [hh4]; simp
                · rw [hh4, Function.update_noteq hw]
              have h4win : ∀ w, (h4 w).window = (h w).window := by
                intro w
                by_cases hw : w = t
                · subst hw; rw [hh4]; simp [h3win]
                · rw [hh4, Function.update_noteq hw]; exact h3win w
              have h5this : ((Function.update h4 this
                  { h4 this with workspace := (h4 t).workspace }) this).transient_for
                    = .win t := by
                simp [h4tf, h3this]
              have h5other : ∀ w, w ≠ this → ((Function.update h4 this
                  { h4 this with workspace := (h4 t).workspace }) w).transient_for
                    = (h2 w).transient_for := by
                intro w hw
                rw [Function.update_noteq hw, h4tf, h3other w hw]
              have h5sub : ∀ a b, link (Function.update h4 this
                  { h4 this with workspace := (h4 t).workspace }) a b →
                  link h2 a b ∨ (a = this ∧ b = t) := by
                intro a b hab
                unfold link at hab ⊢
                by_cases ha : a = this
                · subst ha
                  rw [h5this] at hab
                  injection hab with hab
                  exact Or.inr ⟨rfl, hab.symm⟩
                · rw [h5other a ha] at hab
                  exact Or.inl hab
              refine ⟨_, rfl, acyclic_add_edge h5sub h2ac htne hnr, ?_, ?_, ?_, ?_⟩
              · intro w p hp
                rcases h5sub w p hp with hp | ⟨_, rfl⟩
                · exact h2m w p hp
                · exact htn
              · intro w
                by_cases hw : w = this
                · subst hw; simp [h4win]
                · rw [Function.update_noteq hw]; exact h4win w
              · intro w hw
                rw [h5other w hw, h2other w hw]
              · refine Or.inr (Or.inr ⟨x, t, rfl, ?_, h5this⟩)
                intro p hp
                exact resolveOwner_findWindow hres hp

theorem getTransientInfoAll_result (reg : Registry) (n fuel : Nat) (hints : Nat → Option Nat)
    (hfuel : n < fuel) (hreg : RegistryOK reg n) :
    ∀ (order : List Nat) (h : Heap), Managed h n → Acyclic h →
      ∃ h', getTransientInfoAll reg hints fuel order h = some h' ∧ Acyclic h' ∧
        Managed h' n ∧ (∀ w, (h' w).window = (h w).window) ∧
        (∀ w, w ∉ order → (h' w).transient_for = (h w).transient_for) ∧
        (∀ w, w ∈ order →
          (h' w).transient_for = .null ∨ (h' w).transient_for = .root ∨
          ∃ x t, hints w = some x ∧ (∀ p, reg.findWindow x = some p → t = p) ∧
            (h' w).transient_for = .win t) := by
  intro order
  induction order with
  | nil =>
    intro h hm hac
    exact ⟨h, rfl, hac, hm, fun _ => rfl, fun _ _ => rfl, fun w hw => by cases hw⟩
  | cons v vs ih =>
    intro h hm hac
    rcases getTransientInfo_result reg n fuel h v (hints v) hfuel hm hreg hac with
      ⟨h1, e1, ac1, m1, win1, oth1, this1⟩
    rcases ih h1 m1 ac1 with ⟨h2, e2, ac2, m2, win2, oth2, in2⟩
    refine ⟨h2, ?_, ac2, m2, ?_, ?_, ?_⟩
    · simp [getTransientInfoAll, e1, e2]
    · intro w; rw [win2, win1]
    · intro w hw
      have hwv : w ≠ v := fun e => hw (e ▸ List.mem_cons_self _ _)
      have hwvs : w ∉ vs := fun e => hw (List.mem_cons_of_mem _ e)
      rw [oth2 w hwvs, oth1 w hwv]
    · intro w hw
      by_cases hwvs : w ∈ vs
      · exact in2 w hwvs
      · have hwv : w = v := by
          rcases List.mem_cons.1 hw with e | e
          · exact e
          · exact absurd e hwvs
        subst hwv
        rw [oth2 w hwvs]
        exact this1

theorem cycle_of_links (h : Heap) (N : Nat) (hN : 0 < N)
    (hl : ∀ i, i < N → link h i ((i + 1) % N)) : Relation.TransGen (link h) 0 0 := by
  have reach : ∀ k, k < N → Relation.ReflTransGen (link h) 0 k := by
    intro k
    induction k with
    | zero => intro _; exact Relation.ReflTransGen.refl
    | succ k ih =>
      intro hk
      have hk1 : k < N := by omega
      have := hl k hk1
      rw [Nat.mod_eq_of_lt hk] at this
      exact Relation.ReflTransGen.tail (ih hk1) this
  obtain ⟨m, rfl⟩ : ∃ m, N = m + 1 := ⟨N - 1, by omega⟩
  have hlast := hl m (by omega)
  rw [Nat.mod_self] at hlast
  exact Relation.TransGen.tail' (reach m (by omega)) hlast

/-- C1: getTransientInfo preserves acyclicity of the transient_for relation for
every value of the WM_TRANSIENT_FOR hint (with fuel above the number of managed
windows the cycle check returns), and for N >= 1 windows whose hints name each
other in a cycle, running it on all of them (in any order) ends with an acyclic
graph in which at least one window has no transient_for window. -/
theorem getTransientInfo_keeps_acyclic :
    (∀ (reg : Registry) (n fuel : Nat) (h : Heap) (this : Nat) (hint : Option Nat),
      n < fuel → Managed h n → RegistryOK reg n → Acyclic h →
      ∃ h', getTransientInfo reg hint fuel h this = some h' ∧ Acyclic h') ∧
    (∀ (reg : Registry) (N fuel : Nat) (h : Heap) (hints : Nat → Option Nat)
      (order : List Nat),
      0 < N → N < fuel → Managed h N → RegistryOK reg N → Acyclic h →
      (∀ i, i < N → reg.findWindow (h i).window = some i) →
      (∀ i, i < N → hints i = some (h ((i + 1) % N)).window) →
      (∀ i, i < N → i ∈ order) →
      ∃ h', getTransientInfoAll reg hints fuel order h = some h' ∧ Acyclic h' ∧
        ∃ i, i < N ∧ getTransientFor (h' i) = none) := by
  constructor
  · intro reg n fuel h this hint hfuel hm hreg hac
    rcases getTransientInfo_result reg n fuel h this hint hfuel hm hreg hac with
      ⟨h', e, ac, _⟩
    exact ⟨h', e, ac⟩
  · intro reg N fuel h hints order hN hfuel hm hreg hac hfind hhints hall
    rcases getTransientInfoAll_result reg N fuel hints hfuel hreg order h hm hac with
      ⟨h', e, ac, _, win, _, hin⟩
    refine ⟨h', e, ac, ?_⟩
    by_contra hcon
    push_neg at hcon
    apply ac 0
    apply cycle_of_links h' N hN
    intro i hi
    have hsucc : (i + 1) % N < N := Nat.mod_lt _ hN
    rcases hin i (hall i hi) with hnull | hroot | ⟨x, t, hx, ht, htf⟩
    · exact absurd (by simp [getTransientFor, hnull]) (hcon i hi)
    · exact absurd (by simp [getTransientFor, hroot]) (hcon i hi)
    · rw [hhints i hi] at hx
      injection hx with hx
      have := ht ((i + 1) % N) (hx ▸ hfind _ hsucc)
      unfold link
      rw [htf, this]

theorem getTransientInfo_keeps_acyclic_witness :
    ∃ h', getTransientInfoAll cycleRegistry cycleHints 4 [0, 1, 2] cycleHeap = some h' ∧
      Acyclic h' ∧ ∃ i, i < 3 ∧ getTransientFor (h' i) = none := by
  refine getTransientInfo_keeps_acyclic.2 cycleRegistry 3 4 cycleHeap cycleHints [0, 1, 2]
    (by decide) (by decide) ?_ ?_ ?_ ?_ ?_ ?_
  · intro w p hp
    simp [cycleHeap] at hp
  · constructor
    · intro x p hp
      simp only [cycleRegistry] at hp
      split at hp
      · injection hp with hp; omega
      · cases hp
    · intro g p hp
      simp [cycleRegistry] at hp
  · intro w hw
    rcases (Relation.TransGen.head'_iff).1 hw with ⟨b, hb, _⟩
    simp [link, cycleHeap] at hb
  · intro i hi
    simp only [cycleRegistry, cycleHeap]
    rw [if_pos (by omega)]
    simp
  · intro i _
    simp [cycleHints, cycleHeap]
  · intro i hi
    have : i = 0 ∨ i = 1 ∨ i = 2 := by omega
    rcases this with rfl | rfl | rfl <;> simp

/-! ### constrain: size bounds and the increment grid -/

theorem umul_le (a b : Nat) : umul a b ≤ a * b := Nat.mod_le _ _

theorem umul_lt (a b : Nat) : umul a b < UMAX := Nat.mod_lt _ (by decide)

theorem umul_eq {a b : Nat} (h : a * b < UMAX) : umul a b = a * b := Nat.mod_eq_of_lt h

theorem uadd_eq {a b : Nat} (h : a + b < UMAX) : uadd a b = a + b := Nat.mod_eq_of_lt h

theorem usub_eq {a b : Nat} (ha : a < UMAX) (hb : b ≤ a) : usub a b = a - b := by
  unfold usub
  have hb' : b % UMAX = b := Nat.mod_eq_of_lt (by omega)
  rw [hb']
  have : a + (UMAX - b) = (a - b) + UMAX := by omega
  rw [this, Nat.add_mod_right]
  exact Nat.mod_eq_of_lt (by omega)

theorem udiv_some {a b q : Nat} (h : udiv a b = some q) : b ≠ 0 ∧ q = a / b := by
  unfold udiv at h
  split at h
  · cases h
  · rename_i hb
    injection h with h
    exact ⟨hb, h.symm⟩

theorem udiv_umul_le {x inc d : Nat} (h : udiv (umul x inc) inc = some d) : d ≤ x := by
  rcases udiv_some h with ⟨hinc, rfl⟩
  calc umul x inc / inc ≤ (x * inc) / inc := Nat.div_le_div_right (umul_le x inc)
    _ = x := Nat.mul_div_cancel x (Nat.pos_of_ne_zero hinc)

/-- An aspect adjustment leaves the first size unchanged or grows it within
`max1`, and leaves the second unchanged or shrinks it within `min2`, when the
product `ay * d1` fits in 32 bits. -/
theorem aspectStep_bounds {ax ay inc1 inc2 max1 min2 d1 d2 e1 e2 : Nat}
    (h1 : ay * d1 < UMAX) (hd2 : d2 < UMAX)
    (h : aspectStep ax ay inc1 inc2 max1 min2 d1 d2 = some (e1, e2)) :
    (e1 = d1 ∨ (d1 ≤ e1 ∧ e1 ≤ max1)) ∧ (e2 = d2 ∨ (min2 ≤ e2 ∧ e2 ≤ d2)) := by
  unfold aspectStep at h
  split at h
  · rename_i hcond
    rw [umul_eq h1] at hcond
    cases hq : udiv (umul ax d2) ay with
    | none => rw [hq] at h; cases h
    | some q =>
      rw [hq] at h
      simp only at h
      rcases udiv_some hq with ⟨hay, hqe⟩
      have hqd : d1 ≤ q := by
        rw [hqe, Nat.le_div_iff_mul_le (Nat.pos_of_ne_zero hay)]
        rw [Nat.mul_comm]
        exact Nat.le_of_lt hcond
      have hqlt : q < UMAX := by
        rw [hqe]
        exact Nat.lt_of_le_of_lt (Nat.div_le_self _ _) (umul_lt _ _)
      cases hdel : udiv (umul (usub q d1) inc1) inc1 with
      | none => rw [hdel] at h; cases h
      | some delta =>
        rw [hdel] at h
        simp only at h
        have hdle : delta ≤ q - d1 := by
          have := udiv_umul_le hdel
          rwa [usub_eq hqlt hqd] at this
        have hadd : uadd d1 delta = d1 + delta := uadd_eq (by omega)
        split at h
        · rename_i hmax
          injection h with h
          injection h with ha hb
          subst ha hb
          refine ⟨Or.inr ⟨?_, hmax⟩, Or.inl rfl⟩
          rw [hadd]; omega
        · cases hq2 : udiv (umul d1 ay) ax with
          | none => rw [hq2] at h; cases h
          | some q2 =>
            rw [hq2] at h
            simp only at h
            rcases udiv_some hq2 with ⟨hax, hq2e⟩
            have hq2d : q2 ≤ d2 := by
              rw [hq2e]
              apply Nat.div_le_of_le_mul
              have h3 : umul d1 ay ≤ d1 * ay := umul_le _ _
              have h4 : umul ax d2 ≤ ax * d2 := umul_le _ _
              have h5 : d1 * ay = ay * d1 := Nat.mul_comm _ _
              omega
            cases hdel2 : udiv (umul (usub d2 q2) inc2) inc2 with
            | none => rw [hdel2] at h; cases h
            | some delta2 =>
              rw [hdel2] at h
              simp only at h
              have hd2le : delta2 ≤ d2 - q2 := by
                have := udiv_umul_le hdel2
                rwa [usub_eq hd2 hq2d] at this
              have hsub : usub d2 delta2 = d2 - delta2 := usub_eq hd2 (by omega)
              split at h
              · rename_i hmin
                injection h with h
                injection h with ha hb
                subst ha hb
                refine ⟨Or.inl rfl, Or.inr ⟨hmin, ?_⟩⟩
                rw [hsub]; omega
              · injection h with h
                injection h with ha hb
                subst ha hb
                exact ⟨Or.inl rfl, Or.inl rfl⟩
  · injection h with h
    injection h with ha hb
    subst ha hb
    exact ⟨Or.inl rfl, Or.inl rfl⟩

theorem constrainMinAspect_eq (w : BlackboxWindow) (dw dh : Nat) :
    constrainMinAspect w dw dh =
      aspectStep w.min_aspect_x w.min_aspect_y w.width_inc w.height_inc
        w.max_width w.min_height dw dh := rfl

theorem constrainMaxAspect_eq (w : BlackboxWindow) (dw dh : Nat) :
    constrainMaxAspect w dw dh =
      (aspectStep w.max_aspect_y w.max_aspect_x w.height_inc w.width_inc
        w.max_height w.min_width dh dw).map Prod.swap := by
  unfold constrainMaxAspect aspectStep
  split
  · cases udiv (umul w.max_aspect_y dw) w.max_aspect_x with
    | none => rfl
    | some q =>
      simp only
      cases udiv (umul (usub q dh) w.height_inc) w.height_inc with
      | none => rfl
      | some delta =>
        simp only
        split
        · rfl
        · cases udiv (umul dh w.max_aspect_x) w.max_aspect_y with
          | none => rfl
          | some q2 =>
            simp only
            cases udiv (umul (usub dw q2) w.width_inc) w.width_inc with
            | none => rfl
            | some delta2 =>
              simp only
              split <;> rfl
  · rfl

theorem gridFit_eq {d base : Nat} (inc : Nat) (hb : base ≤ d) (hd : d < UMAX) :
    uadd (umul (usub d base / inc) inc) base = base + (d - base) / inc * inc ∧
      base + (d - base) / inc * inc ≤ d := by
  have hle : (d - base) / inc * inc ≤ d - base := Nat.div_mul_le_self _ _
  rw [usub_eq hd hb, umul_eq (by omega), uadd_eq (by omega)]
  constructor <;> omega

theorem gridFit_min {d bw minw inc : Nat} (hinc : inc ≠ 0) (hmin : minw ≤ d)
    (hg : 0 < bw → bw < minw → inc ∣ minw - bw) :
    minw ≤ (if bw ≠ 0 then bw else minw) +
      (d - (if bw ≠ 0 then bw else minw)) / inc * inc := by
  by_cases hbw : bw = 0
  · simp [hbw]
  · rw [if_pos hbw]
    by_cases hlt : bw < minw
    · rcases hg (Nat.pos_of_ne_zero hbw) hlt with ⟨k, hk⟩
      have hk2 : k ≤ (d - bw) / inc := by
        rw [Nat.le_div_iff_mul_le (Nat.pos_of_ne_zero hinc)]
        rw [Nat.mul_comm, ← hk]
        omega
      have hk3 : k * inc ≤ (d - bw) / inc * inc := Nat.mul_le_mul_right _ hk2
      have hk4 : inc * k = k * inc := Nat.mul_comm _ _
      omega
    · omega

/-- The increment step keeps a size between the minimum and the size it was
given when the minimum lies on the grid. -/
theorem constrainIncrements_bounds {w : BlackboxWindow} {dw dh ew eh : Nat}
    (hdw : dw < UMAX) (hdh : dh < UMAX)
    (hminw : w.min_width ≤ dw) (hminh : w.min_height ≤ dh)
    (hbw : (if w.base_width ≠ 0 then w.base_width else w.min_width) ≤ dw)
    (hbh : (if w.base_height ≠ 0 then w.base_height else w.min_height) ≤ dh)
    (hgw : hasFlag w.normal_hint_flags PResizeInc = true → 0 < w.base_width →
      w.base_width < w.min_width → w.width_inc ∣ w.min_width - w.base_width)
    (hgh : hasFlag w.normal_hint_flags PResizeInc = true → 0 < w.base_height →
      w.base_height < w.min_height → w.height_inc ∣ w.min_height - w.base_height)
    (h : constrainIncrements w (if w.base_width ≠ 0 then w.base_width else w.min_width)
      (if w.base_height ≠ 0 then w.base_height else w.min_height) dw dh = some (ew, eh)) :
    (w.min_width ≤ ew ∧ ew ≤ dw) ∧ (w.min_height ≤ eh ∧ eh ≤ dh) := by
  unfold constrainIncrements at h
  split at h
  · rename_i hflag
    cases hqw : udiv (usub dw (if w.base_width ≠ 0 then w.base_width else w.min_width))
        w.width_inc with
    | none => rw [hqw] at h; cases h
    | some qw =>
      rw [hqw] at h
      simp only at h
      cases hqh : udiv (usub dh (if w.base_height ≠ 0 then w.base_height else w.min_height))
          w.height_inc with
      | none => rw [hqh] at h; cases h
      | some qh =>
        rw [hqh] at h
        simp only at h
        rcases udiv_some hqw with ⟨hwi, rfl⟩
        rcases udiv_some hqh with ⟨hhi, rfl⟩
        injection h with h
        injection h with ha hb
        rcases gridFit_eq w.width_inc hbw hdw with ⟨e1, l1⟩
        rcases gridFit_eq w.height_inc hbh hdh with ⟨e2, l2⟩
        rw [e1] at ha
        rw [e2] at hb
        have m1 := gridFit_min hwi hminw (hgw hflag)
        have m2 := gridFit_min hhi hminh (hgh hflag)
        subst ha hb
        exact ⟨⟨m1, l1⟩, ⟨m2, l2⟩⟩
  · injection h with h
    injection h with ha hb
    subst ha hb
    exact ⟨⟨hminw, Nat.le_refl _⟩, ⟨hminh, Nat.le_refl _⟩⟩

theorem clamp_bounds {d lo hi : Nat} (h : lo ≤ hi) :
    lo ≤ (if (if d < lo then lo else d) > hi then hi else (if d < lo then lo else d)) ∧
    (if (if d < lo then lo else d) > hi then hi else (if d < lo then lo else d)) ≤ hi := by
  split <;> split <;> omega

theorem constrainSize_bounds (w : BlackboxWindow) (r : Rect) (dw dh : Nat)
    (hmaxw : w.max_width < UMAX) (hmaxh : w.max_height < UMAX)
    (hw : w.min_width ≤ w.max_width) (hh : w.min_height ≤ w.max_height)
    (hgw : hasFlag w.normal_hint_flags PResizeInc = true → 0 < w.base_width →
      w.base_width < w.min_width → w.width_inc ∣ w.min_width - w.base_width)
    (hgh : hasFlag w.normal_hint_flags PResizeInc = true → 0 < w.base_height →
      w.base_height < w.min_height → w.height_inc ∣ w.min_height - w.base_height)
    (hasp : hasFlag w.normal_hint_flags PAspect = true →
      w.min_aspect_y * w.max_width < UMAX ∧ w.max_aspect_x * w.max_height < UMAX)
    (h : constrainSize w r = some (dw, dh)) :
    (w.min_width ≤ dw ∧ dw ≤ w.max_width) ∧ (w.min_height ≤ dh ∧ dh ≤ w.max_height) := by
  unfold constrainSize at h
  simp only at h
  rcases clamp_bounds (d := r.width) hw with ⟨cw1, cw2⟩
  rcases clamp_bounds (d := r.height) hh with ⟨ch1, ch2⟩
  generalize (if (if r.width < w.min_width then w.min_width else r.width) > w.max_width
    then w.max_width else (if r.width < w.min_width then w.min_width else r.width)) = cw
    at h cw1 cw2
  generalize (if (if r.height < w.min_height then w.min_height else r.height) > w.max_height
    then w.max_height else (if r.height < w.min_height then w.min_height else r.height)) = ch
    at h ch1 ch2
  obtain ⟨bw, hbw⟩ : ∃ bw, bw = (if w.base_width ≠ 0 then w.base_width else w.min_width) :=
    ⟨_, rfl⟩
  obtain ⟨bh, hbh⟩ : ∃ bh, bh = (if w.base_height ≠ 0 then w.base_height else w.min_height) :=
    ⟨_, rfl⟩
  rw [← hbw, ← hbh] at h
  split at h
  · rename_i hassert
    subst hbw hbh
    cases hinc : constrainIncrements w (if w.base_width ≠ 0 then w.base_width else w.min_width)
        (if w.base_height ≠ 0 then w.base_height else w.min_height) cw ch with
    | none => rw [hinc] at h; cases h
    | some p =>
      rcases p with ⟨ew, eh⟩
      rw [hinc] at h
      simp only at h
      rcases constrainIncrements_bounds (by omega) (by omega) cw1 ch1 hassert.1 hassert.2
        hgw hgh hinc with ⟨⟨iw1, iw2⟩, ⟨ih1, ih2⟩⟩
      split at h
      · rename_i hflag
        rcases hasp hflag with ⟨ha1, ha2⟩
        cases hmin : constrainMinAspect w ew eh with
        | none => rw [hmin] at h; cases h
        | some p =>
          rcases p with ⟨fw, fh⟩
          rw [hmin] at h
          simp only at h
          rw [constrainMinAspect_eq] at hmin
          have hb1 : w.min_aspect_y * ew < UMAX :=
            Nat.lt_of_le_of_lt (Nat.mul_le_mul_left _ (by omega)) ha1
          rcases aspectStep_bounds hb1 (by omega) hmin with ⟨s1, s2⟩
          have fwb : w.min_width ≤ fw ∧ fw ≤ w.max_width := by
            rcases s1 with rfl | ⟨a, b⟩ <;> omega
          have fhb : w.min_height ≤ fh ∧ fh ≤ w.max_height := by
            rcases s2 with rfl | ⟨a, b⟩ <;> omega
          rw [constrainMaxAspect_eq] at h
          cases hmax : aspectStep w.max_aspect_y w.max_aspect_x w.height_inc w.width_inc
              w.max_height w.min_width fh fw with
          | none => rw [hmax] at h; cases h
          | some p =>
            rcases p with ⟨gh, gw⟩
            rw [hmax] at h
            simp only [Option.map_some', Prod.swap_prod_mk] at h
            injection h with h
            injection h with ha hb
            subst ha hb
            have hb2 : w.max_aspect_x * fh < UMAX :=
              Nat.lt_of_le_of_lt (Nat.mul_le_mul_left _ (by omega)) ha2
            rcases aspectStep_bounds hb2 (by omega) hmax with ⟨t1, t2⟩
            constructor
            · rcases t2 with rfl | ⟨a, b⟩ <;> omega
            · rcases t1 with rfl | ⟨a, b⟩ <;> omega
      · injection h with h
        injection h with ha hb
        subst ha hb
        exact ⟨⟨iw1, by omega⟩, ⟨ih1, by omega⟩⟩
  · cases h

/-- C2 (amended): with min <= max in both directions, the minimum size on the
increment grid whenever a non-zero base size lies below it, and the aspect
products `min_aspect_y * max_width`, `max_aspect_x * max_height` within 32
bits, every client size constrain computes lies in [min, max] x [min, max]. -/
theorem constrain_within_bounds (w : BlackboxWindow) (dw dh : Nat)
    (hmaxw : w.max_width < UMAX) (hmaxh : w.max_height < UMAX)
    (hw : w.min_width ≤ w.max_width) (hh : w.min_height ≤ w.max_height)
    (hgw : hasFlag w.normal_hint_flags PResizeInc = true → 0 < w.base_width →
      w.base_width < w.min_width → w.width_inc ∣ w.min_width - w.base_width)
    (hgh : hasFlag w.normal_hint_flags PResizeInc = true → 0 < w.base_height →
      w.base_height < w.min_height → w.height_inc ∣ w.min_height - w.base_height)
    (hasp : hasFlag w.normal_hint_flags PAspect = true →
      w.min_aspect_y * w.max_width < UMAX ∧ w.max_aspect_x * w.max_height < UMAX)
    (h : constrainClientSize w = some (dw, dh)) :
    (w.min_width ≤ dw ∧ dw ≤ w.max_width) ∧ (w.min_height ≤ dh ∧ dh ≤ w.max_height) :=
  constrainSize_bounds w (stripMargin w) dw dh hmaxw hmaxh hw hh hgw hgh hasp h

/-- C2 as stated fails: hints with min 10, base 4 and increment 7 (min <= max)
send a requested 10x10 client to 4x4, below the minimum size. -/
theorem constrain_within_bounds_counterexample :
    offGridWindow.min_width ≤ offGridWindow.max_width ∧
    offGridWindow.min_height ≤ offGridWindow.max_height ∧
    constrainClientSize offGridWindow = some (4, 4) ∧
    ¬ (offGridWindow.min_width ≤ 4) := by
  decide

theorem constrain_within_bounds_witness :
    (aspectWindow.min_width ≤ 22 ∧ 22 ≤ aspectWindow.max_width) ∧
    (aspectWindow.min_height ≤ 30 ∧ 30 ≤ aspectWindow.max_height) :=
  constrain_within_bounds aspectWindow 22 30 (by decide) (by decide) (by decide) (by decide)
    (by decide) (by decide) (by decide) (by decide)

/-- C3 at its failing input: with PResizeInc and PAspect set (min 10x10,
increment 10, minimum aspect 3/4) a requested 20x30 client becomes 22x30, and
22 - 10 is not a multiple of the width increment 10. -/
theorem constrain_aspect_leaves_grid :
    constrainClientSize aspectWindow = some (22, 30) ∧
    aspectWindow.base_width = 0 ∧ aspectWindow.min_width = 10 ∧
    aspectWindow.width_inc = 10 ∧ (22 - aspectWindow.min_width) % aspectWindow.width_inc = 2 := by
  decide

/-! ### maximize twice -/

theorem Rect.width_lt (r : Rect) : r.width < UMAX := by
  unfold Rect.width toUnsigned UMAX
  omega

theorem Rect.height_lt (r : Rect) : r.height < UMAX := by
  unfold Rect.height toUnsigned UMAX
  omega

theorem Rect.width_ofSize (x y : Int) (w h : Nat) (hw : w < UMAX) :
    (Rect.ofSize x y w h).width = w := by
  unfold Rect.ofSize Rect.width toUnsigned toSigned
  unfold UMAX at *
  simp only
  omega

theorem Rect.height_ofSize (x y : Int) (w h : Nat) (hh : h < UMAX) :
    (Rect.ofSize x y w h).height = h := by
  unfold Rect.ofSize Rect.height toUnsigned toSigned
  unfold UMAX at *
  simp only
  omega

theorem Rect.width_setPos (r : Rect) (x y : Int) : (r.setPos x y).width = r.width := by
  unfold Rect.setPos Rect.setX Rect.setY Rect.width
  simp only
  congr 1
  omega

theorem Rect.height_setPos (r : Rect) (x y : Int) : (r.setPos x y).height = r.height := by
  unfold Rect.setPos Rect.setX Rect.setY Rect.height
  simp only
  congr 1
  omega

theorem Rect.ofSize_self (r : Rect) (h : r.IsInt) :
    Rect.ofSize r.x r.y r.width r.height = r := by
  rcases h with ⟨_, _, ⟨hx1, hx2⟩, ⟨hy1, hy2⟩⟩
  cases r with
  | mk x1 y1 x2 y2 =>
    unfold Rect.ofSize Rect.x Rect.y Rect.width Rect.height toUnsigned toSigned
    unfold UMAX
    simp only at hx1 hx2 hy1 hy2 ⊢
    congr 1 <;> omega

theorem Rect.setPos_setPos_back (r : Rect) (x y : Int) :
    (r.setPos x y).setPos r.x r.y = r := by
  cases r with
  | mk x1 y1 x2 y2 =>
    unfold Rect.setPos Rect.setX Rect.setY Rect.x Rect.y
    simp only
    congr 1 <;> omega

theorem sendConfigureNotify_fields (w : BlackboxWindow) :
    (sendConfigureNotify w).1.frame_rect = w.frame_rect ∧
    (sendConfigureNotify w).1.premax = w.premax ∧
    (sendConfigureNotify w).1.maximized = w.maximized ∧
    (sendConfigureNotify w).1.fullscreen = w.fullscreen ∧
    (sendConfigureNotify w).1.resizing = w.resizing :=
  ⟨rfl, rfl, rfl, rfl, rfl⟩

theorem configureResize_fields (w : BlackboxWindow) (dx dy : Int) (dw dh : Nat) :
    (configureResize w dx dy dw dh).1.frame_rect =
      (if (Rect.ofSize dx dy dw dh).right ≤ 0 ∨ (Rect.ofSize dx dy dw dh).bottom ≤ 0 then
        (Rect.ofSize dx dy dw dh).setPos 0 0
      else Rect.ofSize dx dy dw dh) ∧
    (configureResize w dx dy dw dh).1.premax = w.premax ∧
    (configureResize w dx dy dw dh).1.maximized = w.maximized ∧
    (configureResize w dx dy dw dh).1.fullscreen = w.fullscreen ∧
    (configureResize w dx dy dw dh).1.resizing = w.resizing :=
  ⟨rfl, rfl, rfl, rfl, rfl⟩

theorem configureMove_fields (w : BlackboxWindow) (dx dy : Int) :
    (configureMove w dx dy).1.frame_rect = w.frame_rect.setPos dx dy ∧
    (configureMove w dx dy).1.premax = w.premax ∧
    (configureMove w dx dy).1.maximized = w.maximized ∧
    (configureMove w dx dy).1.fullscreen = w.fullscreen ∧
    (configureMove w dx dy).1.resizing = w.resizing :=
  ⟨rfl, rfl, rfl, rfl, rfl⟩

theorem configure_fields (w : BlackboxWindow) (dx dy : Int) (dw dh : Nat) :
    (configure w dx dy dw dh).1.frame_rect = configuredFrame w dx dy dw dh ∧
    (configure w dx dy dw dh).1.premax = w.premax ∧
    (configure w dx dy dw dh).1.maximized = w.maximized ∧
    (configure w dx dy dw dh).1.fullscreen = w.fullscreen ∧
    (configure w dx dy dw dh).1.resizing = w.resizing := by
  unfold configure configuredFrame
  by_cases hsz : dw ≠ w.frame_rect.width ∨ dh ≠ w.frame_rect.height
  · rw [if_pos hsz, if_pos hsz]
    rcases configureResize_fields w dx dy dw dh with ⟨a1, a2, a3, a4, a5⟩
    rcases sendConfigureNotify_fields (configureResize w dx dy dw dh).1 with
      ⟨b1, b2, b3, b4, b5⟩
    split
    · exact ⟨b1.trans a1, b2.trans a2, b3.trans a3, b4.trans a4, b5.trans a5⟩
    · exact ⟨a1, a2, a3, a4, a5⟩
  · rw [if_neg hsz, if_neg hsz]
    rcases configureMove_fields w dx dy with ⟨a1, a2, a3, a4, a5⟩
    rcases sendConfigureNotify_fields (configureMove w dx dy).1 with ⟨b1, b2, b3, b4, b5⟩
    by_cases hm : w.moving = false
    · rw [if_pos hm, if_pos rfl]
      exact ⟨b1.trans a1, b2.trans a2, b3.trans a3, b4.trans a4, b5.trans a5⟩
    · rw [if_neg hm]
      split
      · exact ⟨b1.trans a1, b2.trans a2, b3.trans a3, b4.trans a4, b5.trans a5⟩
      · exact ⟨a1, a2, a3, a4, a5⟩

theorem constrain_fields {w w' : BlackboxWindow} {a : Corner} (h : constrain w a = some w') :
    w'.frame_rect = w.frame_rect ∧ w'.premax = w.premax ∧ w'.maximized = w.maximized ∧
    w'.fullscreen = w.fullscreen ∧ w'.resizing = w.resizing := by
  unfold constrain at h
  simp only at h
  split at h
  · cases h
  · injection h with h
    subst h
    exact ⟨rfl, rfl, rfl, rfl, rfl⟩

/-- What the first maximize (of an unmaximized window that is not fullscreen)
leaves behind. -/
theorem maximize_first {avail : Rect} {w w1 : BlackboxWindow} {b : Nat}
    {log1 : List XRequest} (hmax : w.maximized = 0) (hfs : w.fullscreen = false)
    (h1 : maximize avail w b = some (w1, log1)) :
    ∃ (dx dy : Int) (dw dh : Nat), dw < UMAX ∧ dh < UMAX ∧
      w1.frame_rect = configuredFrame w dx dy dw dh ∧ w1.premax = w.frame_rect ∧
      w1.maximized = b ∧ w1.fullscreen = false ∧ w1.resizing = w.resizing := by
  unfold maximize at h1
  simp only [hmax, ne_eq, not_true_eq_false, if_false, hfs, Bool.false_eq_true,
    not_false_eq_true, if_true] at h1
  split at h1
  · cases h1
  · rename_i ch _
    split at h1
    · cases h1
    · rename_i wc hc
      rcases constrain_fields hc with ⟨c1, c2, c3, c4, c5⟩
      simp only at c1 c2 c3 c4 c5
      simp only [setState, configureRect] at h1
      injection h1 with h1
      injection h1 with h1 _
      obtain ⟨ws, hws⟩ : ∃ ws : BlackboxWindow,
          ws = (if wc.shaded = true then { wc with shaded := false } else wc) := ⟨_, rfl⟩
      rw [← hws] at h1
      have s1 : ws.frame_rect = w.frame_rect := by
        rw [hws]; split <;> simp [c1]
      have s2 : ws.premax = w.frame_rect := by
        rw [hws]; split <;> simp [c2]
      have s3 : ws.maximized = b := by
        rw [hws]; split <;> simp [c3]
      have s4 : ws.fullscreen = false := by
        rw [hws]; split <;> simp [c4, hfs]
      have s5 : ws.resizing = w.resizing := by
        rw [hws]; split <;> simp [c5]
      rcases configure_fields ws ws.changing.x ws.changing.y ws.changing.width
        ws.changing.height with ⟨f1, f2, f3, f4, f5⟩
      refine ⟨ws.changing.x, ws.changing.y, ws.changing.width, ws.changing.height,
        Rect.width_lt _, Rect.height_lt _, ?_, ?_, ?_, ?_, ?_⟩
      · rw [← h1]
        simp only
        rw [f1]
        unfold configuredFrame
        rw [s1]
      · rw [← h1]; simp only; rw [f2, s2]
      · rw [← h1]; simp only; rw [f3, s3]
      · rw [← h1]; simp only; rw [f4, s4]
      · rw [← h1]; simp only; rw [f5, s5]

theorem configuredFrame_size (w : BlackboxWindow) (dx dy : Int) (dw dh : Nat)
    (hdw : dw < UMAX) (hdh : dh < UMAX)
    (hsz : dw ≠ w.frame_rect.width ∨ dh ≠ w.frame_rect.height) :
    (configuredFrame w dx dy dw dh).width = dw ∧
    (configuredFrame w dx dy dw dh).height = dh := by
  unfold configuredFrame
  rw [if_pos hsz]
  split
  · rw [Rect.width_setPos, Rect.height_setPos]
    exact ⟨Rect.width_ofSize _ _ _ _ hdw, Rect.height_ofSize _ _ _ _ hdh⟩
  · exact ⟨Rect.width_ofSize _ _ _ _ hdw, Rect.height_ofSize _ _ _ _ hdh⟩

/-- The second maximize (of a maximized window that is neither fullscreen nor
being resized) configures the window back to `client.premax`. -/
theorem maximize_second (avail : Rect) (w1 : BlackboxWindow) (b : Nat)
    (hb0 : w1.maximized ≠ 0) (hfs : w1.fullscreen = false) (hrs : w1.resizing = false) :
    ∃ log2, maximize avail w1 b =
      some ({ (configureRect { w1 with maximized := 0 } w1.premax).1 with
        current_state := (configureRect { w1 with maximized := 0 } w1.premax).1.current_state },
        log2) := by
  unfold maximize
  rw [if_pos hb0]
  simp only [hfs, hrs, setState, Bool.false_eq_true, not_false_eq_true, if_true]
  exact ⟨_, rfl⟩

/-- C4 (amended): for an unmaximized window that is neither fullscreen nor
being resized, whose frame rectangle has its right and bottom edges above 0,
maximize(b) followed by maximize(b), b in 1..3, puts frame.rect back exactly and
the maximized mode back at 0. -/
theorem maximize_twice_restores (avail : Rect) (w w1 : BlackboxWindow) (b : Nat)
    (log1 : List XRequest) (hb : b = 1 ∨ b = 2 ∨ b = 3)
    (hmax : w.maximized = 0) (hfs : w.fullscreen = false) (hrs : w.resizing = false)
    (hint : w.frame_rect.IsInt)
    (hon : 0 < w.frame_rect.right ∧ 0 < w.frame_rect.bottom)
    (h1 : maximize avail w b = some (w1, log1)) :
    ∃ w2 log2, maximize avail w1 b = some (w2, log2) ∧
      w2.frame_rect = w.frame_rect ∧ w2.maximized = 0 := by
  rcases maximize_first hmax hfs h1 with ⟨dx, dy, dw, dh, hdw, hdh, f1, f2, f3, f4, f5⟩
  have hb0 : w1.maximized ≠ 0 := by rw [f3]; omega
  rw [hrs] at f5
  rcases maximize_second avail w1 b hb0 f4 f5 with ⟨log2, h2⟩
  obtain ⟨w', hw'⟩ : ∃ w' : BlackboxWindow, w' = { w1 with maximized := 0 } := ⟨_, rfl⟩
  have g1 : w'.frame_rect = w1.frame_rect := by rw [hw']
  have g2 : w'.premax = w.frame_rect := by rw [hw']; exact f2
  have g3 : w'.maximized = 0 := by rw [hw']
  have g4 : w1.premax = w'.premax := by rw [hw']
  rw [← hw', g4] at h2
  rcases configure_fields w' w'.premax.x w'.premax.y w'.premax.width w'.premax.height with
    ⟨c1, _, c3, _, _⟩
  have hfinal : configuredFrame w' w'.premax.x w'.premax.y w'.premax.width w'.premax.height
      = w.frame_rect := by
    rw [g2]
    unfold configuredFrame
    rw [g1, f1]
    by_cases hsz2 : w.frame_rect.width ≠ (configuredFrame w dx dy dw dh).width ∨
        w.frame_rect.height ≠ (configuredFrame w dx dy dw dh).height
    · rw [if_pos hsz2, Rect.ofSize_self _ hint, if_neg (by omega)]
    · rw [if_neg hsz2]
      by_cases hsz1 : dw ≠ w.frame_rect.width ∨ dh ≠ w.frame_rect.height
      · exfalso
        rcases configuredFrame_size w dx dy dw dh hdw hdh hsz1 with ⟨e1, e2⟩
        rw [e1, e2] at hsz2
        apply hsz2
        rcases hsz1 with h | h
        · exact Or.inl (fun e => h e.symm)
        · exact Or.inr (fun e => h e.symm)
      · unfold configuredFrame
        rw [if_neg hsz1]
        exact Rect.setPos_setPos_back _ _ _
  refine ⟨_, log2, h2, ?_, ?_⟩
  · show (configureRect w' w'.premax).1.frame_rect = w.frame_rect
    unfold configureRect
    rw [c1, hfinal]
  · show (configureRect w' w'.premax).1.maximized = 0
    unfold configureRect
    rw [c3, g3]

/-- C4 as stated fails: a frame lying wholly left of the screen, (-500, 10)
100x100, comes back from maximize(1); maximize(1) at (0, 0). -/
theorem maximize_twice_counterexample :
    offScreenWindow.maximized = 0 ∧ offScreenWindow.fullscreen = false ∧
    offScreenWindow.resizing = false ∧
    offScreenWindow.frame_rect = { x1 := -500, y1 := 10, x2 := -401, y2 := 109 } ∧
    ((maximize (Rect.ofSize 0 0 1024 768) offScreenWindow 1).bind
      (fun p => maximize (Rect.ofSize 0 0 1024 768) p.1 1)).map
        (fun p => (p.1.frame_rect, p.1.maximized)) =
      some ({ x1 := 0, y1 := 0, x2 := 99, y2 := 99 }, 0) := by
  decide

theorem maximize_twice_restores_witness :
    ∃ w2 log2, maximize (Rect.ofSize 0 0 1024 768) maximizedOnce.1 2 = some (w2, log2) ∧
      w2.frame_rect = onScreenWindow.frame_rect ∧ w2.maximized = 0 :=
  maximize_twice_restores (Rect.ofSize 0 0 1024 768) onScreenWindow maximizedOnce.1 2
    maximizedOnce.2 (by decide) (by decide) (by decide) (by decide)
    (by unfold Rect.IsInt; decide) (by decide) (by decide)

/-! ### show and hide -/

/-- C5: show on a window that is already visible, and hide on one that is
already not visible, return with the whole window state (the heap) unchanged
and with no X request issued. -/
theorem show_hide_noop :
    (∀ (h : Heap) (this fuel : Nat), (h this).visible = true →
      «show» (fuel + 1) h this = some (h, [])) ∧
    (∀ (h : Heap) (this : Nat), (h this).visible = false → hide h this = (h, [])) := by
  constructor
  · intro h this fuel hv
    simp [«show», hv]
  · intro h this hv
    simp [hide, hv]

theorem show_hide_noop_witness :
    «show» 1 (Function.update cycleHeap 0 { cycleHeap 0 with visible := true }) 0 =
      some (Function.update cycleHeap 0 { cycleHeap 0 with visible := true }, []) ∧
    hide cycleHeap 0 = (cycleHeap, []) :=
  ⟨show_hide_noop.1 _ 0 0 (by simp), show_hide_noop.2 cycleHeap 0 (by simp [cycleHeap])⟩

/-! ### removeWindow renumbers the members -/

theorem renumber_not_mem (l : List Nat) :
    ∀ (win : Nat → WsWindow) (i : Int) (p : Nat), p ∉ l → renumber win l i p = win p := by
  induction l with
  | nil => intro win i p _; rfl
  | cons a rest ih =>
    intro win i p hp
    have hpa : p ≠ a := fun e => hp (e ▸ List.mem_cons_self _ _)
    have hpr : p ∉ rest := fun e => hp (List.mem_cons_of_mem _ e)
    rw [renumber, ih _ _ _ hpr, Function.update_noteq hpa]

theorem renumber_getElem (l : List Nat) :
    ∀ (win : Nat → WsWindow) (start : Int) (i p : Nat), l.Nodup → l[i]? = some p →
      (renumber win l start p).window_number = start + i := by
  induction l with
  | nil => intro win start i p _ h; simp at h
  | cons a rest ih =>
    intro win start i p hnd h
    rcases List.nodup_cons.1 hnd with ⟨ha, hrest⟩
    cases i with
    | zero =>
      simp at h
      subst h
      rw [renumber, renumber_not_mem rest _ _ _ ha]
      simp
    | succ j =>
      simp at h
      rw [renumber, ih _ _ j p hrest h]
      push_cast
      ring

theorem nodup_of_numbered (win : Nat → WsWindow) (l : List Nat)
    (hnum : ∀ (i p : Nat), l[i]? = some p → (win p).window_number = (i : Int)) : l.Nodup := by
  rw [List.nodup_iff_getElem?_ne_getElem?]
  intro i j hij hj heq
  have hi : i < l.length := by omega
  have h1 := hnum i l[i] (List.getElem?_eq_getElem hi)
  have h2 := hnum j l[i] (by rw [← heq]; exact List.getElem?_eq_getElem hi)
  rw [h1] at h2
  omega

/-- C6: in a workspace whose N >= 1 members carry their positions 0..N-1 as
window numbers, removeWindow of the member at position k leaves the other
members in their order (the list with position k erased), numbers them
0..N-2 in list order and returns N-1. -/
theorem removeWindow_renumbers (setInputFocus : Nat → Bool) (s : Session) (ws : Workspace)
    (w k : Nat)
    (hnum : ∀ (i p : Nat), ws.windowList[i]? = some p → (s.win p).window_number = (i : Int))
    (hw : ws.windowList[k]? = some w) :
    (removeWindow setInputFocus s ws (some w)).2.2.windowList = ws.windowList.eraseIdx k ∧
    (∀ (i p : Nat), (removeWindow setInputFocus s ws (some w)).2.2.windowList[i]? = some p →
      ((removeWindow setInputFocus s ws (some w)).2.1.win p).window_number = (i : Int)) ∧
    (removeWindow setInputFocus s ws (some w)).1 = (ws.windowList.length : Int) - 1 := by
  have hk : k < ws.windowList.length := by
    rcases List.getElem?_eq_some.1 hw with ⟨hk, _⟩
    exact hk
  have hnd : ws.windowList.Nodup := nodup_of_numbered s.win _ hnum
  obtain ⟨s1, hs1⟩ : ∃ s1 : Session, s1 =
      (if s.focused = some w then
        match (match (if (s.win w).transient then (s.win w).transient_for else none) with
          | some p => some p
          | none => (LinkedList.remove ws.stackingList w).head?) with
        | none => { s with focused := none }
        | some p => if setInputFocus p then { s with focused := some p }
                    else { s with focused := none }
      else s) := ⟨_, rfl⟩
  have hwin : s1.win = s.win := by
    rw [hs1]
    split
    · split
      · rfl
      · split <;> rfl
    · rfl
  have hmem : LinkedList.removeAt ws.windowList (s1.win w).window_number =
      ws.windowList.eraseIdx k := by
    rw [hwin, hnum k w hw]
    unfold LinkedList.removeAt
    rw [if_pos ⟨by omega, by omega⟩]
    simp
  have hres : removeWindow setInputFocus s ws (some w) =
      (((ws.windowList.eraseIdx k).length : Int),
        { s1 with win := renumber s.win (ws.windowList.eraseIdx k) 0 },
        { ws with stackingList := LinkedList.remove ws.stackingList w,
                  lastfocus := if ws.lastfocus = some w then none else ws.lastfocus,
                  windowList := ws.windowList.eraseIdx k }) := by
    unfold removeWindow
    simp only [← hs1]
    rw [hmem, hwin]
  rw [hres]
  refine ⟨rfl, ?_, ?_⟩
  · intro i p hp
    have := renumber_getElem (ws.windowList.eraseIdx k) s.win 0 i p (hnd.eraseIdx k) hp
    simpa using this
  · simp only
    rw [List.length_eraseIdx_of_lt hk]
    omega

theorem removeWindow_renumbers_witness :
    (removeWindow (fun _ => true) threeWindows threeMembers (some 8)).2.2.windowList =
      [7, 8, 9].eraseIdx 1 ∧
    (∀ (i p : Nat), (removeWindow (fun _ => true) threeWindows threeMembers (some 8)).2.2.windowList[i]?
        = some p →
      ((removeWindow (fun _ => true) threeWindows threeMembers (some 8)).2.1.win p).window_number
        = (i : Int)) ∧
    (removeWindow (fun _ => true) threeWindows threeMembers (some 8)).1 = 3 - 1 :=
  removeWindow_renumbers (fun _ => true) threeWindows threeMembers 8 1
    (by
      intro i p hp
      have hi : i < 3 := (List.getElem?_eq_some.1 hp).1
      have : i = 0 ∨ i = 1 ∨ i = 2 := by omega
      rcases this with rfl | rfl | rfl <;> simp [threeMembers] at hp <;> subst hp <;> rfl)
    (by rfl)

/-! ### Smart placement -/

theorem clipSize_width (avail : Rect) (size : Int) (h : avail.Proper)
    (h0 : 0 ≤ size) (h1 : size < 2147483648) :
    0 ≤ clipSize size avail.width ∧ clipSize size avail.width ≤ avail.x2 - avail.x1 ∧
    clipSize size avail.width ≤ size ∧
    (avail.x2 - avail.x1 ≤ size → clipSize size avail.width = avail.x2 - avail.x1) ∧
    (size < avail.x2 - avail.x1 + 1 → clipSize size avail.width = size) := by
  rcases h with ⟨a1, a2, _, _⟩
  unfold clipSize Rect.width toUnsigned toSigned UMAX
  split <;> omega

theorem clipSize_height (avail : Rect) (size : Int) (h : avail.Proper)
    (h0 : 0 ≤ size) (h1 : size < 2147483648) :
    0 ≤ clipSize size avail.height ∧ clipSize size avail.height ≤ avail.y2 - avail.y1 ∧
    clipSize size avail.height ≤ size ∧
    (avail.y2 - avail.y1 ≤ size → clipSize size avail.height = avail.y2 - avail.y1) ∧
    (size < avail.y2 - avail.y1 + 1 → clipSize size avail.height = size) := by
  rcases h with ⟨_, _, a1, a2⟩
  unfold clipSize Rect.height toUnsigned toSigned UMAX
  split <;> omega

theorem otherRects_nil (s : Session) (ws : Workspace) (bw win : Nat)
    (h : ∀ c ∈ ws.windowList, c = win) : otherRects s ws bw win = [] := by
  unfold otherRects
  rw [List.map_eq_nil_iff, List.filter_eq_nil_iff]
  intro c hc
  simp [h c hc]

/-- C7: under SmartRow, on a workspace with no other member and a non-empty
available area, placeWindow configures the window at the top-left corner of
the available area, whatever the size of the window. -/
theorem placeWindow_alone_top_left (scr : BScreen) (s : Session) (ws : Workspace)
    (win fuel : Nat) (hpol : scr.windowPlacement = Placement.SmartRow)
    (havail : scr.availableArea.Proper)
    (hw : ((s.win win).width : Int) + scr.borderWidth * 2 < 2147483648)
    (hh : ((s.win win).height : Int) + scr.borderWidth * 2 < 2147483648)
    (halone : ∀ c ∈ ws.windowList, c = win) :
    placeWindow scr s ws win (fuel + 1) =
      some (ws, scr.availableArea.x, scr.availableArea.y) := by
  rcases clipSize_width scr.availableArea _ havail (by omega) hw with ⟨_, cw, _⟩
  rcases clipSize_height scr.availableArea _ havail (by omega) hh with ⟨_, ch, _⟩
  unfold placeWindow smartScan
  simp only [hpol, otherRects_nil s ws scr.borderWidth win halone]
  have hov : rowOverlap scr.availableArea []
      (clipSize ((s.win win).width + scr.borderWidth * 2) scr.availableArea.width)
      (clipSize ((s.win win).height + scr.borderWidth * 2) scr.availableArea.height)
      { x := scr.availableArea.x, y := scr.availableArea.y, place_x := scr.availableArea.x,
        place_y := scr.availableArea.y, min := INT_MAX } = 0 := by
    unfold rowOverlap
    simp only [Rect.x, Rect.y, Rect.bottom, Rect.right]
    rw [if_neg (by omega), if_neg (by omega)]
    rfl
  simp [scanLoop, smartRowStep, hov]

theorem placeWindow_alone_top_left_witness :
    placeWindow rowScreen threeWindows loneMember 7 (0 + 1) =
      some (loneMember, rowScreen.availableArea.x, rowScreen.availableArea.y) :=
  placeWindow_alone_top_left rowScreen threeWindows loneMember 7 0 rfl
    (by unfold Rect.Proper; decide) (by decide) (by decide) (by decide)

/-! ### The scan loop ends -/

theorem XCheckTypedWindowEvent_none (w ty : Nat) (q : List XEvent)
    (h : ∀ r ∈ q, ¬ (r.window = w ∧ r.type = ty)) : XCheckTypedWindowEvent q w ty = none := by
  induction q with
  | nil => rfl
  | cons e rest ih =>
    have he := h e (List.mem_cons_self _ _)
    have hr := ih (fun r hr => h r (List.mem_cons_of_mem _ hr))
    rw [XCheckTypedWindowEvent, if_neg he, hr]

theorem compressEvents_run (w ty : Nat) (rest : List XEvent)
    (hrest : ∀ r ∈ rest, ¬ (r.window = w ∧ r.type = ty)) :
    ∀ (ms : List XEvent) (fuel : Nat) (realevent : Option XEvent) (i : Nat),
      (∀ m ∈ ms, m.window = w ∧ m.type = ty) → ms.length < fuel →
      compressEvents w ty fuel (ms ++ rest) realevent i =
        some (rest, (match ms.getLast? with | some m => some m | none => realevent),
          i + ms.length) := by
  intro ms
  induction ms with
  | nil =>
    intro fuel realevent i _ hfuel
    obtain ⟨f, rfl⟩ : ∃ f, fuel = f + 1 := ⟨fuel - 1, by simp at hfuel; omega⟩
    simp [compressEvents, XCheckTypedWindowEvent_none w ty rest hrest]
  | cons m ms ih =>
    intro fuel realevent i hms hfuel
    obtain ⟨f, rfl⟩ : ∃ f, fuel = f + 1 := ⟨fuel - 1, by simp at hfuel; omega⟩
    have hm := hms m (List.mem_cons_self _ _)
    have hstep : XCheckTypedWindowEvent (m :: ms ++ rest) w ty = some (m, ms ++ rest) := by
      rw [List.cons_append, XCheckTypedWindowEvent, if_pos hm]
    rw [compressEvents, hstep]
    simp only
    rw [ih f (some m) (i + 1) (fun x hx => hms x (List.mem_cons_of_mem _ hx))
      (by simp at hfuel; omega)]
    have hlen : i + 1 + ms.length = i + (m :: ms).length := by
      simp only [List.length_cons]
      omega
    rw [List.getLast?_cons, hlen]
    cases ms.getLast? <;> rfl

/-- C9: with n >= 1 MotionNotify events for one window (the first dequeued, the
others `ms` queued ahead of events `rest` that are not motion events of that
window) and a handler registered for it, process_event empties the queue of
them and calls motionNotifyEvent exactly once, on the handler the menu grab
selects, with the last of the n events (its lock bits stripped), so with the
coordinates of the last queued event. -/
theorem motion_events_compressed (app : Application) (e : XEvent) (ms rest : List XEvent)
    (handler fuel : Nat)
    (he : e.type = MotionNotify)
    (hms : ∀ m ∈ ms, m.window = e.window ∧ m.type = MotionNotify)
    (hrest : ∀ r ∈ rest, ¬ (r.window = e.window ∧ r.type = MotionNotify))
    (hh : app.eventhandlers e.window = some handler)
    (hmenu : app.menu_grab = true → app.menus ≠ [])
    (hfuel : ms.length < fuel) :
    ∃ app' target allow delivered,
      process_event app (ms ++ rest) e fuel =
        some (app', rest, allow ++ [Effect.deliver target delivered]) ∧
      (∀ x ∈ allow, ∀ t ev, x ≠ Effect.deliver t ev) ∧
      delivered.type = MotionNotify ∧ delivered.window = e.window ∧
      delivered.x = ((e :: ms).getLast (List.cons_ne_nil e ms)).x ∧
      delivered.y = ((e :: ms).getLast (List.cons_ne_nil e ms)).y := by
  have hrun := compressEvents_run e.window MotionNotify rest hrest ms fuel none 0 hms hfuel
  obtain ⟨target, allow, hp, hallow⟩ : ∃ target allow,
      pointerHandler app handler = some (target, allow) ∧
      (∀ x ∈ allow, ∀ t ev, x ≠ Effect.deliver t ev) := by
    unfold pointerHandler
    by_cases hg : app.menu_grab = true
    · rw [if_pos hg]
      by_cases hm : app.isMenu handler = true
      · rw [if_pos hm]
        exact ⟨_, _, rfl, by intro x hx t ev; simp at hx; subst hx; simp⟩
      · rw [if_neg hm]
        cases hmenus : app.menus with
        | nil => exact absurd hmenus (hmenu hg)
        | cons m rest' =>
          exact ⟨_, _, rfl, by intro x hx t ev; simp at hx; subst hx; simp⟩
    · rw [if_neg hg]
      exact ⟨_, _, rfl, by intro x hx; simp at hx⟩
  obtain ⟨lock, hlock⟩ : ∃ lock, lock = app.NumLockMask ||| app.ScrollLockMask ||| LockMask :=
    ⟨_, rfl⟩
  cases hms' : ms with
  | nil =>
    subst hms'
    refine ⟨{ app with xserver_time := e.time }, target, allow,
      { e with state := stripMask e.state lock }, ?_, hallow, he,
      rfl, rfl, rfl⟩
    unfold process_event
    rw [hh]
    simp only [he, or_true, if_true, hp, hrun, ← hlock]
    simp [he]
  | cons m ms' =>
    have hne : ms ≠ [] := by rw [hms']; simp
    have hlast : ms.getLast? = some (ms.getLast hne) := List.getLast?_eq_getLast _ hne
    have hlast2 : (e :: ms).getLast (List.cons_ne_nil e ms) = ms.getLast hne :=
      List.getLast_cons hne
    have hmem := hms _ (List.getLast_mem hne)
    rw [hlast] at hrun
    simp only at hrun
    rw [← hms']
    refine ⟨{ app with xserver_time := e.time }, target, allow,
      { ms.getLast hne with state := stripMask (ms.getLast hne).state lock }, ?_, hallow,
      hmem.2, hmem.1, ?_, ?_⟩
    · unfold process_event
      rw [hh]
      simp only [he, or_true, if_true, hp, hrun, ← hlock]
      have hpos : 0 < ms.length := List.length_pos.2 hne
      simp [hpos]
    · rw [hlast2]
    · rw [hlast2]

theorem motion_events_compressed_witness :
    ∃ app' target allow delivered,
      process_event plainApplication
        ([motionAt 1 1, motionAt 2 2, motionAt 3 3, motionAt 4 5] ++
          [{ motionAt 9 9 with window := 6 }]) (motionAt 0 0) 5 =
        some (app', [{ motionAt 9 9 with window := 6 }],
          allow ++ [Effect.deliver target delivered]) ∧
      (∀ x ∈ allow, ∀ t ev, x ≠ Effect.deliver t ev) ∧
      delivered.type = MotionNotify ∧ delivered.window = (motionAt 0 0).window ∧
      delivered.x = ((motionAt 0 0 ::
        [motionAt 1 1, motionAt 2 2, motionAt 3 3, motionAt 4 5]).getLast
          (List.cons_ne_nil _ _)).x ∧
      delivered.y = ((motionAt 0 0 ::
        [motionAt 1 1, motionAt 2 2, motionAt 3 3, motionAt 4 5]).getLast
          (List.cons_ne_nil _ _)).y :=
  motion_events_compressed plainApplication (motionAt 0 0)
    [motionAt 1 1, motionAt 2 2, motionAt 3 3, motionAt 4 5]
    [{ motionAt 9 9 with window := 6 }] 1 5 rfl (by decide) (by decide) rfl (by decide)
    (by decide)

/-! ### Which candidate the scan picks -/

/-- An overlapping member meets the window. -/
theorem overlapsAt_intersects (C : Rect) (x y width height : Int)
    (h : overlapsAt C x y width height) :
    C.intersects (Rect.make x y width height) = true := by
  unfold overlapsAt at h
  unfold Rect.intersects
  simp only [decide_eq_true_eq, Rect.make]
  omega

/-- The mode a call of maximize leaves: 0 for a maximized window, the button
otherwise. -/
theorem maximize_mode {avail : Rect} {w w1 : BlackboxWindow} {b : Nat} {log1 : List XRequest}
    (h1 : maximize avail w b = some (w1, log1)) :
    w1.maximized = if w.maximized ≠ 0 then 0 else b := by
  by_cases hmax : w.maximized ≠ 0
  · rw [if_pos hmax]
    unfold maximize at h1
    rw [if_pos hmax] at h1
    cases hfs : w.fullscreen with
    | true =>
      simp only [hfs, setState, not_true_eq_false, if_false] at h1
      injection h1 with h1
      injection h1 with h1 _
      rw [← h1]
    | false =>
      cases hrs : w.resizing with
      | true =>
        simp only [hfs, hrs, setState, Bool.false_eq_true, not_true_eq_false,
          not_false_eq_true, if_true, if_false] at h1
        injection h1 with h1
        injection h1 with h1 _
        rw [← h1]
      | false =>
        simp only [hfs, hrs, setState, Bool.false_eq_true, not_false_eq_true, if_true] at h1
        injection h1 with h1
        injection h1 with h1 _
        rw [← h1]
        exact (configure_fields _ _ _ _ _).2.2.1
  · rw [if_neg hmax]
    have hmax0 : w.maximized = 0 := by omega
    cases hfs : w.fullscreen with
    | true =>
      unfold maximize at h1
      rw [if_neg hmax] at h1
      simp only [hfs, setState, not_true_eq_false, if_false] at h1
      injection h1 with h1
      injection h1 with h1 _
      rw [← h1]
    | false =>
      rcases maximize_first hmax0 hfs h1 with ⟨_, _, _, _, _, _, _, _, f3, _⟩
      exact f3

theorem aspectStep_some {ax ay inc1 inc2 : Nat} (max1 min2 d1 d2 : Nat) (hax : ax ≠ 0)
    (hay : ay ≠ 0) (h1 : inc1 ≠ 0) (h2 : inc2 ≠ 0) :
    ∃ p, aspectStep ax ay inc1 inc2 max1 min2 d1 d2 = some p := by
  unfold aspectStep udiv
  simp only [if_neg hax, if_neg hay, if_neg h1, if_neg h2]
  split
  · split
    · exact ⟨_, rfl⟩
    · split <;> exact ⟨_, rfl⟩
  · exact ⟨_, rfl⟩

/-- With well-formed size hints constrain computes a client size for every
request. -/
theorem constrainSize_some (w : BlackboxWindow) (r : Rect) (h : SizeHintsOK w) :
    ∃ p, constrainSize w r = some p := by
  rcases h with ⟨hw, hh, hbw, hbh, hinc, hasp⟩
  unfold constrainSize
  simp only
  rw [if_pos (by
    constructor
    · split <;> split <;> split <;> omega
    · split <;> split <;> split <;> omega)]
  have hstep : ∀ a b c d, ∃ p, constrainIncrements w a b c d = some p := by
    intro a b c d
    unfold constrainIncrements udiv
    by_cases hf : hasFlag w.normal_hint_flags PResizeInc = true
    · rcases hinc (Or.inl hf) with ⟨i1, i2⟩
      rw [if_pos hf, if_neg i1, if_neg i2]
      exact ⟨_, rfl⟩
    · rw [if_neg hf]
      exact ⟨_, rfl⟩
  rcases hstep _ _ _ _ with ⟨⟨dw, dh⟩, hp⟩
  rw [hp]
  simp only
  by_cases hf : hasFlag w.normal_hint_flags PAspect = true
  · rw [if_pos hf]
    rcases hinc (Or.inr hf) with ⟨i1, i2⟩
    rcases hasp hf with ⟨a1, a2, a3, a4⟩
    rcases aspectStep_some w.max_width w.min_height dw dh a1 a2 i1 i2 with ⟨⟨ew, eh⟩, he⟩
    rw [constrainMinAspect_eq, he]
    simp only
    rcases aspectStep_some w.max_height w.min_width eh ew a4 a3 i2 i1 with ⟨q, hq⟩
    rw [constrainMaxAspect_eq, hq]
    exact ⟨_, rfl⟩
  · rw [if_neg hf]
    exact ⟨_, rfl⟩

theorem constrain_some (w : BlackboxWindow) (a : Corner) (h : SizeHintsOK w) :
    ∃ w', constrain w a = some w' := by
  rcases constrainSize_some w (stripMargin w) h with ⟨⟨dw, dh⟩, hp⟩
  unfold constrain
  simp only [hp]
  exact ⟨_, rfl⟩

theorem configure_sizeHints (w : BlackboxWindow) (dx dy : Int) (dw dh : Nat) :
    sizeHints (configure w dx dy dw dh).1 = sizeHints w := by
  unfold configure
  simp only
  split_ifs <;> rfl

theorem constrain_sizeHints {w w' : BlackboxWindow} {a : Corner}
    (h : constrain w a = some w') : sizeHints w' = sizeHints w := by
  unfold constrain at h
  simp only at h
  split at h
  · cases h
  · injection h with h
    subst h
    rfl

theorem SizeHintsOK_of_sizeHints {w w' : BlackboxWindow} (h : sizeHints w' = sizeHints w)
    (hok : SizeHintsOK w) : SizeHintsOK w' := by
  unfold sizeHints at h
  simp only [List.cons.injEq, and_true] at h
  rcases h with ⟨e1, e2, e3, e4, e5, e6, e7, e8, e9, e10, e11, e12, e13⟩
  unfold SizeHintsOK at hok ⊢
  rw [e1, e2, e3, e4, e5, e6, e7, e8, e9, e10, e11, e12, e13]
  exact hok

theorem constrain_ne_none (w : BlackboxWindow) (a : Corner) (h : SizeHintsOK w) :
    constrain w a ≠ none := by
  rcases constrain_some w a h with ⟨w', hw'⟩
  rw [hw']
  exact Option.some_ne_none _

theorem shaded_sizeHints (u : BlackboxWindow) :
    sizeHints (if u.shaded = true then { u with shaded := false } else u) = sizeHints u := by
  split <;> rfl

/-- The size hints stay as they are through maximize. -/
theorem maximize_sizeHints {avail : Rect} {w w1 : BlackboxWindow} {b : Nat}
    {log1 : List XRequest} (h1 : maximize avail w b = some (w1, log1)) :
    sizeHints w1 = sizeHints w := by
  unfold maximize at h1
  by_cases hmax : w.maximized ≠ 0
  · rw [if_pos hmax] at h1
    cases hfs : w.fullscreen with
    | true =>
      simp only [hfs, setState, not_true_eq_false, if_false] at h1
      injection h1 with h1
      injection h1 with h1 _
      rw [← h1]
      rfl
    | false =>
      cases hrs : w.resizing with
      | true =>
        simp only [hfs, hrs, setState, Bool.false_eq_true, not_true_eq_false,
          not_false_eq_true, if_true, if_false] at h1
        injection h1 with h1
        injection h1 with h1 _
        rw [← h1]
        rfl
      | false =>
        simp only [hfs, hrs, setState, Bool.false_eq_true, not_false_eq_true, if_true] at h1
        injection h1 with h1
        injection h1 with h1 _
        rw [← h1]
        exact configure_sizeHints _ _ _ _ _
  · rw [if_neg hmax] at h1
    cases hfs : w.fullscreen with
    | true =>
      simp only [hfs, setState, not_true_eq_false, if_false] at h1
      injection h1 with h1
      injection h1 with h1 _
      rw [← h1]
      rfl
    | false =>
      simp only [hfs, Bool.false_eq_true, not_false_eq_true, if_true] at h1
      split at h1
      · cases h1
      · split at h1
        · cases h1
        · rename_i wc hc
          have c1 := constrain_sizeHints hc
          simp only [setState, configureRect] at h1
          injection h1 with h1
          injection h1 with h1 _
          rw [← h1]
          exact ((configure_sizeHints _ _ _ _ _).trans (shaded_sizeHints wc)).trans c1

/-- With well-formed size hints maximize returns, for a maximized window and
for the buttons 1 to 3. -/
theorem maximize_ne_none (avail : Rect) (w : BlackboxWindow) (b : Nat) (hok : SizeHintsOK w)
    (hb : w.maximized ≠ 0 ∨ b = 1 ∨ b = 2 ∨ b = 3) : maximize avail w b ≠ none := by
  intro h1
  unfold maximize at h1
  by_cases hmax : w.maximized ≠ 0
  · rw [if_pos hmax] at h1
    cases hfs : w.fullscreen with
    | true =>
      simp only [hfs, setState, not_true_eq_false, if_false] at h1
      cases h1
    | false =>
      cases hrs : w.resizing with
      | true =>
        simp only [hfs, hrs, setState, Bool.false_eq_true, not_true_eq_false,
          not_false_eq_true, if_true, if_false] at h1
        cases h1
      | false =>
        simp only [hfs, hrs, setState, Bool.false_eq_true, not_false_eq_true, if_true] at h1
        cases h1
  · have hb3 : b = 1 ∨ b = 2 ∨ b = 3 := by
      rcases hb with h | h
      · exact absurd h hmax
      · exact h
    rw [if_neg hmax] at h1
    cases hfs : w.fullscreen with
    | true =>
      simp only [hfs, setState, not_true_eq_false, if_false] at h1
      cases h1
    | false =>
      simp only [hfs, Bool.false_eq_true, not_false_eq_true, if_true] at h1
      split at h1
      · rename_i hch
        rcases hb3 with rfl | rfl | rfl <;> simp at hch
      · split at h1
        · rename_i hc
          exact absurd hc (constrain_ne_none _ _ hok)
        · simp only [setState, configureRect] at h1
          cases h1

/-- The flags and the button of an `add` message. -/
theorem add_flags (w : BlackboxWindow) (first second : NetState)
    (hnamed : (first = NetState.maximizedVert ∨ second = NetState.maximizedVert) ∨
      (first = NetState.maximizedHorz ∨ second = NetState.maximizedHorz)) :
    (maxHorzFlag w NetAction.add first second ≠ 0 ∨
      maxVertFlag w NetAction.add first second ≠ 0) ∧
    maximizeButton (maxHorzFlag w NetAction.add first second)
        (maxVertFlag w NetAction.add first second) =
      (if (first = NetState.maximizedHorz ∨ second = NetState.maximizedHorz) ∧
          (first = NetState.maximizedVert ∨ second = NetState.maximizedVert) then 1
        else if first = NetState.maximizedVert ∨ second = NetState.maximizedVert then 2
        else 3) := by
  unfold maxHorzFlag maxVertFlag maximizeButton
  cases first <;> cases second <;> simp at hnamed ⊢

/-- The first step of the maximize block: a maximized window is taken back to
mode 0. -/
theorem unmaximize_first (avail : Rect) (w : BlackboxWindow) (hok : SizeHintsOK w) :
    ∃ w1 log1, (if w.maximized ≠ 0 then maximize avail w 0 else some (w, [])) =
        some (w1, log1) ∧ w1.maximized = 0 ∧ SizeHintsOK w1 := by
  by_cases hmax : w.maximized ≠ 0
  · rw [if_pos hmax]
    cases h1 : maximize avail w 0 with
    | none => exact absurd h1 (maximize_ne_none avail w 0 hok (Or.inl hmax))
    | some p =>
      refine ⟨p.1, p.2, rfl, ?_, SizeHintsOK_of_sizeHints (maximize_sizeHints h1) hok⟩
      rw [maximize_mode h1, if_pos hmax]
  · rw [if_neg hmax]
    exact ⟨w, [], rfl, by omega, hok⟩

/-- C11 (amended): a _NET_WM_STATE message with the action add that names a
maximize state replaces the mode by the states it names, whatever the mode was:
MaximizedVert alone leaves mode 2 (vertical), MaximizedHorz alone mode 3
(horizontal), and a message that names both leaves mode 1 (both). -/
theorem netWMState_add_mode (avail : Rect) (w : BlackboxWindow) (first second : NetState)
    (hok : SizeHintsOK w)
    (hnamed : (first = NetState.maximizedVert ∨ second = NetState.maximizedVert) ∨
      (first = NetState.maximizedHorz ∨ second = NetState.maximizedHorz)) :
    ∃ w2 log, netWMStateMaximize avail w NetAction.add first second = some (w2, log) ∧
      w2.maximized =
        (if (first = NetState.maximizedHorz ∨ second = NetState.maximizedHorz) ∧
            (first = NetState.maximizedVert ∨ second = NetState.maximizedVert) then 1
          else if first = NetState.maximizedVert ∨ second = NetState.maximizedVert then 2
          else 3) := by
  rcases add_flags w first second hnamed with ⟨hcond, hbutton⟩
  rcases unmaximize_first avail w hok with ⟨w1, log1, hfirst, hmode1, hok1⟩
  have hb : maximizeButton (maxHorzFlag w NetAction.add first second)
      (maxVertFlag w NetAction.add first second) = 1 ∨
      maximizeButton (maxHorzFlag w NetAction.add first second)
      (maxVertFlag w NetAction.add first second) = 2 ∨
      maximizeButton (maxHorzFlag w NetAction.add first second)
      (maxVertFlag w NetAction.add first second) = 3 := by
    rw [hbutton]
    split
    · exact Or.inl rfl
    · split
      · exact Or.inr (Or.inl rfl)
      · exact Or.inr (Or.inr rfl)
  unfold netWMStateMaximize
  simp only
  rw [if_pos hcond, hfirst]
  simp only
  rw [if_pos (by omega)]
  cases h2 : maximize avail w1 (maximizeButton (maxHorzFlag w NetAction.add first second)
      (maxVertFlag w NetAction.add first second)) with
  | none => exact absurd h2 (maximize_ne_none avail w1 _ hok1 (Or.inr hb))
  | some p =>
    refine ⟨p.1, log1 ++ p.2, rfl, ?_⟩
    rw [maximize_mode h2, if_neg (by omega), hbutton]

/-- C11 as stated fails: MaximizedVert added to a window in mode 3 leaves mode
2, and MaximizedHorz added to a window in mode 2 leaves mode 3. -/
theorem netWMState_add_counterexample :
    maximizedHorz.maximized = 3 ∧
    (netWMStateMaximize (Rect.ofSize 0 0 1024 768) maximizedHorz NetAction.add
      NetState.maximizedVert NetState.unnamed).map (fun p => p.1.maximized) = some 2 ∧
    maximizedVert.maximized = 2 ∧
    (netWMStateMaximize (Rect.ofSize 0 0 1024 768) maximizedVert NetAction.add
      NetState.maximizedHorz NetState.unnamed).map (fun p => p.1.maximized) = some 3 := by
  decide

theorem netWMState_add_mode_witness :
    ∃ w2 log, netWMStateMaximize (Rect.ofSize 0 0 1024 768) maximizedHorz NetAction.add
        NetState.maximizedVert NetState.maximizedHorz = some (w2, log) ∧
      w2.maximized = 1 :=
  netWMState_add_mode (Rect.ofSize 0 0 1024 768) maximizedHorz NetState.maximizedVert
    NetState.maximizedHorz (by unfold SizeHintsOK; decide) (by decide)

/-! ### configure and the synthetic ConfigureNotify -/

theorem configureResize_count (w : BlackboxWindow) (dx dy : Int) (dw dh : Nat) :
    configureNotifyCount (configureResize w dx dy dw dh).2 = 0 := by
  unfold configureResize configureNotifyCount
  simp only
  cases w.shaped <;> rfl

/-- C12: for a window that is not in an interactive move, configure(x, y, w, h)
sends exactly one synthetic ConfigureNotify when the frame position changes and
the frame size does not, and none when the frame size changes and the position
does not. -/
theorem configure_notify_count (w : BlackboxWindow) (dx dy : Int) (dw dh : Nat)
    (hmove : w.moving = false) :
    ((w.frame_rect.x ≠ dx ∨ w.frame_rect.y ≠ dy) →
      dw = w.frame_rect.width ∧ dh = w.frame_rect.height →
      configureNotifyCount (configure w dx dy dw dh).2 = 1) ∧
    (w.frame_rect.x = dx ∧ w.frame_rect.y = dy →
      (dw ≠ w.frame_rect.width ∨ dh ≠ w.frame_rect.height) →
      configureNotifyCount (configure w dx dy dw dh).2 = 0) := by
  constructor
  · intro _ hsize
    unfold configure
    simp only
    rw [if_neg (by rcases hsize with ⟨h1, h2⟩; rw [h1, h2]; simp), hmove]
    rfl
  · intro hpos hsize
    unfold configure
    simp only
    rw [if_pos hsize]
    have hsend : decide ((w.frame_rect.x ≠ dx ∨ w.frame_rect.y ≠ dy) ∧ w.moving = false)
        = false := by
      rw [hpos.1, hpos.2]
      simp
    rw [hsend]
    exact configureResize_count w dx dy dw dh

theorem configure_notify_count_witness :
    configureNotifyCount (configure shapedWindow 31 40 100 100).2 = 1 ∧
    configureNotifyCount (configure shapedWindow 30 40 120 100).2 = 0 :=
  ⟨(configure_notify_count shapedWindow 31 40 100 100 rfl).1 (by decide) (by decide),
    (configure_notify_count shapedWindow 30 40 120 100 rfl).2 (by decide) (by decide)⟩

/-! ### iconify and the function flags -/

/-- One call of iconify in terms of the loop `iconifyAll`. -/
theorem iconify_succ (fuel : Nat) (h : Heap) (this : Nat) :
    iconify (fuel + 1) h this =
      if (h this).iconic then some (h, [])
      else
        match (match (h this).transient_for with
          | .win p => if ¬ (h p).iconic then iconify fuel h p else some (h, [])
          | _ => some (h, [])) with
        | none => none
        | some (h1, log1) =>
          iconifyAll fuel
            ((hide (Function.update h1 this { h1 this with iconic := true }) this).1
              this).transientList
            (some ((hide (Function.update h1 this { h1 this with iconic := true }) this).1,
              log1 ++ [XRequest.addIcon] ++
                (hide (Function.update h1 this { h1 this with iconic := true }) this).2)) := by
  rfl

/-- What `client.state.iconic = true; hide();` leaves of a window. -/
theorem hide_mark (h : Heap) (w : Nat) :
    ((hide (Function.update h w { h w with iconic := true }) w).1 w).iconic = true ∧
    ((hide (Function.update h w { h w with iconic := true }) w).1 w).visible = false ∧
    ((hide (Function.update h w { h w with iconic := true }) w).1 w).transient_for =
      (h w).transient_for ∧
    ((hide (Function.update h w { h w with iconic := true }) w).1 w).transientList =
      (h w).transientList ∧
    (∀ v, v ≠ w → (hide (Function.update h w { h w with iconic := true }) w).1 v = h v) := by
  cases hv : (h w).visible with
  | false =>
    have e : hide (Function.update h w { h w with iconic := true }) w =
        (Function.update h w { h w with iconic := true }, []) := by
      unfold hide
      simp [hv]
    rw [e]
    refine ⟨?_, ?_, ?_, ?_, ?_⟩
    · simp
    · simp [hv]
    · simp
    · simp
    · intro v hvw
      exact Function.update_noteq hvw _ _
  | true =>
    refine ⟨?_, ?_, ?_, ?_, ?_⟩
    · unfold hide; simp [hv, Client.setState]
    · unfold hide; simp [hv, Client.setState]
    · unfold hide; simp [hv, Client.setState]
    · unfold hide; simp [hv, Client.setState]
    · intro v hvw
      unfold hide
      simp [hv, Client.setState, Function.update_noteq hvw]

/-- The loop over a transient list, when every call keeps `P` and settles `R`
for its window without unsettling it for another. -/
theorem iconifyAll_steps (fuel : Nat) (P : Heap → Prop) (R : Nat → Heap → Prop) :
    ∀ (l : List Nat) (h : Heap) (log : List XRequest), P h →
      (∀ c ∈ l, ∀ hk, P hk → ∃ h' lg, iconify fuel hk c = some (h', lg) ∧ P h' ∧ R c h' ∧
        (∀ d, R d hk → R d h')) →
      ∃ h' log', iconifyAll fuel l (some (h, log)) = some (h', log') ∧ P h' ∧
        (∀ c ∈ l, R c h') ∧ (∀ d, R d h → R d h') := by
  intro l
  induction l with
  | nil =>
    intro h log hP _
    exact ⟨h, log, rfl, hP, fun c hc => absurd hc (List.not_mem_nil c), fun _ hd => hd⟩
  | cons c rest ih =>
    intro h log hP hstep
    rcases hstep c (List.mem_cons_self _ _) h hP with ⟨h1, lg, e1, hP1, hR1, hkeep1⟩
    rcases ih h1 (log ++ lg) hP1 (fun d hd => hstep d (List.mem_cons_of_mem _ hd)) with
      ⟨h2, log2, e2, hP2, hR2, hkeep2⟩
    refine ⟨h2, log2, ?_, hP2, ?_, fun d hd => hkeep2 d (hkeep1 d hd)⟩
    · unfold iconifyAll at e2 ⊢
      rw [List.foldl_cons]
      simp only [e1]
      exact e2
    · intro d hd
      rcases List.mem_cons.1 hd with rfl | hd
      · exact hkeep2 _ hR1
      · exact hR2 d hd

theorem below_child {g : Heap} {w c u : Nat} (hc : c ∈ (g w).transientList)
    (hu : Below g c u) : Below g w u :=
  Relation.ReflTransGen.head hc hu

/-- A window below `v` reaches `v` through transient_for links. -/
theorem below_links {g : Heap} (hmir : Mirrored g) {v u : Nat} (h : Below g v u) :
    Relation.ReflTransGen (link g) u v := by
  induction h with
  | refl => exact Relation.ReflTransGen.refl
  | tail _ hbc ih => exact Relation.ReflTransGen.head ((hmir _ _).1 hbc) ih

/-- In an acyclic mirrored heap a window is not below one of its transients. -/
theorem not_below_child {g : Heap} (hmir : Mirrored g) (hac : Acyclic g) {w c : Nat}
    (hc : c ∈ (g w).transientList) : ¬ Below g c w := by
  intro hb
  have h1 : Relation.ReflTransGen (link g) w c := below_links hmir hb
  have h2 : link g c w := (hmir _ _).1 hc
  exact hac c (Relation.TransGen.head' h2 h1)

theorem closed_mono {g h h' : Heap} (hmono : ∀ v, Done h v → Done h' v) {v : Nat}
    (hc : Closed g h v) : Closed g h' v :=
  fun u hu => hmono u (hc u hu)

theorem closed_below {g h : Heap} {v u : Nat} (hc : Closed g h v) (hu : Below g v u) :
    Closed g h u :=
  fun x hx => hc x (Relation.ReflTransGen.trans hu hx)

theorem seen_card_lt {n w : Nat} {seen : Finset Nat} (hw : w < n) (hws : w ∉ seen)
    (hsn : ∀ s ∈ seen, s < n) : seen.card < n := by
  have hsub : insert w seen ⊆ Finset.range n := by
    intro x hx
    rcases Finset.mem_insert.1 hx with rfl | hx
    · exact Finset.mem_range.2 hw
    · exact Finset.mem_range.2 (hsn x hx)
  have := Finset.card_le_card hsub
  rw [Finset.card_insert_of_not_mem hws, Finset.card_range] at this
  omega

/-- iconify on a window whose owner needs no call: the window and everything
below it end iconic and not visible, and nothing else changes. -/
theorem iconify_down (g : Heap) (n : Nat) (hmir : Mirrored g) (hac : Acyclic g)
    (hlm : ListsManaged g n) :
    ∀ (fuel : Nat) (h : Heap) (w : Nat) (seen : Finset Nat),
      SameTransients g h → w < n → w ∉ seen → (∀ s ∈ seen, s < n) →
      (∀ s ∈ seen, Relation.TransGen (link g) w s) → n + 1 ≤ fuel + seen.card →
      (∀ u, Below g w u → (h u).iconic = true → Closed g h u) →
      ((h w).iconic = false → ∀ p, (g w).transient_for = .win p → (h p).iconic = true) →
      ∃ h' log, iconify fuel h w = some (h', log) ∧ SameTransients g h' ∧ Closed g h' w ∧
        (∀ v, ¬ Below g w v → h' v = h v) ∧ (∀ v, Done h v → Done h' v) := by
  intro fuel
  induction fuel with
  | zero =>
    intro h w seen _ hw hws hsn _ hfuel _ _
    have := seen_card_lt hw hws hsn
    omega
  | succ fuel ih =>
    intro h w seen hst hw hws hsn hsr hfuel hHD hnoup
    by_cases hic : (h w).iconic = true
    · rw [iconify_succ, if_pos hic]
      exact ⟨h, [], rfl, hst, hHD w Relation.ReflTransGen.refl hic, fun _ _ => rfl,
        fun _ hd => hd⟩
    · have hicf : (h w).iconic = false := by simpa using hic
      have hloop : ∀ log0 : List XRequest, ∃ h' log,
          iconifyAll fuel
            ((hide (Function.update h w { h w with iconic := true }) w).1 w).transientList
            (some ((hide (Function.update h w { h w with iconic := true }) w).1, log0))
            = some (h', log) ∧ SameTransients g h' ∧ Closed g h' w ∧
          (∀ v, ¬ Below g w v → h' v = h v) ∧ (∀ v, Done h v → Done h' v) := by
        intro log0
        rcases hide_mark h w with ⟨m1, m2, m3, m4, m5⟩
        obtain ⟨h2, hh2⟩ : ∃ h2 : Heap,
            h2 = (hide (Function.update h w { h w with iconic := true }) w).1 := ⟨_, rfl⟩
        rw [← hh2] at m1 m2 m3 m4 m5 ⊢
        rw [m4, (hst w).2]
        have hmono2 : ∀ v, Done h v → Done h2 v := by
          intro v hd
          by_cases hvw : v = w
          · subst hvw; exact ⟨m1, m2⟩
          · rw [Done, m5 v hvw]; exact hd
        rcases iconifyAll_steps fuel
          (fun hk => SameTransients g hk ∧ Done hk w ∧ (∀ v, ¬ Below g w v → hk v = h v) ∧
            (∀ v, Done h v → Done hk v) ∧
            (∀ u, Below g w u → u ≠ w → (hk u).iconic = true → Closed g hk u))
          (fun c hk => Closed g hk c) (g w).transientList h2 log0
          ⟨by
              intro v
              by_cases hvw : v = w
              · subst hvw
                exact ⟨m3.trans (hst v).1, m4.trans (hst v).2⟩
              · rw [m5 v hvw]; exact hst v,
            ⟨m1, m2⟩,
            fun v hv => m5 v (fun e => hv (e ▸ Relation.ReflTransGen.refl)),
            hmono2,
            by
              intro u hu hne hiu
              rw [m5 u hne] at hiu
              exact closed_mono hmono2 (hHD u hu hiu)⟩
          (by
            intro c hc hk ⟨p1, p2, p3, p4, p5⟩
            have hlink : link g c w := (hmir c w).1 hc
            have hcw : c ≠ w := by
              intro e
              subst e
              exact hac c (Relation.TransGen.single hlink)
            have hnb : ¬ Below g c w := not_below_child hmir hac hc
            have hcs : c ∉ insert w seen := by
              intro hmem
              rcases Finset.mem_insert.1 hmem with e | hs
              · exact hcw e
              · exact hac c (Relation.TransGen.head hlink (hsr c hs))
            rcases ih hk c (insert w seen) p1 (hlm w c hc) hcs
              (by
                intro s hs
                rcases Finset.mem_insert.1 hs with rfl | hs
                · exact hw
                · exact hsn s hs)
              (by
                intro s hs
                rcases Finset.mem_insert.1 hs with rfl | hs
                · exact Relation.TransGen.single hlink
                · exact Relation.TransGen.head hlink (hsr s hs))
              (by rw [Finset.card_insert_of_not_mem hws]; omega)
              (by
                intro u hu hiu
                exact p5 u (below_child hc hu) (fun e => hnb (e ▸ hu)) hiu)
              (by
                intro _ p hp
                have hpw : p = w := by
                  unfold link at hlink
                  rw [hlink] at hp
                  injection hp with hp
                  exact hp.symm
                rw [hpw]
                exact p2.1)
              with ⟨h', lg, e, q1, q2, q3, q4⟩
            refine ⟨h', lg, e, ⟨q1, q4 w p2, ?_, fun v hd => q4 v (p4 v hd), ?_⟩, q2,
              fun d hd => closed_mono q4 hd⟩
            · intro v hv
              rw [q3 v (fun hb => hv (below_child hc hb)), p3 v hv]
            · intro u hu hne hiu
              by_cases hcu : Below g c u
              · exact closed_below q2 hcu
              · rw [q3 u hcu] at hiu
                exact closed_mono q4 (p5 u hu hne hiu))
          with ⟨hend, logend, e, ⟨r1, r2, r3, r4, _⟩, hR, _⟩
        refine ⟨hend, logend, e, r1, ?_, r3, r4⟩
        intro u hu
        rcases Relation.ReflTransGen.cases_head hu with e | ⟨c, hc, hcu⟩
        · rw [← e]; exact r2
        · exact hR c hc u hcu
      have hown : ∀ p, (h w).transient_for = .win p → (h p).iconic = true :=
        fun p hp => hnoup hicf p (by rw [← (hst w).1]; exact hp)
      rw [iconify_succ, if_neg hic]
      cases htf : (h w).transient_for with
      | null => exact hloop _
      | root => exact hloop _
      | win p =>
        simp only [hown p htf, not_true_eq_false, if_false]
        exact hloop _

theorem client_iconic_eta (c : Client) (h : c.iconic = true) :
    { c with iconic := true } = c := by
  cases c
  simp only at h
  simp only [h]

/-- The loop over a transient list whose windows are all iconic does nothing. -/
theorem iconifyAll_iconic (f : Nat) (h : Heap) (log : List XRequest) :
    ∀ l : List Nat, (∀ c ∈ l, (h c).iconic = true) →
      iconifyAll (f + 1) l (some (h, log)) = some (h, log) := by
  intro l
  induction l with
  | nil => intro _; rfl
  | cons c rest ih =>
    intro hall
    have e : iconify (f + 1) h c = some (h, []) := by
      rw [iconify_succ, if_pos (hall c (List.mem_cons_self _ _))]
    unfold iconifyAll at ih ⊢
    rw [List.foldl_cons]
    simp only [e, List.append_nil]
    exact ih (fun d hd => hall d (List.mem_cons_of_mem _ hd))

/-- iconify on any managed window, from a heap in which every iconic window
is closed: the owners are iconified first, and the heap ends closed again. -/
theorem iconify_up (g : Heap) (n : Nat) (hmir : Mirrored g) (hac : Acyclic g)
    (hman : Managed g n) (hlm : ListsManaged g n) :
    ∀ (fuel : Nat) (h : Heap) (w : Nat) (seen : Finset Nat),
      SameTransients g h → w < n → w ∉ seen → (∀ s ∈ seen, s < n) →
      (∀ s ∈ seen, Relation.TransGen (link g) s w) → 2 * n + 1 ≤ fuel + seen.card →
      (∀ v, (h v).iconic = true → Closed g h v) →
      ∃ h' log, iconify fuel h w = some (h', log) ∧ SameTransients g h' ∧
        (∀ v, (h' v).iconic = true → Closed g h' v) ∧ Closed g h' w ∧
        (∀ v, Done h v → Done h' v) := by
  intro fuel
  induction fuel with
  | zero =>
    intro h w seen _ hw hws hsn _ hfuel _
    have := seen_card_lt hw hws hsn
    omega
  | succ fuel ih =>
    intro h w seen hst hw hws hsn hsr hfuel hinv
    have hcard := seen_card_lt hw hws hsn
    by_cases hup : (h w).iconic = false ∧
        ∃ p, (h w).transient_for = .win p ∧ (h p).iconic = false
    · rcases hup with ⟨hic, p, htf, hpi⟩
      have hlink : link g w p := by
        unfold link
        rw [← (hst w).1]
        exact htf
      have hpw : p ≠ w := by
        intro e
        rw [e] at hlink
        exact hac w (Relation.TransGen.single hlink)
      have hps : p ∉ insert w seen := by
        intro hmem
        rcases Finset.mem_insert.1 hmem with e | hs
        · exact hpw e
        · exact hac p (Relation.TransGen.tail (hsr p hs) hlink)
      rcases ih h p (insert w seen) hst (hman w p hlink) hps
        (by
          intro s hs
          rcases Finset.mem_insert.1 hs with rfl | hs
          · exact hw
          · exact hsn s hs)
        (by
          intro s hs
          rcases Finset.mem_insert.1 hs with rfl | hs
          · exact Relation.TransGen.single hlink
          · exact Relation.TransGen.tail (hsr s hs) hlink)
        (by rw [Finset.card_insert_of_not_mem hws]; omega)
        hinv with ⟨h1, log1, e1, s1, inv1, c1, mono1⟩
      have hwp : w ∈ (g p).transientList := (hmir w p).2 hlink
      have hdw : Done h1 w := c1 w (Relation.ReflTransGen.single hwp)
      have hcw : Closed g h1 w := inv1 w hdw.1
      have hupd : Function.update h1 w { h1 w with iconic := true } = h1 := by
        rw [client_iconic_eta (h1 w) hdw.1]
        exact Function.update_eq_self w h1
      have hhide : hide h1 w = (h1, []) := by
        unfold hide
        simp [hdw.2]
      obtain ⟨f, hf⟩ : ∃ f, fuel = f + 1 := ⟨fuel - 1, by omega⟩
      refine ⟨h1, log1 ++ [XRequest.addIcon] ++ [], ?_, s1, inv1, hcw, mono1⟩
      rw [iconify_succ, if_neg (by rw [hic]; simp), htf]
      simp only [hpi, Bool.false_eq_true, not_false_eq_true, if_true, e1]
      rw [hupd, hhide]
      simp only
      rw [hf]
      apply iconifyAll_iconic
      intro c hc
      rw [(s1 w).2] at hc
      exact (hcw c (Relation.ReflTransGen.single hc)).1
    · rcases iconify_down g n hmir hac hlm (fuel + 1) h w ∅ hst hw
        (Finset.not_mem_empty w) (by intro s hs; exact absurd hs (Finset.not_mem_empty s))
        (by intro s hs; exact absurd hs (Finset.not_mem_empty s))
        (by rw [Finset.card_empty]; omega)
        (fun u _ hiu => hinv u hiu)
        (by
          intro hic p hp
          by_contra hne
          exact hup ⟨hic, p, by rw [(hst w).1]; exact hp, by simpa using hne⟩)
        with ⟨h', log, e, s', c', frame, mono⟩
      refine ⟨h', log, e, s', ?_, c', mono⟩
      intro v hiv
      by_cases hb : Below g w v
      · exact closed_below c' hb
      · rw [frame v hb] at hiv
        exact closed_mono mono (hinv v hiv)

theorem pairHeap_link (b : Bool) {x y : Nat} (h : link (pairHeap b) x y) : x = 1 ∧ y = 0 := by
  unfold link pairHeap at h
  by_cases h0 : x = 0
  · simp [h0] at h
  · by_cases h1 : x = 1
    · simp [h1] at h
      exact ⟨h1, h.symm⟩
    · simp [h0, h1] at h

theorem pairHeap_mirrored (b : Bool) : Mirrored (pairHeap b) := by
  intro x y
  constructor
  · intro hm
    unfold pairHeap at hm ⊢
    by_cases h0 : y = 0
    · simp [h0] at hm
      simp [hm, h0]
    · by_cases h1 : y = 1
      · simp [h1] at hm
      · simp [h0, h1] at hm
  · intro hl
    rcases pairHeap_link b hl with ⟨rfl, rfl⟩
    simp [pairHeap]

theorem pairHeap_acyclic (b : Bool) : Acyclic (pairHeap b) := by
  intro w hw
  rcases (Relation.TransGen.head'_iff).1 hw with ⟨c, hwc, hcw⟩
  rcases pairHeap_link b hwc with ⟨rfl, rfl⟩
  rcases Relation.ReflTransGen.cases_head hcw with e | ⟨d, h0d, _⟩
  · omega
  · have := (pairHeap_link b h0d).1
    omega

theorem pairHeap_managed (b : Bool) : Managed (pairHeap b) 2 ∧ ListsManaged (pairHeap b) 2 := by
  constructor
  · intro x p hp
    have := (pairHeap_link b hp).2
    omega
  · intro x c hc
    have := (pairHeap_link b ((pairHeap_mirrored b c x).1 hc)).1
    omega

/-- C14 (amended): in a finite acyclic transient relation whose transient
lists mirror the transient_for links, and in which every window that is
already iconic is not visible and has only iconic, not visible windows below
it, iconify() on a window w returns (with fuel 2n + 1 for n managed windows),
and afterwards w and every window reachable from w through transient lists
are iconic and not visible. -/
theorem iconify_closes (h : Heap) (n w fuel : Nat) (hmir : Mirrored h) (hac : Acyclic h)
    (hman : Managed h n) (hlm : ListsManaged h n) (hw : w < n)
    (hinv : ∀ v, (h v).iconic = true →
      ∀ u, Below h v u → (h u).iconic = true ∧ (h u).visible = false)
    (hfuel : 2 * n + 1 ≤ fuel) :
    ∃ h' log, iconify fuel h w = some (h', log) ∧
      ∀ u, Below h w u → (h' u).iconic = true ∧ (h' u).visible = false := by
  rcases iconify_up h n hmir hac hman hlm fuel h w ∅ (fun _ => ⟨rfl, rfl⟩) hw
    (Finset.not_mem_empty w) (by intro s hs; exact absurd hs (Finset.not_mem_empty s))
    (by intro s hs; exact absurd hs (Finset.not_mem_empty s))
    (by rw [Finset.card_empty]; omega) hinv with ⟨h', log, e, _, _, c', _⟩
  exact ⟨h', log, e, c'⟩

/-- C14 as stated fails: with the owner (window 0) already iconic and its
transient (window 1) visible, in a mirrored acyclic relation of two windows,
iconify() on the owner returns at once and the transient stays visible and not
iconic. -/
theorem iconify_closes_counterexample :
    Mirrored (pairHeap true) ∧ Acyclic (pairHeap true) ∧ Managed (pairHeap true) 2 ∧
    ListsManaged (pairHeap true) 2 ∧ 1 ∈ (pairHeap true 0).transientList ∧
    (iconify 5 (pairHeap true) 0).map (fun p => ((p.1 1).iconic, (p.1 1).visible)) =
      some (false, true) :=
  ⟨pairHeap_mirrored true, pairHeap_acyclic true, (pairHeap_managed true).1,
    (pairHeap_managed true).2, by decide, by decide⟩

theorem iconify_closes_witness :
    ∃ h' log, iconify 5 (pairHeap false) 0 = some (h', log) ∧
      ∀ u, Below (pairHeap false) 0 u → (h' u).iconic = true ∧ (h' u).visible = false :=
  iconify_closes (pairHeap false) 2 0 5 (pairHeap_mirrored false) (pairHeap_acyclic false)
    (pairHeap_managed false).1 (pairHeap_managed false).2 (by decide)
    (by
      intro v hv
      unfold pairHeap at hv
      by_cases h0 : v = 0
      · simp [h0] at hv
      · by_cases h1 : v = 1
        · simp [h1] at hv
        · simp [h0, h1] at hv)
    (by decide)

/-! ### iconify does not read the function flags -/

/-- C15 at its failing input: hints with PMinSize only and a minimum size of
2000x2000, read on a 1024x768 screen, leave min_width 2000 above max_width 1024
(and min_height 2000 above max_height 768); constrain then fails its assertion
for the requested 10x10 client. -/
theorem getWMNormalHints_min_above_max :
    hugeMinWindow.min_width = 2000 ∧ hugeMinWindow.max_width = 1024 ∧
    hugeMinWindow.min_height = 2000 ∧ hugeMinWindow.max_height = 768 ∧
    ¬ (hugeMinWindow.min_width ≤ hugeMinWindow.max_width) ∧
    constrainClientSize hugeMinWindow = none := by
  decide

/-! ### constrain and the aspect-ratio bounds -/

theorem toSigned_id {z : Int} (h1 : -2147483648 ≤ z) (h2 : z < 2147483648) : toSigned z = z := by
  unfold toSigned UMAX
  omega

/-- C17: constrain keeps the anchored corner. For a requested rectangle whose
left and top are values of type int (and margins below 2^31), the rectangle
constrain returns has the left and top of the request under TopLeft; the right
edge of the current frame and the top of the request under TopRight; the left
of the request and the bottom edge of the current frame under BottomLeft; the
right and bottom edges of the current frame under BottomRight. With well-formed
size hints constrain returns for every anchor. -/
theorem constrain_keeps_anchor (w : BlackboxWindow) (a : Corner)
    (hl : -2147483648 ≤ w.changing.left ∧ w.changing.left < 2147483648)
    (ht : -2147483648 ≤ w.changing.top ∧ w.changing.top < 2147483648)
    (hml : w.margin.left < 2147483648) (hmt : w.margin.top < 2147483648) :
    (SizeHintsOK w → ∃ w', constrain w a = some w') ∧
    (∀ w', constrain w a = some w' →
      (a = Corner.TopLeft →
        w'.changing.left = w.changing.left ∧ w'.changing.top = w.changing.top) ∧
      (a = Corner.TopRight →
        w'.changing.right = w.frame_rect.right ∧ w'.changing.top = w.changing.top) ∧
      (a = Corner.BottomLeft →
        w'.changing.left = w.changing.left ∧ w'.changing.bottom = w.frame_rect.bottom) ∧
      (a = Corner.BottomRight →
        w'.changing.right = w.frame_rect.right ∧
          w'.changing.bottom = w.frame_rect.bottom)) := by
  refine ⟨fun hok => constrain_some w a hok, ?_⟩
  intro w' h
  unfold constrain at h
  simp only at h
  split at h
  · cases h
  · injection h with h
    subst h
    have e1 : toSigned (w.changing.left + toSigned (w.margin.left : Int) - w.margin.left)
        = w.changing.left := by
      rw [toSigned_id (z := (w.margin.left : Int)) (by omega) (by omega)]
      rw [toSigned_id (by omega) (by omega)]
      omega
    have e2 : toSigned (w.changing.top + toSigned (w.margin.top : Int) - w.margin.top)
        = w.changing.top := by
      rw [toSigned_id (z := (w.margin.top : Int)) (by omega) (by omega)]
      rw [toSigned_id (by omega) (by omega)]
      omega
    simp only [Rect.left, Rect.top] at hl ht e1 e2
    refine ⟨?_, ?_, ?_, ?_⟩
    · intro ha
      subst ha
      simp only [Rect.left, Rect.top, Rect.setCoords, Rect.setSize, Rect.setWidth,
        Rect.setHeight, stripMargin]
      exact ⟨e1, e2⟩
    · intro ha
      subst ha
      simp only [Rect.left, Rect.top, Rect.right, Rect.bottom, Rect.x, Rect.y, Rect.setCoords,
        Rect.setSize, Rect.setWidth, Rect.setHeight, Rect.setPos, Rect.setX, Rect.setY,
        stripMargin]
      exact ⟨by omega, e2⟩
    · intro ha
      subst ha
      simp only [Rect.left, Rect.top, Rect.right, Rect.bottom, Rect.x, Rect.y, Rect.setCoords,
        Rect.setSize, Rect.setWidth, Rect.setHeight, Rect.setPos, Rect.setX, Rect.setY,
        stripMargin]
      exact ⟨e1, by omega⟩
    · intro ha
      subst ha
      simp only [Rect.left, Rect.top, Rect.right, Rect.bottom, Rect.x, Rect.y, Rect.setCoords,
        Rect.setSize, Rect.setWidth, Rect.setHeight, Rect.setPos, Rect.setX, Rect.setY,
        stripMargin]
      exact ⟨by omega, by omega⟩

theorem constrain_keeps_anchor_witness :
    ∃ w', constrain resizeRequest Corner.TopRight = some w' ∧
      w'.changing.right = resizeRequest.frame_rect.right ∧
      w'.changing.top = resizeRequest.changing.top := by
  rcases (constrain_keeps_anchor resizeRequest Corner.TopRight (by decide) (by decide)
    (by decide) (by decide)).1 (by unfold SizeHintsOK; decide) with ⟨w', hw'⟩
  exact ⟨w', hw', ((constrain_keeps_anchor resizeRequest Corner.TopRight (by decide)
    (by decide) (by decide) (by decide)).2 w' hw').2.1 rfl⟩

/-! ### raiseWindow and the transient chain -/

/-- A finite acyclic chain is followed to its end, through windows that are all
different. -/
theorem follow_some (next : Nat → Option Nat) (n : Nat) (hok : ChainOK next n) :
    ∀ (fuel a : Nat) (seen : Finset Nat), a < n → a ∉ seen → (∀ s ∈ seen, s < n) →
      (∀ s ∈ seen, Relation.TransGen (fun a b => next a = some b) s a) →
      n ≤ fuel + seen.card →
      ∃ l, follow next fuel a = some l ∧ l.Nodup ∧ (∀ x ∈ l, x < n) ∧
        (∀ x ∈ l, x = a ∨ Relation.TransGen (fun a b => next a = some b) a x) := by
  intro fuel
  induction fuel with
  | zero =>
    intro a seen ha has hsn _ hfuel
    have := seen_card_lt ha has hsn
    omega
  | succ fuel ih =>
    intro a seen ha has hsn hsr hfuel
    unfold follow
    cases hn : next a with
    | none =>
      refine ⟨[a], rfl, List.nodup_singleton a, ?_, ?_⟩
      · intro x hx
        rw [List.mem_singleton.1 hx]
        exact ha
      · intro x hx
        exact Or.inl (List.mem_singleton.1 hx)
    | some b =>
      have hbs : b ∉ insert a seen := by
        intro hmem
        rcases Finset.mem_insert.1 hmem with e | hs
        · rw [e] at hn
          exact hok.2 a (Relation.TransGen.single hn)
        · exact hok.2 b (Relation.TransGen.tail (hsr b hs) hn)
      rcases ih b (insert a seen) (hok.1 a b hn) hbs
        (by
          intro s hs
          rcases Finset.mem_insert.1 hs with rfl | hs
          · exact ha
          · exact hsn s hs)
        (by
          intro s hs
          rcases Finset.mem_insert.1 hs with rfl | hs
          · exact Relation.TransGen.single hn
          · exact Relation.TransGen.tail (hsr s hs) hn)
        (by rw [Finset.card_insert_of_not_mem has]; omega)
        with ⟨l, hl, hnd, hlt, hreach⟩
      have hreach2 : ∀ x ∈ l, Relation.TransGen (fun a b => next a = some b) a x := by
        intro x hx
        rcases hreach x hx with rfl | ht
        · exact Relation.TransGen.single hn
        · exact Relation.TransGen.head hn ht
      refine ⟨a :: l, by simp only [hl], ?_, ?_, ?_⟩
      · refine List.nodup_cons.2 ⟨?_, hnd⟩
        intro hmem
        exact hok.2 a (hreach2 a hmem)
      · intro x hx
        rcases List.mem_cons.1 hx with rfl | hx
        · exact ha
        · exact hlt x hx
      · intro x hx
        rcases List.mem_cons.1 hx with rfl | hx
        · exact Or.inl rfl
        · exact Or.inr (hreach2 x hx)

/-- The loop of findBottom ends on a window of the owner chain that has no
owner to go to. -/
theorem findBottom_of_follow (s : Session) :
    ∀ (fuel b : Nat) (l : List Nat), follow (ownerNext s) fuel b = some l →
      ∃ bottom, findBottom s fuel b = some bottom ∧ bottom ∈ l ∧
        ownerNext s bottom = none := by
  intro fuel
  induction fuel with
  | zero => intro b l h; cases h
  | succ fuel ih =>
    intro b l h
    unfold follow at h
    unfold findBottom
    cases hn : ownerNext s b with
    | none =>
      rw [hn] at h
      injection h with h
      subst h
      refine ⟨b, ?_, List.mem_singleton.2 rfl, hn⟩
      unfold ownerNext at hn
      by_cases ht : (s.win b).transient = true
      · rw [if_pos ht] at hn
        rw [if_pos ht, hn]
      · rw [if_neg ht]
    | some bw =>
      rw [hn] at h
      simp only at h
      cases hf : follow (ownerNext s) fuel bw with
      | none => rw [hf] at h; cases h
      | some l' =>
        rw [hf] at h
        injection h with h
        subst h
        rcases ih bw l' hf with ⟨bottom, e, hmem, hnone⟩
        refine ⟨bottom, ?_, List.mem_cons_of_mem _ hmem, hnone⟩
        unfold ownerNext at hn
        by_cases ht : (s.win b).transient = true
        · rw [if_pos ht] at hn
          rw [if_pos ht, hn]
          exact e
        · rw [if_neg ht] at hn
          cases hn

/-- The counting loop ends whenever the chain does. -/
theorem findTop_of_follow (s : Session) :
    ∀ (fuel b i : Nat) (l : List Nat), transientChain s fuel b = some l →
      ∃ r, findTop s fuel b i = some r ∧ r.1 ∈ l ∧ (s.win r.1).transient_child = none := by
  intro fuel
  induction fuel with
  | zero => intro b i l h; cases h
  | succ fuel ih =>
    intro b i l h
    unfold transientChain follow at h
    unfold findTop
    cases hn : (s.win b).transient_child with
    | none =>
      rw [hn] at h
      injection h with h
      subst h
      exact ⟨(b, i), rfl, List.mem_singleton.2 rfl, hn⟩
    | some t =>
      rw [hn] at h
      simp only at h
      cases hf : follow (fun a => (s.win a).transient_child) fuel t with
      | none => rw [hf] at h; cases h
      | some l' =>
        rw [hf] at h
        injection h with h
        subst h
        rcases ih t (i + 1) l' hf with ⟨r, e, hmem, hnone⟩
        exact ⟨r, e, List.mem_cons_of_mem _ hmem, hnone⟩

/-- The main loop of raiseWindow restacks the windows of the chain in turn and
writes them to `nstack`. -/
theorem raiseLoop_of_follow (s : Session) :
    ∀ (fuel : Nat) (wss : Workspaces) (b : Nat) (l : List Nat),
      transientChain s fuel b = some l →
      raiseLoop s fuel wss b = some (restackAll s wss l, l) := by
  intro fuel
  induction fuel with
  | zero => intro wss b l h; cases h
  | succ fuel ih =>
    intro wss b l h
    unfold transientChain follow at h
    unfold raiseLoop
    cases hn : (s.win b).transient_child with
    | none =>
      rw [hn] at h
      injection h with h
      subst h
      rfl
    | some t =>
      rw [hn] at h
      simp only at h
      cases hf : follow (fun a => (s.win a).transient_child) fuel t with
      | none => rw [hf] at h; cases h
      | some l' =>
        rw [hf] at h
        injection h with h
        subst h
        simp only
        rw [ih _ t l' hf]
        rfl

theorem follow_head (next : Nat → Option Nat) :
    ∀ (fuel a : Nat) (l : List Nat), follow next fuel a = some l → l.head? = some a := by
  intro fuel a l h
  cases fuel with
  | zero => cases h
  | succ fuel =>
    unfold follow at h
    cases hn : next a with
    | none =>
      rw [hn] at h
      injection h with h
      subst h
      rfl
    | some b =>
      rw [hn] at h
      simp only at h
      cases hf : follow next fuel b with
      | none => rw [hf] at h; cases h
      | some l' =>
        rw [hf] at h
        injection h with h
        subst h
        rfl

theorem foldl_erase_cons (x : Nat) :
    ∀ (ys L : List Nat), x ∉ ys →
      ys.foldl (fun L y => L.erase y) (x :: L) = x :: ys.foldl (fun L y => L.erase y) L := by
  intro ys
  induction ys with
  | nil => intro L _; rfl
  | cons y rest ih =>
    intro L hx
    have hne : x ≠ y := fun e => hx (e ▸ List.mem_cons_self _ _)
    rw [List.foldl_cons, List.foldl_cons, List.erase_cons_tail (by simpa using hne)]
    exact ih _ (fun hm => hx (List.mem_cons_of_mem _ hm))

theorem restackFront_stacking (s : Session) (wss : Workspaces) (x k : Nat) :
    ((restackFront s wss x) k).stackingList =
      if (s.win x).workspace = k then x :: (wss k).stackingList.erase x
      else (wss k).stackingList := by
  unfold restackFront LinkedList.remove
  by_cases hk : (s.win x).workspace = k
  · rw [if_pos hk, hk, Function.update_same]
  · rw [if_neg hk, Function.update_noteq (fun e => hk e.symm)]

/-- The stacking list of workspace `k` after the windows of `l` (all
different) were restacked in turn: the non-iconic windows of `l` on `k` in
reverse order, then the rest of the list in its order. -/
theorem restackAll_stacking (s : Session) (k : Nat) :
    ∀ (l : List Nat) (wss : Workspaces), l.Nodup →
      (restackAll s wss l k).stackingList =
        (stackedOn s k l).reverse ++
          (stackedOn s k l).foldl (fun L y => L.erase y) (wss k).stackingList := by
  intro l
  induction l with
  | nil => intro wss _; rfl
  | cons x rest ih =>
    intro wss hnd
    rcases List.nodup_cons.1 hnd with ⟨hx, hrest⟩
    have hxs : x ∉ stackedOn s k rest := fun hm => hx (List.mem_of_mem_filter hm)
    unfold restackAll at ih ⊢
    rw [List.foldl_cons, ih _ hrest]
    by_cases hp : (s.win x).iconic = false ∧ (s.win x).workspace = k
    · have hf : stackedOn s k (x :: rest) = x :: stackedOn s k rest := by
        unfold stackedOn
        rw [List.filter_cons_of_pos (by simpa using hp)]
      rw [hf, if_pos (by rw [hp.1]; simp), restackFront_stacking, if_pos hp.2,
        foldl_erase_cons x _ _ hxs, List.reverse_cons, List.append_assoc, List.foldl_cons]
      rfl
    · have hf : stackedOn s k (x :: rest) = stackedOn s k rest := by
        unfold stackedOn
        rw [List.filter_cons_of_neg (by simpa using hp)]
      rw [hf]
      by_cases hi : (s.win x).iconic = true
      · rw [if_neg (by rw [hi]; simp)]
      · rw [if_pos (by simpa using hi), restackFront_stacking,
          if_neg (fun e => hp ⟨by simpa using hi, e⟩)]

/-- The list a loop visits is linked by `next` and ends where there is no
next window. -/
theorem follow_chain (next : Nat → Option Nat) :
    ∀ (fuel a : Nat) (l : List Nat), follow next fuel a = some l →
      List.Chain' (fun x y => next x = some y) l ∧
      (∀ last, l.getLast? = some last → next last = none) := by
  intro fuel
  induction fuel with
  | zero => intro a l h; cases h
  | succ fuel ih =>
    intro a l h
    unfold follow at h
    cases hn : next a with
    | none =>
      rw [hn] at h
      injection h with h
      subst h
      refine ⟨List.chain'_singleton a, ?_⟩
      intro last hl
      simp at hl
      rw [← hl]
      exact hn
    | some b =>
      rw [hn] at h
      simp only at h
      cases hf : follow next fuel b with
      | none => rw [hf] at h; cases h
      | some l' =>
        rw [hf] at h
        injection h with h
        subst h
        rcases ih b l' hf with ⟨hc, hlast⟩
        have hhead := follow_head next fuel b l' hf
        cases l' with
        | nil => cases hhead
        | cons c rest =>
          simp at hhead
          subst hhead
          refine ⟨List.Chain'.cons hn hc, ?_⟩
          intro last hl
          rw [List.getLast?_cons_cons] at hl
          exact hlast last hl

/-- The list a loop visits holds the next window of each of its windows. -/
theorem follow_closed (next : Nat → Option Nat) :
    ∀ (fuel a : Nat) (l : List Nat), follow next fuel a = some l →
      ∀ x ∈ l, ∀ y, next x = some y → y ∈ l := by
  intro fuel
  induction fuel with
  | zero => intro a l h; cases h
  | succ fuel ih =>
    intro a l h
    unfold follow at h
    cases hn : next a with
    | none =>
      rw [hn] at h
      injection h with h
      subst h
      intro x hx y hy
      simp at hx
      subst hx
      rw [hn] at hy
      cases hy
    | some b =>
      rw [hn] at h
      simp only at h
      cases hf : follow next fuel b with
      | none => rw [hf] at h; cases h
      | some l' =>
        rw [hf] at h
        injection h with h
        subst h
        have hhead := follow_head next fuel b l' hf
        have hb : b ∈ l' := by
          cases l' with
          | nil => cases hhead
          | cons c rest =>
            simp at hhead
            subst hhead
            exact List.mem_cons_self _ _
        intro x hx y hy
        rcases List.mem_cons.1 hx with rfl | hx
        · rw [hn] at hy
          injection hy with hy
          subst hy
          exact List.mem_cons_of_mem _ hb
        · exact List.mem_cons_of_mem _ (ih b l' hf x hx y hy)

/-- The window the first loop of raiseWindow ends on is reached from the start
through the owners and has no owner to go to. -/
theorem findBottom_path (s : Session) :
    ∀ (fuel b bottom : Nat), findBottom s fuel b = some bottom →
      Relation.ReflTransGen (fun x y => ownerNext s x = some y) b bottom ∧
      ownerNext s bottom = none := by
  intro fuel
  induction fuel with
  | zero => intro b bottom h; cases h
  | succ fuel ih =>
    intro b bottom h
    unfold findBottom at h
    by_cases ht : (s.win b).transient = true
    · rw [if_pos ht] at h
      cases htf : (s.win b).transient_for with
      | none =>
        rw [htf] at h
        injection h with h
        subst h
        exact ⟨Relation.ReflTransGen.refl, by unfold ownerNext; rw [if_pos ht, htf]⟩
      | some bw =>
        rw [htf] at h
        rcases ih bw bottom h with ⟨hp, hn⟩
        exact ⟨Relation.ReflTransGen.head (by unfold ownerNext; rw [if_pos ht, htf]) hp, hn⟩
    · rw [if_neg ht] at h
      injection h with h
      subst h
      exact ⟨Relation.ReflTransGen.refl, by unfold ownerNext; rw [if_neg ht]⟩

/-- When the owners on the way down from `w` point back at the window they
were reached from, every window on that way belongs to a set that holds the
bottom-most owner and the transient of each of its windows. -/
theorem owners_in_closed (s : Session) (w : Nat) (S : Nat → Prop)
    (hS : ∀ x y, S x → (s.win x).transient_child = some y → S y)
    (hmir : ∀ a p, Relation.ReflTransGen (fun x y => ownerNext s x = some y) w a →
      ownerNext s a = some p → (s.win p).transient_child = some a) :
    ∀ a b, Relation.ReflTransGen (fun x y => ownerNext s x = some y) w a →
      Relation.ReflTransGen (fun x y => ownerNext s x = some y) a b → S b → S a := by
  intro a b hwa hab hb
  induction hab using Relation.ReflTransGen.head_induction_on with
  | refl => exact hb
  | head hxy hyb ih =>
    rename_i x y
    have hwy : Relation.ReflTransGen (fun x y => ownerNext s x = some y) w y :=
      Relation.ReflTransGen.tail hwa hxy
    exact hS y x (ih hwy) (hmir x y hwa hxy)

/-- C18 (amended): for a window w whose owner chain and transient chain are
finite and acyclic, and whose owners on the way down from w each name as their
transient the window they were reached from, raiseWindow(w) returns. The chain
it raises starts at the bottom-most owner of w, goes from each window to its
transient up to a window without transient, has no window twice and holds w
and every owner on the way down from w. Afterwards the stacking list of every
workspace starts with the non-iconic windows of that chain that live on it,
the topmost transient first and the bottom-most owner last, followed by the
rest of the list in its previous order (the chain windows taken out of it). -/
theorem raiseWindow_front (s : Session) (wss : Workspaces) (n fuel w : Nat) (hw : w < n)
    (hown : ChainOK (ownerNext s) n)
    (hchild : ChainOK (fun a => (s.win a).transient_child) n)
    (hmir : ∀ a p, Relation.ReflTransGen (fun x y => ownerNext s x = some y) w a →
      ownerNext s a = some p → (s.win p).transient_child = some a)
    (hfuel : n ≤ fuel) :
    ∃ bottom chain wss',
      Relation.ReflTransGen (fun x y => ownerNext s x = some y) w bottom ∧
      ownerNext s bottom = none ∧
      chain.head? = some bottom ∧
      List.Chain' (fun x y => (s.win x).transient_child = some y) chain ∧
      (∀ last, chain.getLast? = some last → (s.win last).transient_child = none) ∧
      chain.Nodup ∧ w ∈ chain ∧
      (∀ a, Relation.ReflTransGen (fun x y => ownerNext s x = some y) w a →
        Relation.ReflTransGen (fun x y => ownerNext s x = some y) a bottom → a ∈ chain) ∧
      findBottom s fuel w = some bottom ∧
      transientChain s fuel bottom = some chain ∧
      raiseWindow fuel s wss w = some (wss', chain) ∧
      ∀ k, (wss' k).stackingList =
        (stackedOn s k chain).reverse ++
          (stackedOn s k chain).foldl (fun L y => L.erase y) (wss k).stackingList := by
  rcases follow_some (ownerNext s) n hown fuel w ∅ hw (Finset.not_mem_empty w)
    (by intro x hx; exact absurd hx (Finset.not_mem_empty x))
    (by intro x hx; exact absurd hx (Finset.not_mem_empty x))
    (by rw [Finset.card_empty]; omega) with ⟨lo, hlo, _, hlt, _⟩
  rcases findBottom_of_follow s fuel w lo hlo with ⟨bottom, hb, hmem, _⟩
  rcases follow_some (fun a => (s.win a).transient_child) n hchild fuel bottom ∅
    (hlt bottom hmem) (Finset.not_mem_empty bottom)
    (by intro x hx; exact absurd hx (Finset.not_mem_empty x))
    (by intro x hx; exact absurd hx (Finset.not_mem_empty x))
    (by rw [Finset.card_empty]; omega) with ⟨chain, hchain, hnd, _, _⟩
  rcases findTop_of_follow s fuel bottom 1 chain hchain with ⟨r, hr, _, _⟩
  rcases findBottom_path s fuel w bottom hb with ⟨hpath, hnone⟩
  rcases follow_chain _ fuel bottom chain hchain with ⟨hlinked, hend⟩
  have hhead := follow_head _ fuel bottom chain hchain
  have hbot : bottom ∈ chain := by
    cases chain with
    | nil => cases hhead
    | cons c rest =>
      simp at hhead
      subst hhead
      exact List.mem_cons_self _ _
  have hall : ∀ a, Relation.ReflTransGen (fun x y => ownerNext s x = some y) w a →
      Relation.ReflTransGen (fun x y => ownerNext s x = some y) a bottom → a ∈ chain :=
    fun a hwa hab =>
      owners_in_closed s w (fun x => x ∈ chain)
        (fun x y hx hxy => follow_closed _ fuel bottom chain hchain x hx y hxy) hmir
        a bottom hwa hab hbot
  refine ⟨bottom, chain, restackAll s wss chain, hpath, hnone, hhead, hlinked, hend, hnd,
    hall w Relation.ReflTransGen.refl hpath, hall, hb, hchain, ?_,
    fun k => restackAll_stacking s k chain wss hnd⟩
  unfold raiseWindow
  rw [hb]
  simp only
  rw [hr]
  exact raiseLoop_of_follow s fuel wss bottom chain hchain

theorem chainOK_of_lt (next : Nat → Option Nat) (n : Nat)
    (h : ∀ a b, next a = some b → a < b ∧ b < n) : ChainOK next n := by
  refine ⟨fun a b hab => (h a b hab).2, ?_⟩
  have hlt : ∀ x y, Relation.TransGen (fun a b => next a = some b) x y → x < y := by
    intro x y hxy
    induction hxy with
    | single hab => exact (h _ _ hab).1
    | tail _ hbc ih => exact lt_trans ih (h _ _ hbc).1
  intro x hx
  exact lt_irrefl x (hlt x x hx)

theorem chainOK_of_gt (next : Nat → Option Nat) (n : Nat)
    (h : ∀ a b, next a = some b → b < a ∧ b < n) : ChainOK next n := by
  refine ⟨fun a b hab => (h a b hab).2, ?_⟩
  have hlt : ∀ x y, Relation.TransGen (fun a b => next a = some b) x y → y < x := by
    intro x y hxy
    induction hxy with
    | single hab => exact (h _ _ hab).1
    | tail _ hbc ih => exact lt_trans (h _ _ hbc).1 ih
  intro x hx
  exact lt_irrefl x (hlt x x hx)

theorem chainSession_owner : ChainOK (ownerNext chainSession) 5 := by
  apply chainOK_of_gt
  intro a b hab
  unfold ownerNext chainSession numbered at hab
  by_cases h1 : a = 1
  · simp [h1] at hab
  · by_cases h2 : a = 2
    · simp [h2] at hab
      omega
    · by_cases h3 : a = 3
      · simp [h3] at hab
        omega
      · simp [h1, h2, h3] at hab

theorem chainSession_child : ChainOK (fun a => (chainSession.win a).transient_child) 5 := by
  apply chainOK_of_lt
  intro a b hab
  unfold chainSession numbered at hab
  by_cases h1 : a = 1
  · simp [h1] at hab
    omega
  · by_cases h2 : a = 2
    · simp [h2] at hab
      omega
    · by_cases h3 : a = 3
      · simp [h3] at hab
      · simp [h1, h2, h3] at hab

theorem chainSession_mirror :
    ∀ a p, Relation.ReflTransGen (fun x y => ownerNext chainSession x = some y) 2 a →
      ownerNext chainSession a = some p → (chainSession.win p).transient_child = some a := by
  intro a p _ hab
  unfold ownerNext chainSession numbered at hab
  unfold chainSession numbered
  by_cases h1 : a = 1
  · simp [h1] at hab
  · by_cases h2 : a = 2
    · simp [h2] at hab
      subst hab
      simp [h2]
    · by_cases h3 : a = 3
      · simp [h3] at hab
        subst hab
        simp [h3]
      · simp [h1, h2, h3] at hab

theorem raiseWindow_front_witness :
    ∃ bottom chain wss',
      Relation.ReflTransGen (fun x y => ownerNext chainSession x = some y) 2 bottom ∧
      ownerNext chainSession bottom = none ∧
      chain.head? = some bottom ∧
      List.Chain' (fun x y => (chainSession.win x).transient_child = some y) chain ∧
      (∀ last, chain.getLast? = some last →
        (chainSession.win last).transient_child = none) ∧
      chain.Nodup ∧ 2 ∈ chain ∧
      (∀ a, Relation.ReflTransGen (fun x y => ownerNext chainSession x = some y) 2 a →
        Relation.ReflTransGen (fun x y => ownerNext chainSession x = some y) a bottom →
        a ∈ chain) ∧
      findBottom chainSession 10 2 = some bottom ∧
      transientChain chainSession 10 bottom = some chain ∧
      raiseWindow 10 chainSession chainWorkspaces 2 = some (wss', chain) ∧
      ∀ k, (wss' k).stackingList =
        (stackedOn chainSession k chain).reverse ++
          (stackedOn chainSession k chain).foldl (fun L y => L.erase y)
            (chainWorkspaces k).stackingList :=
  raiseWindow_front chainSession chainWorkspaces 5 10 2 (by decide) chainSession_owner
    chainSession_child chainSession_mirror (by decide)

theorem twoDialogs_owner : ChainOK (ownerNext twoDialogs) 5 := by
  apply chainOK_of_gt
  intro a b hab
  unfold ownerNext twoDialogs numbered at hab
  by_cases h1 : a = 1
  · simp [h1] at hab
  · by_cases h2 : a = 2
    · simp [h2] at hab
      omega
    · by_cases h3 : a = 3
      · simp [h3] at hab
        omega
      · simp [h1, h2, h3] at hab

theorem twoDialogs_child : ChainOK (fun a => (twoDialogs.win a).transient_child) 5 := by
  apply chainOK_of_lt
  intro a b hab
  unfold twoDialogs numbered at hab
  by_cases h1 : a = 1
  · simp [h1] at hab
    omega
  · by_cases h2 : a = 2
    · simp [h2] at hab
    · by_cases h3 : a = 3
      · simp [h3] at hab
      · simp [h1, h2, h3] at hab

/-- C18 as stated fails: the windows 2 and 3 are both transients of the window
1, whose transient pointer names 3; both chains are finite and acyclic. The
window 2, not iconic, is on top of the stacking list 2, 1, 3, 4. raiseWindow(2)
raises the windows 1 and 3 and leaves the list 3, 1, 2, 4: the window 2 itself
is not raised and ends behind its owner. -/
theorem raiseWindow_front_counterexample :
    ChainOK (ownerNext twoDialogs) 5 ∧
    ChainOK (fun a => (twoDialogs.win a).transient_child) 5 ∧
    (twoDialogs.win 2).transient_for = some 1 ∧ (twoDialogs.win 2).iconic = false ∧
    (twoDialogWorkspaces 0).stackingList = [2, 1, 3, 4] ∧
    (raiseWindow 10 twoDialogs twoDialogWorkspaces 2).map
      (fun r => (r.2, (r.1 0).stackingList)) = some ([1, 3], [3, 1, 2, 4]) :=
  ⟨twoDialogs_owner, twoDialogs_child, by decide, by decide, by decide, by decide⟩

/-! ### The stacking invariant under the workspace operations -/

theorem restackFront_members (s : Session) (wss : Workspaces) (x k : Nat) :
    ((restackFront s wss x) k).windowList = (wss k).windowList := by
  unfold restackFront
  by_cases hk : (s.win x).workspace = k
  · rw [hk, Function.update_same]
  · rw [Function.update_noteq (fun e => hk e.symm)]

theorem restackBack_members (s : Session) (wss : Workspaces) (x k : Nat) :
    ((restackBack s wss x) k).windowList = (wss k).windowList := by
  unfold restackBack
  by_cases hk : (s.win x).workspace = k
  · rw [hk, Function.update_same]
  · rw [Function.update_noteq (fun e => hk e.symm)]

theorem restackBack_stacking (s : Session) (wss : Workspaces) (x k : Nat) :
    ((restackBack s wss x) k).stackingList =
      if (s.win x).workspace = k then (wss k).stackingList.erase x ++ [x]
      else (wss k).stackingList := by
  unfold restackBack LinkedList.remove
  by_cases hk : (s.win x).workspace = k
  · rw [if_pos hk, hk, Function.update_same]
  · rw [if_neg hk, Function.update_noteq (fun e => hk e.symm)]

theorem restackFront_ok (s : Session) (wss : Workspaces) (x : Nat) (hok : StackingOK s wss)
    (hi : (s.win x).iconic = false) (hm : x ∈ (wss (s.win x).workspace).windowList) :
    StackingOK s (restackFront s wss x) := by
  intro k y hy
  rw [restackFront_stacking] at hy
  rw [restackFront_members]
  by_cases hk : (s.win x).workspace = k
  · rw [if_pos hk] at hy
    rcases List.mem_cons.1 hy with rfl | hy
    · exact ⟨hk ▸ hm, hi⟩
    · exact hok k y (List.mem_of_mem_erase hy)
  · rw [if_neg hk] at hy
    exact hok k y hy

theorem restackBack_ok (s : Session) (wss : Workspaces) (x : Nat) (hok : StackingOK s wss)
    (hi : (s.win x).iconic = false) (hm : x ∈ (wss (s.win x).workspace).windowList) :
    StackingOK s (restackBack s wss x) := by
  intro k y hy
  rw [restackBack_stacking] at hy
  rw [restackBack_members]
  by_cases hk : (s.win x).workspace = k
  · rw [if_pos hk] at hy
    rcases List.mem_append.1 hy with hy | hy
    · exact hok k y (List.mem_of_mem_erase hy)
    · rw [List.mem_singleton.1 hy]
      exact ⟨hk ▸ hm, hi⟩
  · rw [if_neg hk] at hy
    exact hok k y hy

/-- The loop of raiseWindow keeps the invariant and the member lists. -/
theorem raiseLoop_ok (s : Session) :
    ∀ (fuel : Nat) (wss : Workspaces) (win : Nat) (r : Workspaces × List Nat),
      raiseLoop s fuel wss win = some r → StackingOK s wss →
      (∀ x, (s.win x).iconic = false → x ∈ r.2 → x ∈ (wss (s.win x).workspace).windowList) →
      StackingOK s r.1 ∧ ∀ k, (r.1 k).windowList = (wss k).windowList := by
  intro fuel
  induction fuel with
  | zero => intro wss win r h; cases h
  | succ fuel ih =>
    intro wss win r h hok hmem
    unfold raiseLoop at h
    simp only at h
    obtain ⟨wss1, hw1⟩ : ∃ wss1 : Workspaces,
        wss1 = (if ¬ (s.win win).iconic = true then restackFront s wss win else wss) :=
      ⟨_, rfl⟩
    rw [← hw1] at h
    have hwin : win ∈ r.2 := by
      split at h
      · injection h with h
        rw [← h]
        exact List.mem_singleton.2 rfl
      · split at h
        · cases h
        · injection h with h
          rw [← h]
          exact List.mem_cons_self _ _
    have hm1 : ∀ k, (wss1 k).windowList = (wss k).windowList := by
      intro k
      rw [hw1]
      split
      · exact restackFront_members s wss win k
      · rfl
    have hok1 : StackingOK s wss1 := by
      rw [hw1]
      split
      · rename_i hni
        have hi : (s.win win).iconic = false := by simpa using hni
        exact restackFront_ok s wss win hok hi (hmem win hi hwin)
      · exact hok
    split at h
    · injection h with h
      rw [← h]
      exact ⟨hok1, hm1⟩
    · rename_i t _
      split at h
      · cases h
      · rename_i wss' stack hrec
        injection h with h
        rw [← h]
        rcases ih wss1 t (wss', stack) hrec hok1
          (by
            intro x hx hxs
            rw [hm1]
            exact hmem x hx (by rw [← h]; exact List.mem_cons_of_mem _ hxs))
          with ⟨a1, a2⟩
        exact ⟨a1, fun k => (a2 k).trans (hm1 k)⟩

/-- The loop of lowerWindow keeps the invariant and the member lists. -/
theorem lowerLoop_ok (s : Session) :
    ∀ (fuel : Nat) (wss : Workspaces) (win : Nat) (r : Workspaces × List Nat),
      lowerLoop s fuel wss win = some r → StackingOK s wss →
      (∀ x, (s.win x).iconic = false → x ∈ r.2 → x ∈ (wss (s.win x).workspace).windowList) →
      StackingOK s r.1 ∧ ∀ k, (r.1 k).windowList = (wss k).windowList := by
  intro fuel
  induction fuel with
  | zero => intro wss win r h; cases h
  | succ fuel ih =>
    intro wss win r h hok hmem
    unfold lowerLoop at h
    simp only at h
    obtain ⟨wss1, hw1⟩ : ∃ wss1 : Workspaces,
        wss1 = (if ¬ (s.win win).iconic = true then restackBack s wss win else wss) :=
      ⟨_, rfl⟩
    rw [← hw1] at h
    have hwin : win ∈ r.2 := by
      split at h
      · injection h with h
        rw [← h]
        exact List.mem_singleton.2 rfl
      · split at h
        · cases h
        · injection h with h
          rw [← h]
          exact List.mem_cons_self _ _
    have hm1 : ∀ k, (wss1 k).windowList = (wss k).windowList := by
      intro k
      rw [hw1]
      split
      · exact restackBack_members s wss win k
      · rfl
    have hok1 : StackingOK s wss1 := by
      rw [hw1]
      split
      · rename_i hni
        have hi : (s.win win).iconic = false := by simpa using hni
        exact restackBack_ok s wss win hok hi (hmem win hi hwin)
      · exact hok
    split at h
    · injection h with h
      rw [← h]
      exact ⟨hok1, hm1⟩
    · rename_i p _
      split at h
      · cases h
      · rename_i wss' stack hrec
        injection h with h
        rw [← h]
        rcases ih wss1 p (wss', stack) hrec hok1
          (by
            intro x hx hxs
            rw [hm1]
            exact hmem x hx (by rw [← h]; exact List.mem_cons_of_mem _ hxs))
          with ⟨a1, a2⟩
        exact ⟨a1, fun k => (a2 k).trans (hm1 k)⟩

theorem raiseWindow_ok (fuel : Nat) (s : Session) (wss : Workspaces) (w : Nat)
    (r : Workspaces × List Nat) (h : raiseWindow fuel s wss w = some r)
    (hok : StackingOK s wss)
    (hmem : ∀ x, (s.win x).iconic = false → x ∈ r.2 →
      x ∈ (wss (s.win x).workspace).windowList) :
    StackingOK s r.1 ∧ ∀ k, (r.1 k).windowList = (wss k).windowList := by
  unfold raiseWindow at h
  split at h
  · cases h
  · split at h
    · cases h
    · exact raiseLoop_ok s fuel wss _ r h hok hmem

theorem lowerWindow_ok (fuel : Nat) (s : Session) (wss : Workspaces) (w : Nat)
    (r : Workspaces × List Nat) (h : lowerWindow fuel s wss w = some r)
    (hok : StackingOK s wss)
    (hmem : ∀ x, (s.win x).iconic = false → x ∈ r.2 →
      x ∈ (wss (s.win x).workspace).windowList) :
    StackingOK s r.1 ∧ ∀ k, (r.1 k).windowList = (wss k).windowList := by
  unfold lowerWindow at h
  split at h
  · cases h
  · split at h
    · cases h
    · exact lowerLoop_ok s fuel wss _ r h hok hmem

theorem renumber_iconic (l : List Nat) :
    ∀ (win : Nat → WsWindow) (i : Int) (p : Nat),
      (renumber win l i p).iconic = (win p).iconic := by
  induction l with
  | nil => intro win i p; rfl
  | cons a rest ih =>
    intro win i p
    rw [renumber, ih]
    by_cases hp : p = a
    · subst hp
      rw [Function.update_same]
    · rw [Function.update_noteq hp]

/-- What removeWindow leaves of the lists and of the iconic flags. -/
theorem removeWindow_lists (setInputFocus : Nat → Bool) (s : Session) (ws : Workspace)
    (w : Nat) :
    (removeWindow setInputFocus s ws (some w)).2.2.stackingList = ws.stackingList.erase w ∧
    (∃ i : Int, (removeWindow setInputFocus s ws (some w)).2.2.windowList =
      LinkedList.removeAt ws.windowList i ∧
      ((s.win w).window_number = i)) ∧
    (∀ p, ((removeWindow setInputFocus s ws (some w)).2.1.win p).iconic = (s.win p).iconic) := by
  obtain ⟨s1, hs1⟩ : ∃ s1 : Session, s1 =
      (if s.focused = some w then
        match (match (if (s.win w).transient then (s.win w).transient_for else none) with
          | some p => some p
          | none => (LinkedList.remove ws.stackingList w).head?) with
        | none => { s with focused := none }
        | some p => if setInputFocus p then { s with focused := some p }
                    else { s with focused := none }
      else s) := ⟨_, rfl⟩
  have hwin : s1.win = s.win := by
    rw [hs1]
    split
    · split
      · rfl
      · split <;> rfl
    · rfl
  obtain ⟨members, hmembers⟩ : ∃ members : List Nat,
      members = LinkedList.removeAt ws.windowList (s1.win w).window_number := ⟨_, rfl⟩
  have hres : removeWindow setInputFocus s ws (some w) =
      ((members.length : Int), { s1 with win := renumber s1.win members 0 },
        { ws with stackingList := LinkedList.remove ws.stackingList w,
                  lastfocus := if ws.lastfocus = some w then none else ws.lastfocus,
                  windowList := members }) := by
    unfold removeWindow
    simp only [← hs1, ← hmembers]
  rw [hres]
  refine ⟨rfl, ⟨(s1.win w).window_number, hmembers, by rw [hwin]⟩, ?_⟩
  intro p
  simp only
  rw [renumber_iconic, hwin]

theorem placeWindow_lists {scr : BScreen} {s : Session} {ws ws' : Workspace} {w fuel : Nat}
    {px py : Int} (h : placeWindow scr s ws w fuel = some (ws', px, py)) :
    ws'.stackingList = ws.stackingList ∧ ws'.windowList = ws.windowList ∧ ws'.id = ws.id := by
  unfold placeWindow at h
  simp only at h
  split at h
  · split at h
    · cases h
    · injection h with h
      injection h with h _
      rw [← h]
      exact ⟨rfl, rfl, rfl⟩
  · split at h
    · cases h
    · injection h with h
      injection h with h _
      rw [← h]
      exact ⟨rfl, rfl, rfl⟩
  · split at h
    · cases h
    · injection h with h
      injection h with h _
      rw [← h]
      exact ⟨rfl, rfl, rfl⟩

/-- What `if (place) placeWindow(w);` keeps. -/
theorem placeFirst_keeps {scr : BScreen} {fuel : Nat} {s s0 : Session} {wss wss0 : Workspaces}
    {k w : Nat} {place : Bool} (h : placeFirst scr fuel s wss k w place = some (s0, wss0)) :
    (∀ p, (s0.win p).iconic = (s.win p).iconic ∧ (s0.win p).workspace = (s.win p).workspace ∧
      (s0.win p).transient_for = (s.win p).transient_for ∧
      (s0.win p).transient_child = (s.win p).transient_child) ∧
    (∀ j, (wss0 j).stackingList = (wss j).stackingList ∧
      (wss0 j).windowList = (wss j).windowList ∧ (wss0 j).id = (wss j).id) := by
  unfold placeFirst at h
  cases place with
  | false =>
    simp only [Bool.false_eq_true, if_false] at h
    injection h with h
    injection h with h1 h2
    subst h1 h2
    exact ⟨fun _ => ⟨rfl, rfl, rfl, rfl⟩, fun _ => ⟨rfl, rfl, rfl⟩⟩
  | true =>
    simp only [if_true] at h
    split at h
    · cases h
    · rename_i ws px py hp
      rcases placeWindow_lists hp with ⟨l1, l2, l3⟩
      injection h with h
      injection h with h1 h2
      subst h1 h2
      constructor
      · intro p
        simp only
        by_cases hpw : p = w
        · subst hpw
          rw [Function.update_same]
          exact ⟨rfl, rfl, rfl, rfl⟩
        · rw [Function.update_noteq hpw]
          exact ⟨rfl, rfl, rfl, rfl⟩
      · intro j
        by_cases hj : j = k
        · subst hj
          rw [Function.update_same]
          exact ⟨l1, l2, l3⟩
        · rw [Function.update_noteq hj]
          exact ⟨rfl, rfl, rfl⟩

theorem findBottom_lt (s : Session) (n : Nat) (hb : Bounded s n) :
    ∀ (fuel w b : Nat), w < n → findBottom s fuel w = some b → b < n := by
  intro fuel
  induction fuel with
  | zero => intro w b _ h; cases h
  | succ fuel ih =>
    intro w b hw h
    unfold findBottom at h
    split at h
    · split at h
      · injection h with h
        omega
      · rename_i bw hbw
        exact ih bw b (hb.1 w bw hbw) h
    · injection h with h
      omega

theorem findTop_lt (s : Session) (n : Nat) (hb : Bounded s n) :
    ∀ (fuel w i : Nat) (r : Nat × Nat), w < n → findTop s fuel w i = some r → r.1 < n := by
  intro fuel
  induction fuel with
  | zero => intro w i r _ h; cases h
  | succ fuel ih =>
    intro w i r hw h
    unfold findTop at h
    split at h
    · injection h with h
      rw [← h]
      exact hw
    · rename_i t ht
      exact ih t (i + 1) r (hb.2 w t ht) h

theorem raiseLoop_lt (s : Session) (n : Nat) (hb : Bounded s n) :
    ∀ (fuel : Nat) (wss : Workspaces) (w : Nat) (r : Workspaces × List Nat), w < n →
      raiseLoop s fuel wss w = some r → ∀ x ∈ r.2, x < n := by
  intro fuel
  induction fuel with
  | zero => intro wss w r _ h; cases h
  | succ fuel ih =>
    intro wss w r hw h
    unfold raiseLoop at h
    simp only at h
    split at h
    · injection h with h
      rw [← h]
      intro x hx
      rw [List.mem_singleton.1 hx]
      exact hw
    · rename_i t ht
      split at h
      · cases h
      · rename_i wss' stack hrec
        injection h with h
        rw [← h]
        intro x hx
        rcases List.mem_cons.1 hx with rfl | hx
        · exact hw
        · exact ih _ t (wss', stack) (hb.2 w t ht) hrec x hx

theorem lowerLoop_lt (s : Session) (n : Nat) (hb : Bounded s n) :
    ∀ (fuel : Nat) (wss : Workspaces) (w : Nat) (r : Workspaces × List Nat), w < n →
      lowerLoop s fuel wss w = some r → ∀ x ∈ r.2, x < n := by
  intro fuel
  induction fuel with
  | zero => intro wss w r _ h; cases h
  | succ fuel ih =>
    intro wss w r hw h
    unfold lowerLoop at h
    simp only at h
    split at h
    · injection h with h
      rw [← h]
      intro x hx
      rw [List.mem_singleton.1 hx]
      exact hw
    · rename_i t ht
      split at h
      · cases h
      · rename_i wss' stack hrec
        injection h with h
        rw [← h]
        intro x hx
        rcases List.mem_cons.1 hx with rfl | hx
        · exact hw
        · exact ih _ t (wss', stack) (hb.1 w t ht) hrec x hx

theorem raiseWindow_lt (s : Session) (n : Nat) (hb : Bounded s n) (fuel : Nat)
    (wss : Workspaces) (w : Nat) (r : Workspaces × List Nat) (hw : w < n)
    (h : raiseWindow fuel s wss w = some r) : ∀ x ∈ r.2, x < n := by
  unfold raiseWindow at h
  split at h
  · cases h
  · rename_i bottom hbot
    split at h
    · cases h
    · exact raiseLoop_lt s n hb fuel wss bottom r (findBottom_lt s n hb fuel w bottom hw hbot) h

theorem lowerWindow_lt (s : Session) (n : Nat) (hb : Bounded s n) (fuel : Nat)
    (wss : Workspaces) (w : Nat) (r : Workspaces × List Nat) (hw : w < n)
    (h : lowerWindow fuel s wss w = some r) : ∀ x ∈ r.2, x < n := by
  unfold lowerWindow at h
  split at h
  · cases h
  · rename_i bottom hbot
    split at h
    · cases h
    · rename_i top htop
      exact lowerLoop_lt s n hb fuel wss top.1 r
        (findTop_lt s n hb fuel bottom 1 top (findBottom_lt s n hb fuel w bottom hw hbot) htop) h

/-- What the statements of addWindow from setWorkspace to the inserts keep and
change. -/
theorem enterWindow_facts (s : Session) (wss : Workspaces) (k w : Nat) :
    (∀ p, ((enterWindow s wss k w).1.win p).iconic = (s.win p).iconic ∧
      ((enterWindow s wss k w).1.win p).transient_for = (s.win p).transient_for ∧
      ((enterWindow s wss k w).1.win p).transient_child = (s.win p).transient_child) ∧
    ((enterWindow s wss k w).1.win w).workspace = (wss k).id ∧
    (∀ p, p ≠ w → ((enterWindow s wss k w).1.win p).workspace = (s.win p).workspace) ∧
    ((enterWindow s wss k w).2 k).stackingList = w :: (wss k).stackingList ∧
    ((enterWindow s wss k w).2 k).windowList = (wss k).windowList ++ [w] ∧
    (∀ j, j ≠ k → (enterWindow s wss k w).2 j = wss j) := by
  unfold enterWindow
  simp only
  refine ⟨?_, ?_, ?_, ?_, ?_, ?_⟩
  · intro p
    by_cases hp : p = w
    · subst hp
      rw [Function.update_same]
      exact ⟨rfl, rfl, rfl⟩
    · rw [Function.update_noteq hp]
      exact ⟨rfl, rfl, rfl⟩
  · rw [Function.update_same]
  · intro p hp
    rw [Function.update_noteq hp]
  · rw [Function.update_same]
  · rw [Function.update_same]
  · intro j hj
    rw [Function.update_noteq hj]

/-- addWindow of a non-iconic window keeps the invariant. -/
theorem addWindow_ok (scr : BScreen) (fuel n : Nat) (s : Session) (wss : Workspaces)
    (k w : Nat) (place : Bool) (r : Int × Session × Workspaces) (hok : StackingOK s wss)
    (hid : (wss k).id = k) (hw : w < n) (hb : Bounded s n) (hi : (s.win w).iconic = false)
    (hmem : MembersBut s wss n (some w))
    (h : addWindow scr fuel s wss k (some w) place = some r) : StackingOK r.2.1 r.2.2 := by
  unfold addWindow at h
  simp only at h
  split at h
  · cases h
  · rename_i s0 wss0 hplace
    rcases placeFirst_keeps hplace with ⟨pw, pl⟩
    rcases enterWindow_facts s0 wss0 k w with ⟨e1, e2, e3, e4, e5, e6⟩
    split at h
    · cases h
    · rename_i wss' stack hraise
      injection h with h
      rw [← h]
      have hb2 : Bounded (enterWindow s0 wss0 k w).1 n := by
        constructor
        · intro a b hab
          rw [(e1 a).2.1, (pw a).2.2.1] at hab
          exact hb.1 a b hab
        · intro a b hab
          rw [(e1 a).2.2, (pw a).2.2.2] at hab
          exact hb.2 a b hab
      have hok2 : StackingOK (enterWindow s0 wss0 k w).1 (enterWindow s0 wss0 k w).2 := by
        intro j x hx
        rw [(e1 x).1, (pw x).1]
        by_cases hj : j = k
        · subst hj
          rw [e4] at hx
          rw [e5]
          rcases List.mem_cons.1 hx with rfl | hx
          · exact ⟨List.mem_append_right _ (List.mem_singleton.2 rfl), hi⟩
          · rw [(pl j).1] at hx
            rcases hok j x hx with ⟨m1, m2⟩
            exact ⟨List.mem_append_left _ (by rw [(pl j).2.1]; exact m1), m2⟩
        · rw [e6 j hj] at hx ⊢
          rw [(pl j).1] at hx
          rw [(pl j).2.1]
          exact hok j x hx
      have hmem2 : ∀ x, ((enterWindow s0 wss0 k w).1.win x).iconic = false → x ∈ stack →
          x ∈ ((enterWindow s0 wss0 k w).2
            ((enterWindow s0 wss0 k w).1.win x).workspace).windowList := by
        intro x hx hxs
        have hxn : x < n := raiseWindow_lt _ n hb2 fuel _ w (wss', stack) hw hraise x hxs
        by_cases hxw : x = w
        · subst hxw
          rw [e2, (pl k).2.2, hid, e5]
          exact List.mem_append_right _ (List.mem_singleton.2 rfl)
        · rw [(e1 x).1, (pw x).1] at hx
          have hm := hmem x hxn (fun e => hxw (Option.some.inj e)) hx
          rw [e3 x hxw, (pw x).2.1]
          by_cases hj : (s.win x).workspace = k
          · rw [hj, e5]
            rw [hj] at hm
            exact List.mem_append_left _ (by rw [(pl k).2.1]; exact hm)
          · rw [e6 _ hj, (pl _).2.1]
            exact hm
      exact (raiseWindow_ok fuel _ _ w (wss', stack) hraise hok2 hmem2).1

/-- removeWindow of a member that sits at the position its window number names
and occurs once in the stacking list keeps the invariant. -/
theorem removeWindow_ok (setInputFocus : Nat → Bool) (s : Session) (wss : Workspaces)
    (k w j : Nat) (hok : StackingOK s wss) (hpos : (wss k).windowList[j]? = some w)
    (hnum : (s.win w).window_number = (j : Int)) (hnd : (wss k).stackingList.Nodup) :
    StackingOK (removeWindow setInputFocus s (wss k) (some w)).2.1
      (Function.update wss k (removeWindow setInputFocus s (wss k) (some w)).2.2) := by
  rcases removeWindow_lists setInputFocus s (wss k) w with ⟨l1, ⟨i, l2, l3⟩, l4⟩
  have hj : j < (wss k).windowList.length := (List.getElem?_eq_some.1 hpos).1
  intro m x hx
  rw [l4]
  by_cases hm : m = k
  · subst hm
    rw [Function.update_same] at hx ⊢
    rw [l1] at hx
    rcases (hnd.mem_erase_iff).1 hx with ⟨hne, hx⟩
    rcases hok m x hx with ⟨m1, m2⟩
    refine ⟨?_, m2⟩
    rw [l2, ← l3, hnum]
    unfold LinkedList.removeAt
    rw [if_pos ⟨by omega, by omega⟩]
    simp only [Int.toNat_ofNat]
    rcases List.mem_iff_getElem?.1 m1 with ⟨i2, hi2⟩
    refine List.mem_eraseIdx_iff_getElem?.2 ⟨i2, ?_, hi2⟩
    intro e
    rw [e, hpos] at hi2
    exact hne (Option.some.inj hi2).symm
  · rw [Function.update_noteq hm] at hx ⊢
    exact hok m x hx

/-- C19 (amended): the invariant "every window in a workspace's stacking list
is a non-iconic window of that workspace's member list" is kept by addWindow of
a non-iconic window, by removeWindow of a member that sits at the position its
window number names and occurs once in the stacking list, and by raiseWindow
and lowerWindow, when every non-iconic managed window (the one being added
apart) is a member of the workspace its workspace number names. -/
theorem stacking_invariant_kept :
    (∀ (scr : BScreen) (fuel n : Nat) (s : Session) (wss : Workspaces) (k w : Nat)
      (place : Bool) (r : Int × Session × Workspaces),
      StackingOK s wss → (wss k).id = k → w < n → Bounded s n → (s.win w).iconic = false →
      MembersBut s wss n (some w) → addWindow scr fuel s wss k (some w) place = some r →
      StackingOK r.2.1 r.2.2) ∧
    (∀ (setInputFocus : Nat → Bool) (s : Session) (wss : Workspaces) (k w j : Nat),
      StackingOK s wss → (wss k).windowList[j]? = some w →
      (s.win w).window_number = (j : Int) → (wss k).stackingList.Nodup →
      StackingOK (removeWindow setInputFocus s (wss k) (some w)).2.1
        (Function.update wss k (removeWindow setInputFocus s (wss k) (some w)).2.2)) ∧
    (∀ (fuel n : Nat) (s : Session) (wss : Workspaces) (w : Nat) (r : Workspaces × List Nat),
      StackingOK s wss → w < n → Bounded s n → MembersBut s wss n none →
      raiseWindow fuel s wss w = some r → StackingOK s r.1) ∧
    (∀ (fuel n : Nat) (s : Session) (wss : Workspaces) (w : Nat) (r : Workspaces × List Nat),
      StackingOK s wss → w < n → Bounded s n → MembersBut s wss n none →
      lowerWindow fuel s wss w = some r → StackingOK s r.1) := by
  refine ⟨?_, ?_, ?_, ?_⟩
  · intro scr fuel n s wss k w place r hok hid hw hb hi hmem h
    exact addWindow_ok scr fuel n s wss k w place r hok hid hw hb hi hmem h
  · intro f s wss k w j hok hpos hnum hnd
    exact removeWindow_ok f s wss k w j hok hpos hnum hnd
  · intro fuel n s wss w r hok hw hb hmem h
    exact (raiseWindow_ok fuel s wss w r h hok
      (fun x hx hxs => hmem x (raiseWindow_lt s n hb fuel wss w r hw h x hxs)
        (fun e => by cases e) hx)).1
  · intro fuel n s wss w r hok hw hb hmem h
    exact (lowerWindow_ok fuel s wss w r h hok
      (fun x hx hxs => hmem x (lowerWindow_lt s n hb fuel wss w r hw h x hxs)
        (fun e => by cases e) hx)).1

/-- C19 as stated fails: addWindow of the iconic window 9 (no placement) to an
empty workspace 0 leaves it in the stacking list of the workspace, still
iconic. -/
theorem stacking_invariant_counterexample :
    StackingOK iconSession emptyWorkspaces ∧ (iconSession.win 9).iconic = true ∧
    (addWindow rowScreen 10 iconSession emptyWorkspaces 0 (some 9) false).map
      (fun r => ((r.2.2 0).stackingList, (r.2.2 0).windowList, (r.2.1.win 9).iconic)) =
        some ([9], [9], true) :=
  ⟨fun _ x hx => absurd hx (List.not_mem_nil x), by decide, by decide⟩

theorem trio_ok : StackingOK trioSession trioWorkspaces ∧ Bounded trioSession 3 ∧
    MembersBut trioSession trioWorkspaces 3 none := by
  refine ⟨?_, ⟨?_, ?_⟩, ?_⟩
  · intro k x hx
    unfold trioWorkspaces at hx ⊢
    by_cases hk : k = 0
    · simp only [hk, if_true] at hx ⊢
      simp only [List.mem_cons, List.mem_singleton, List.not_mem_nil, or_false] at hx
      rcases hx with rfl | rfl | rfl <;> exact ⟨by decide, by decide⟩
    · simp only [hk, if_false] at hx
      exact absurd hx (List.not_mem_nil x)
  · intro a b hab
    unfold trioSession numbered at hab
    by_cases h0 : a = 0
    · simp [h0] at hab
    · by_cases h1 : a = 1
      · simp [h1] at hab
        omega
      · by_cases h2 : a = 2
        · simp [h2] at hab
          omega
        · simp [h0, h1, h2] at hab
  · intro a b hab
    unfold trioSession numbered at hab
    by_cases h0 : a = 0
    · simp [h0] at hab
      omega
    · by_cases h1 : a = 1
      · simp [h1] at hab
        omega
      · by_cases h2 : a = 2
        · simp [h2] at hab
        · simp [h0, h1, h2] at hab
  · intro x hx _ _
    have : x = 0 ∨ x = 1 ∨ x = 2 := by omega
    rcases this with rfl | rfl | rfl <;> decide

theorem stacking_invariant_kept_witness :
    ∃ r, raiseWindow 10 trioSession trioWorkspaces 1 = some r ∧ StackingOK trioSession r.1 := by
  have hs : (raiseWindow 10 trioSession trioWorkspaces 1).isSome = true := by decide
  rcases Option.isSome_iff_exists.1 hs with ⟨r, hr⟩
  exact ⟨r, hr, stacking_invariant_kept.2.2.1 10 3 trioSession trioWorkspaces 1 r trio_ok.1
    (by decide) trio_ok.2.1 trio_ok.2.2 hr⟩

/-! ### Transient links stay bidirectional -/

theorem count_filter_ne (l : List Nat) (a x : Nat) (h : a ≠ x) :
    (l.filter (fun q => decide (q ≠ x))).count a = l.count a := by
  induction l with
  | nil => rfl
  | cons y rest ih =>
    by_cases hy : y = x
    · subst hy
      rw [List.filter_cons_of_neg (by simp), ih]
      simp [List.count_cons, h]
    · rw [List.filter_cons_of_pos (by simpa using hy), List.count_cons, List.count_cons, ih]

theorem count_filter_self (l : List Nat) (x : Nat) :
    (l.filter (fun q => decide (q ≠ x))).count x = 0 := by
  rw [List.count_eq_zero]
  intro hm
  have := (List.mem_filter.1 hm).2
  simp at this

/-- The transient lists after the first two statements of getTransientInfo
(the window leaves the list of its owner and loses its transient_for). -/
theorem unregister_lists (h : Heap) (this : Nat) :
    (∀ a b, a ≠ this →
      ((unregisterTransient h this) b).transientList.count a = (h b).transientList.count a) ∧
    (∀ b, (h this).transient_for = .win b →
      ((unregisterTransient h this) b).transientList.count this = 0) ∧
    (∀ b, (h this).transient_for ≠ .win b →
      ((unregisterTransient h this) b).transientList = (h b).transientList) := by
  unfold unregisterTransient
  cases htf : (h this).transient_for with
  | null =>
    exact ⟨fun _ _ _ => rfl, fun b hb => TransientFor.noConfusion hb, fun _ _ => rfl⟩
  | root =>
    exact ⟨fun _ _ _ => rfl, fun b hb => TransientFor.noConfusion hb, fun _ _ => rfl⟩
  | win p =>
    dsimp only
    refine ⟨?_, ?_, ?_⟩
    · intro a b ha
      by_cases hb : b = p
      · subst hb
        simp only [Function.update_same]
        exact count_filter_ne _ a this ha
      · simp only [Function.update_noteq hb]
    · intro b hb
      injection hb with hb
      subst hb
      simp only [Function.update_same]
      exact count_filter_self _ this
    · intro b hb
      have hbp : b ≠ p := fun e => hb (by rw [e])
      simp only [Function.update_noteq hbp]

theorem bidirectional_of_same (live : Nat → Prop) (g h' : Heap) (hg : Bidirectional live g)
    (hl : ∀ b, (h' b).transientList = (g b).transientList)
    (htf : ∀ a b, (h' a).transient_for = .win b ↔ (g a).transient_for = .win b) :
    Bidirectional live h' := by
  intro a b ha hb
  rw [hl b, hg a b ha hb]
  by_cases hc : (g a).transient_for = .win b
  · rw [if_pos hc, if_pos ((htf a b).2 hc)]
  · rw [if_neg hc, if_neg (fun e => hc ((htf a b).1 e))]

theorem resolveOwner_live {reg : Registry} {live : Nat → Prop} (hreg : RegistryLive reg live)
    {c : Client} {x t : Nat} (h : resolveOwner reg c x = some t) : live t := by
  unfold resolveOwner at h
  split at h
  · rename_i p hp
    injection h with h
    subst h
    exact hreg.1 _ _ hp
  · split at h
    · exact hreg.2 _ _ h
    · cases h

/-- One call of getTransientInfo keeps the links bidirectional. -/
theorem getTransientInfo_bidirectional (reg : Registry) (live : Nat → Prop) (fuel : Nat)
    (h : Heap) (this : Nat) (hint : Option Nat) (h' : Heap) (hthis : live this)
    (hreg : RegistryLive reg live) (hbi : Bidirectional live h)
    (e : getTransientInfo reg hint fuel h this = some h') : Bidirectional live h' := by
  obtain ⟨h2, hh2⟩ : ∃ h2 : Heap, h2 = Function.update (unregisterTransient h this) this
      { unregisterTransient h this this with transient_for := .null } := ⟨_, rfl⟩
  have h2this : (h2 this).transient_for = .null := by rw [hh2]; simp
  have h2other : ∀ w, w ≠ this → (h2 w).transient_for = (h w).transient_for := by
    intro w hw
    rw [hh2, Function.update_noteq hw, unregisterTransient_tf]
  have h2list : ∀ b, (h2 b).transientList = (unregisterTransient h this b).transientList := by
    intro b
    by_cases hb : b = this
    · subst hb; rw [hh2]; simp
    · rw [hh2, Function.update_noteq hb]
  have h2count : ∀ b, live b → (h2 b).transientList.count this = 0 := by
    intro b hb
    rw [h2list]
    by_cases hc : (h this).transient_for = .win b
    · exact (unregister_lists h this).2.1 b hc
    · rw [(unregister_lists h this).2.2 b hc, hbi this b hthis hb, if_neg hc]
  have h2bi : Bidirectional live h2 := by
    intro a b ha hb
    by_cases hat : a = this
    · subst hat
      rw [h2count b hb, h2this]
      simp
    · rw [h2list, (unregister_lists h this).1 a b hat, h2other a hat]
      exact hbi a b ha hb
  unfold getTransientInfo at e
  simp only [← hh2] at e
  cases hint with
  | none =>
    simp only at e
    injection e with e
    subst e
    exact h2bi
  | some x =>
    simp only at e
    split at e
    · injection e with e
      subst e
      exact h2bi
    · split at e
      · injection e with e
        subst e
        refine bidirectional_of_same live h2 _ h2bi ?_ ?_
        · intro b
          by_cases hb : b = this
          · subst hb; simp
          · rw [Function.update_noteq hb]
        · intro a b
          by_cases ha : a = this
          · subst ha; simp [h2this]
          · rw [Function.update_noteq ha]
      · cases hres : resolveOwner reg (h2 this) x with
        | none =>
          rw [hres] at e
          simp only at e
          injection e with e
          subst e
          exact h2bi
        | some t =>
          rw [hres] at e
          simp only at e
          have htl : live t := resolveOwner_live hreg hres
          split at e
          · injection e with e
            subst e
            exact h2bi
          · rename_i htne
            obtain ⟨h3, hh3⟩ : ∃ h3 : Heap, h3 = Function.update h2 this
                { h2 this with transient_for := .win t } := ⟨_, rfl⟩
            simp only [← hh3] at e
            have h3this : (h3 this).transient_for = .win t := by rw [hh3]; simp
            have h3other : ∀ w, w ≠ this → (h3 w).transient_for = (h2 w).transient_for := by
              intro w hw
              rw [hh3, Function.update_noteq hw]
            have h3list : ∀ b, (h3 b).transientList = (h2 b).transientList := by
              intro b
              by_cases hb : b = this
              · subst hb; rw [hh3]; simp
              · rw [hh3, Function.update_noteq hb]
            cases hcc : circularCheck h3 this fuel this with
            | none => rw [hcc] at e; cases e
            | some r =>
              rw [hcc] at e
              cases r with
              | true =>
                simp only at e
                injection e with e
                subst e
                exact h2bi
              | false =>
                simp only at e
                obtain ⟨h4, hh4⟩ : ∃ h4 : Heap, h4 = Function.update h3 t
                    { h3 t with transientList := (h3 t).transientList ++ [this] } := ⟨_, rfl⟩
                simp only [← hh4] at e
                injection e with e
                subst e
                have h4tf : ∀ w, (h4 w).transient_for = (h3 w).transient_for := by
                  intro w
                  by_cases hw : w = t
                  · subst hw; rw [hh4]; simp
                  · rw [hh4, Function.update_noteq hw]
                have h4list : ∀ b, (h4 b).transientList =
                    if b = t then (h2 t).transientList ++ [this] else (h2 b).transientList := by
                  intro b
                  by_cases hb : b = t
                  · subst hb; rw [hh4]; simp [h3list]
                  · rw [hh4, Function.update_noteq hb, if_neg hb, h3list]
                intro a b ha hb
                have hlist : ((Function.update h4 this
                    { h4 this with workspace := (h4 t).workspace }) b).transientList =
                    (h4 b).transientList := by
                  by_cases hbt : b = this
                  · subst hbt; simp
                  · rw [Function.update_noteq hbt]
                have htf : ((Function.update h4 this
                    { h4 this with workspace := (h4 t).workspace }) a).transient_for =
                    (h4 a).transient_for := by
                  by_cases hat : a = this
                  · subst hat; simp
                  · rw [Function.update_noteq hat]
                rw [hlist, htf, h4list, h4tf]
                by_cases hat : a = this
                · subst hat
                  rw [h3this]
                  by_cases hbt : b = t
                  · subst hbt
                    rw [if_pos rfl, List.count_append, h2count b hb]
                    simp
                  · rw [if_neg hbt, h2count b hb, if_neg]
                    intro hc
                    injection hc with hc
                    exact hbt hc.symm
                · rw [h3other a hat]
                  have hcnt : (if b = t then (h2 t).transientList ++ [this]
                      else (h2 b).transientList).count a = (h2 b).transientList.count a := by
                    by_cases hbt : b = t
                    · subst hbt
                      rw [if_pos rfl, List.count_append]
                      simp [List.count_cons, hat]
                    · rw [if_neg hbt]
                  rw [hcnt]
                  exact h2bi a b ha hb

/-- The loop of the destructor over the transients: lists stay, the
transient_for of the windows of the list becomes null. -/
theorem clear_fold (L : List Nat) (g : Heap) :
    (∀ w, ((L.foldl (fun h c => Function.update h c { h c with transient_for := .null })
      g) w).transientList = (g w).transientList) ∧
    (∀ w, ((L.foldl (fun h c => Function.update h c { h c with transient_for := .null })
      g) w).transient_for = if w ∈ L then .null else (g w).transient_for) := by
  induction L generalizing g with
  | nil => exact ⟨fun _ => rfl, fun _ => by simp⟩
  | cons c rest ih =>
    obtain ⟨g1, hg1⟩ : ∃ g1 : Heap, g1 = Function.update g c
        { g c with transient_for := .null } := ⟨_, rfl⟩
    have hl : ∀ w, (g1 w).transientList = (g w).transientList := by
      intro w
      by_cases hw : w = c
      · subst hw; rw [hg1]; simp
      · rw [hg1, Function.update_noteq hw]
    have ht : ∀ w, (g1 w).transient_for = if w = c then .null else (g w).transient_for := by
      intro w
      by_cases hw : w = c
      · subst hw; rw [hg1]; simp
      · rw [hg1, Function.update_noteq hw, if_neg hw]
    rw [List.foldl_cons, ← hg1]
    refine ⟨fun w => by rw [(ih g1).1 w, hl], fun w => ?_⟩
    rw [(ih g1).2 w, ht]
    by_cases hr : w ∈ rest
    · simp [hr]
    · by_cases hw : w = c
      · simp [hw]
      · simp [hr, hw]

/-- The heap after the destructor has taken the window out of the list of its
owner. -/
theorem destroy_first (h : Heap) (this : Nat) :
    (∀ w, ((if isTransient (h this) then
        Function.update (unregisterTransient h this) this
          { unregisterTransient h this this with transient_for := .null }
      else h) w).transient_for = if w = this then .null else (h w).transient_for) ∧
    (∀ a b, a ≠ this → ((if isTransient (h this) then
        Function.update (unregisterTransient h this) this
          { unregisterTransient h this this with transient_for := .null }
      else h) b).transientList.count a = (h b).transientList.count a) := by
  by_cases ht : isTransient (h this) = true
  · rw [if_pos ht]
    constructor
    · intro w
      by_cases hw : w = this
      · subst hw; simp
      · rw [Function.update_noteq hw, if_neg hw, unregisterTransient_tf]
    · intro a b ha
      have hb : ((Function.update (unregisterTransient h this) this
          { unregisterTransient h this this with transient_for := .null }) b).transientList =
          (unregisterTransient h this b).transientList := by
        by_cases hb : b = this
        · subst hb; simp
        · rw [Function.update_noteq hb]
      rw [hb]
      exact (unregister_lists h this).1 a b ha
  · rw [if_neg ht]
    refine ⟨fun w => ?_, fun _ _ _ => rfl⟩
    by_cases hw : w = this
    · subst hw
      rw [if_pos rfl]
      unfold isTransient at ht
      cases htf : (h w).transient_for with
      | null => rfl
      | root => rw [htf] at ht; simp at ht
      | win p => rw [htf] at ht; simp at ht
    · rw [if_neg hw]

/-- Destroying a window keeps the links of the other windows bidirectional, and
every window of its list ends with a null transient_for. -/
theorem destroy_bidirectional (live : Nat → Prop) (h : Heap) (this : Nat)
    (hthis : live this) (hbi : Bidirectional live h) :
    Bidirectional (fun x => live x ∧ x ≠ this) (destroyTransients h this) ∧
    ∀ c, c ∈ (h this).transientList →
      ((destroyTransients h this) c).transient_for = .null := by
  unfold destroyTransients
  obtain ⟨h1, hh1⟩ : ∃ h1 : Heap, h1 = (if isTransient (h this) then
        Function.update (unregisterTransient h this) this
          { unregisterTransient h this this with transient_for := .null }
      else h) := ⟨_, rfl⟩
  have hfirst := destroy_first h this
  simp only [← hh1] at hfirst ⊢
  have hfold := clear_fold (h1 this).transientList h1
  have hmem : ∀ a, a ≠ this → (a ∈ (h1 this).transientList ↔ a ∈ (h this).transientList) := by
    intro a ha
    rw [← List.count_pos_iff, ← List.count_pos_iff, hfirst.2 a this ha]
  constructor
  · intro a b ha hb
    rw [hfold.1, hfold.2, hfirst.2 a b ha.2, hfirst.1, if_neg ha.2, hbi a b ha.1 hb.1]
    by_cases hin : a ∈ (h1 this).transientList
    · rw [if_pos hin]
      have hc := hbi a this ha.1 hthis
      have hpos : 0 < (h this).transientList.count a :=
        List.count_pos_iff.2 ((hmem a ha.2).1 hin)
      have hto : (h a).transient_for = .win this := by
        by_contra hne
        rw [if_neg hne] at hc
        omega
      rw [hto]
      have hbt : ¬ TransientFor.win this = TransientFor.win b := by
        intro e
        injection e with e
        exact hb.2 e.symm
      simp [hbt]
    · rw [if_neg hin]
  · intro c hc
    rw [hfold.2, hfirst.1]
    by_cases hct : c = this
    · simp [hct]
    · rw [if_pos ((hmem c hct).2 hc)]

theorem ownedHeap_bidirectional : Bidirectional (fun x => x < 3) ownedHeap := by
  intro a b ha hb
  have ha3 : a < 3 := ha
  have hb3 : b < 3 := hb
  interval_cases a <;> interval_cases b <;> decide

theorem ownedHeap_acyclic : Acyclic ownedHeap := by
  intro w hw
  rcases (Relation.TransGen.head'_iff).1 hw with ⟨b, hb, hrest⟩
  have hw1 : w = 1 ∧ b = 0 := by
    unfold link ownedHeap at hb
    by_cases h1 : w = 1
    · simp [h1] at hb
      exact ⟨h1, hb.symm⟩
    · simp [h1] at hb
  rcases hw1 with ⟨rfl, rfl⟩
  rcases (Relation.ReflTransGen.cases_head hrest) with e | ⟨c, hc, _⟩
  · cases e
  · simp [link, ownedHeap] at hc

/-- C20: transient links stay bidirectional. With `Bidirectional` read as "window
a is in the transientList of window b exactly once when a.transient_for == b and
not at all otherwise", for the managed windows: getTransientInfo returns a heap
that satisfies it again for every value of the hint (with fuel above the number
of managed windows on an acyclic heap, so that the cycle check returns), and
destroying a managed window leaves it true of the remaining windows, every
window of the destroyed window's list ending with a null transient_for. -/
theorem transient_links_bidirectional :
    (∀ (reg : Registry) (live : Nat → Prop) (n fuel : Nat) (h : Heap) (this : Nat)
      (hint : Option Nat),
      live this → RegistryLive reg live → Bidirectional live h →
      n < fuel → Managed h n → RegistryOK reg n → Acyclic h →
      ∃ h', getTransientInfo reg hint fuel h this = some h' ∧ Bidirectional live h') ∧
    (∀ (live : Nat → Prop) (h : Heap) (this : Nat),
      live this → Bidirectional live h →
      Bidirectional (fun x => live x ∧ x ≠ this) (destroyTransients h this) ∧
      ∀ c, c ∈ (h this).transientList →
        ((destroyTransients h this) c).transient_for = .null) := by
  constructor
  · intro reg live n fuel h this hint hthis hlive hbi hfuel hm hreg hac
    rcases getTransientInfo_result reg n fuel h this hint hfuel hm hreg hac with ⟨h', e, _⟩
    exact ⟨h', e, getTransientInfo_bidirectional reg live fuel h this hint h' hthis hlive hbi e⟩
  · intro live h this hthis hbi
    exact destroy_bidirectional live h this hthis hbi

theorem transient_links_bidirectional_witness :
    (∃ h', getTransientInfo cycleRegistry (some 12) 4 ownedHeap 1 = some h' ∧
      Bidirectional (fun x => x < 3) h') ∧
    (Bidirectional (fun x => x < 3 ∧ x ≠ 0) (destroyTransients ownedHeap 0) ∧
      ∀ c, c ∈ (ownedHeap 0).transientList →
        ((destroyTransients ownedHeap 0) c).transient_for = .null) := by
  refine ⟨transient_links_bidirectional.1 cycleRegistry (fun x => x < 3) 3 4 ownedHeap 1
    (some 12) (by decide) ?_ ownedHeap_bidirectional (by decide) ?_ ?_ ownedHeap_acyclic,
    transient_links_bidirectional.2 (fun x => x < 3) ownedHeap 0 (by decide)
      ownedHeap_bidirectional⟩
  · constructor
    · intro x p hp
      simp only [cycleRegistry] at hp
      split at hp
      · injection hp with hp
        show p < 3
        omega
      · cases hp
    · intro g p hp
      simp [cycleRegistry] at hp
  · intro w p hp
    unfold ownedHeap at hp
    by_cases h1 : w = 1
    · simp [h1] at hp
      omega
    · simp [h1] at hp
  · constructor
    · intro x p hp
      simp only [cycleRegistry] at hp
      split at hp
      · injection hp with hp; omega
      · cases hp
    · intro g p hp
      simp [cycleRegistry] at hp

/-! ### Fullscreen and the flags -/

/-- C21 at its failing inputs: a normal window of fixed size starts without the
resize and maximize functions and without the maximize and grip decorations,
and a normal window whose Motif hints ask for no decoration starts with none;
after setFullScreen(true) and setFullScreen(false) both have every function and
every decoration, which is not what they had before. -/
theorem setFullScreen_forgets_hints :
    fixedSizeWindow.min_width = 100 ∧ fixedSizeWindow.max_width = 100 ∧
    (constructorFlags .WindowTypeNormal false none fixedSizeWindow).functions =
      { AllWindowFunctions with resize := false, maximize := false } ∧
    (constructorFlags .WindowTypeNormal false none fixedSizeWindow).decorations =
      { AllWindowDecorations with maximize := false, grip := false } ∧
    (setFullScreen false (setFullScreen true
      (constructorFlags .WindowTypeNormal false none fixedSizeWindow))).functions =
        AllWindowFunctions ∧
    (setFullScreen false (setFullScreen true
      (constructorFlags .WindowTypeNormal false none fixedSizeWindow))).decorations =
        AllWindowDecorations ∧
    (constructorFlags .WindowTypeNormal false (some bareMwmHints) plainWindow).decorations =
      NoWindowDecorations ∧
    (setFullScreen false (setFullScreen true
      (constructorFlags .WindowTypeNormal false (some bareMwmHints) plainWindow))).decorations =
        AllWindowDecorations := by
  decide

/-! ### Cascade placement and the origin of the available area -/

/-- C22 at its failing input: with the available area (64, 0) 960x768, the
first Cascade placement on a workspace puts a 100x100 window at (0, 0), left of
the available area, and moves the cascade point to (32, 32). -/
theorem cascade_ignores_origin :
    strutScreen.availableArea.x = 64 ∧ strutScreen.availableArea.width = 960 ∧
    (placeWindow strutScreen cascadeSession freshWorkspace 1 10).map
      (fun r => (r.2.1, r.2.2, r.1.cascade_x, r.1.cascade_y)) = some (0, 0, 32, 32) ∧
    ¬ (strutScreen.availableArea.x ≤ 0) := by
  decide

/-! ### Expose events are merged -/

theorem XCheckTypedWindowEvent_filter (w ty : Nat) (q : List XEvent) :
    (XCheckTypedWindowEvent q w ty = none ∧ eventsOf w ty q = [] ∧ eventsBut w ty q = q) ∨
    ∃ e q', XCheckTypedWindowEvent q w ty = some (e, q') ∧
      eventsOf w ty q = e :: eventsOf w ty q' ∧ eventsBut w ty q' = eventsBut w ty q := by
  induction q with
  | nil => exact Or.inl ⟨rfl, rfl, rfl⟩
  | cons a rest ih =>
    by_cases ha : a.window = w ∧ a.type = ty
    · refine Or.inr ⟨a, rest, ?_, ?_, ?_⟩
      · rw [XCheckTypedWindowEvent, if_pos ha]
      · unfold eventsOf
        rw [List.filter_cons_of_pos (by exact decide_eq_true ha)]
      · unfold eventsBut
        rw [List.filter_cons_of_neg (by rw [decide_eq_true ha]; decide)]
    · have hof : eventsOf w ty (a :: rest) = eventsOf w ty rest := by
        unfold eventsOf
        rw [List.filter_cons_of_neg (by rw [decide_eq_false ha]; decide)]
      have hbut : eventsBut w ty (a :: rest) = a :: eventsBut w ty rest := by
        unfold eventsBut
        rw [List.filter_cons_of_pos (by rw [decide_eq_false ha]; rfl)]
      rcases ih with ⟨hn, ho, hb⟩ | ⟨e, q', hs, ho, hb⟩
      · refine Or.inl ⟨?_, ?_, ?_⟩
        · rw [XCheckTypedWindowEvent, if_neg ha, hn]
        · rw [hof, ho]
        · rw [hbut, hb]
      · refine Or.inr ⟨e, a :: q', ?_, ?_, ?_⟩
        · rw [XCheckTypedWindowEvent, if_neg ha, hs]
        · rw [hof, ho]
          unfold eventsOf
          rw [List.filter_cons_of_neg (by rw [decide_eq_false ha]; decide)]
        · rw [hbut, ← hb]
          unfold eventsBut
          rw [List.filter_cons_of_pos (by rw [decide_eq_false ha]; rfl)]

/-- The loop of the Expose case takes every queued Expose event of the window
out of the queue, whatever lies between them, and folds their rectangles into
the exposed area. -/
theorem compressExpose_run (w : Nat) :
    ∀ (fuel : Nat) (q : List XEvent) (realevent : Option XEvent) (i : Nat)
      (box : Int × Int × Int × Int),
      (eventsOf w Expose q).length < fuel →
      compressExpose w fuel q realevent i box =
        some (eventsBut w Expose q,
          (match (eventsOf w Expose q).getLast? with | some m => some m | none => realevent),
          i + (eventsOf w Expose q).length,
          (eventsOf w Expose q).foldl
            (fun b ev => (min ev.x b.1, min ev.y b.2.1, max (ev.x + ev.width - 1) b.2.2.1,
              max (ev.y + ev.height - 1) b.2.2.2)) box) := by
  intro fuel
  induction fuel with
  | zero => intro q realevent i box h; omega
  | succ f ih =>
    intro q realevent i box hfuel
    obtain ⟨ex1, ey1, ex2, ey2⟩ := box
    rcases XCheckTypedWindowEvent_filter w Expose q with ⟨hn, ho, hb⟩ | ⟨e, q', hs, ho, hb⟩
    · rw [compressExpose, hn, ho, hb]
      rfl
    · rw [compressExpose, hs]
      simp only
      rw [ho] at hfuel
      rw [ih q' (some e) (i + 1) _ (by simp at hfuel; omega), hb, ho]
      have hlen : i + 1 + (eventsOf w Expose q').length =
          i + (e :: eventsOf w Expose q').length := by
        simp only [List.length_cons]
        omega
      rw [List.getLast?_cons, hlen, List.foldl_cons]
      cases (eventsOf w Expose q').getLast? <;> rfl

/-- The merged area is the least upper bound of the rectangles folded in: its
left and top are the greatest lower bounds, its right and bottom the least
upper bounds. -/
theorem mergeExpose_bounds (L : List XEvent) :
    ∀ (b : Int × Int × Int × Int) (X : Int),
      (X ≤ (L.foldl (fun b ev => (min ev.x b.1, min ev.y b.2.1,
          max (ev.x + ev.width - 1) b.2.2.1, max (ev.y + ev.height - 1) b.2.2.2)) b).1 ↔
        X ≤ b.1 ∧ ∀ a ∈ L, X ≤ a.x) ∧
      (X ≤ (L.foldl (fun b ev => (min ev.x b.1, min ev.y b.2.1,
          max (ev.x + ev.width - 1) b.2.2.1, max (ev.y + ev.height - 1) b.2.2.2)) b).2.1 ↔
        X ≤ b.2.1 ∧ ∀ a ∈ L, X ≤ a.y) ∧
      ((L.foldl (fun b ev => (min ev.x b.1, min ev.y b.2.1,
          max (ev.x + ev.width - 1) b.2.2.1, max (ev.y + ev.height - 1) b.2.2.2)) b).2.2.1 ≤ X ↔
        b.2.2.1 ≤ X ∧ ∀ a ∈ L, a.x + a.width - 1 ≤ X) ∧
      ((L.foldl (fun b ev => (min ev.x b.1, min ev.y b.2.1,
          max (ev.x + ev.width - 1) b.2.2.1, max (ev.y + ev.height - 1) b.2.2.2)) b).2.2.2 ≤ X ↔
        b.2.2.2 ≤ X ∧ ∀ a ∈ L, a.y + a.height - 1 ≤ X) := by
  induction L with
  | nil => intro b X; simp
  | cons c rest ih =>
    intro b X
    rw [List.foldl_cons]
    rcases ih (min c.x b.1, min c.y b.2.1, max (c.x + c.width - 1) b.2.2.1,
      max (c.y + c.height - 1) b.2.2.2) X with ⟨h1, h2, h3, h4⟩
    refine ⟨?_, ?_, ?_, ?_⟩
    · rw [h1]
      simp only [le_min_iff, List.mem_cons, forall_eq_or_imp]
      constructor
      · rintro ⟨⟨h, h'⟩, h''⟩
        exact ⟨h', h, h''⟩
      · rintro ⟨h', h, h''⟩
        exact ⟨⟨h, h'⟩, h''⟩
    · rw [h2]
      simp only [le_min_iff, List.mem_cons, forall_eq_or_imp]
      constructor
      · rintro ⟨⟨h, h'⟩, h''⟩
        exact ⟨h', h, h''⟩
      · rintro ⟨h', h, h''⟩
        exact ⟨⟨h, h'⟩, h''⟩
    · rw [h3]
      simp only [max_le_iff, List.mem_cons, forall_eq_or_imp]
      constructor
      · rintro ⟨⟨h, h'⟩, h''⟩
        exact ⟨h', h, h''⟩
      · rintro ⟨h', h, h''⟩
        exact ⟨⟨h, h'⟩, h''⟩
    · rw [h4]
      simp only [max_le_iff, List.mem_cons, forall_eq_or_imp]
      constructor
      · rintro ⟨⟨h, h'⟩, h''⟩
        exact ⟨h', h, h''⟩
      · rintro ⟨h', h, h''⟩
        exact ⟨⟨h, h'⟩, h''⟩

theorem eventsOf_mem {w ty : Nat} {q : List XEvent} {a : XEvent} (h : a ∈ eventsOf w ty q) :
    a.window = w ∧ a.type = ty := by
  unfold eventsOf at h
  have := (List.mem_filter.1 h).2
  exact of_decide_eq_true this

/-- C23: for an Expose event `e` of a window with a registered handler and
every queue `q`, process_event takes all the Expose events of that window out
of the queue (the other events stay, in order) and calls exposeEvent exactly
once, with an Expose event of that window whose rectangle contains the
rectangle of `e` and of every queued one, and lies inside every rectangle that
contains them all. The fuel only has to exceed the number of those queued
events. -/
theorem expose_events_merged (app : Application) (e : XEvent) (q : List XEvent)
    (handler fuel : Nat)
    (he : e.type = Expose)
    (hh : app.eventhandlers e.window = some handler)
    (hfuel : (eventsOf e.window Expose q).length < fuel) :
    ∃ delivered,
      process_event app q e fuel =
        some (app, eventsBut e.window Expose q, [Effect.deliver handler delivered]) ∧
      delivered.type = Expose ∧ delivered.window = e.window ∧
      (∀ a ∈ e :: eventsOf e.window Expose q,
        a.inside delivered.x delivered.y delivered.width delivered.height) ∧
      (∀ x y w h : Int, (∀ a ∈ e :: eventsOf e.window Expose q, a.inside x y w h) →
        delivered.inside x y w h) := by
  have hrun := compressExpose_run e.window fuel q none 0
    (e.x, e.y, e.x + e.width - 1, e.y + e.height - 1) hfuel
  obtain ⟨L, hL⟩ : ∃ L, L = eventsOf e.window Expose q := ⟨_, rfl⟩
  rw [← hL] at hrun hfuel ⊢
  have hmemL : ∀ a ∈ L, a.window = e.window ∧ a.type = Expose := by
    intro a ha
    rw [hL] at ha
    exact eventsOf_mem ha
  obtain ⟨box, hbox⟩ : ∃ box, box = L.foldl
      (fun b ev => (min ev.x b.1, min ev.y b.2.1, max (ev.x + ev.width - 1) b.2.2.1,
        max (ev.y + ev.height - 1) b.2.2.2))
      (e.x, e.y, e.x + e.width - 1, e.y + e.height - 1) := ⟨_, rfl⟩
  have hb := fun X => mergeExpose_bounds L (e.x, e.y, e.x + e.width - 1, e.y + e.height - 1) X
  rw [← hbox] at hrun hb
  obtain ⟨ex1, ey1, ex2, ey2⟩ := box
  simp only at hb
  -- the event the merged area is written into
  obtain ⟨base, hbase, hbt, hbw⟩ : ∃ base : XEvent,
      base = (if 0 + L.length > 0 then
        (match L.getLast? with | some m => some m | none => none).getD e else e) ∧
      base.type = Expose ∧ base.window = e.window := by
    refine ⟨_, rfl, ?_⟩
    cases hl : L with
    | nil => simp [he]
    | cons m ms =>
      have hne : L ≠ [] := by rw [hl]; simp
      have hlast : L.getLast? = some (L.getLast hne) := List.getLast?_eq_getLast _ hne
      have hmem := hmemL _ (List.getLast_mem hne)
      rw [← hl, hlast]
      have hpos : 0 + L.length > 0 := by
        have := List.length_pos.2 hne
        omega
      rw [if_pos hpos]
      exact ⟨hmem.2, hmem.1⟩
  refine ⟨{ base with x := ex1, y := ey1, width := ex2 - ex1 + 1, height := ey2 - ey1 + 1 },
    ?_, hbt, hbw, ?_, ?_⟩
  · unfold process_event
    rw [hh]
    simp only [he, hrun, ← hbase]
    simp [Expose, ButtonPress, ButtonRelease, MotionNotify, EnterNotify, LeaveNotify, KeyPress,
      KeyRelease, PropertyNotify]
  · intro a ha
    have h1 := (hb ex1).1.1 (le_refl _)
    have h2 := (hb ey1).2.1.1 (le_refl _)
    have h3 := (hb ex2).2.2.1.1 (le_refl _)
    have h4 := (hb ey2).2.2.2.1 (le_refl _)
    unfold XEvent.inside
    simp only
    rcases List.mem_cons.1 ha with rfl | ha
    · refine ⟨h1.1, h2.1, ?_, ?_⟩
      · have := h3.1
        omega
      · have := h4.1
        omega
    · refine ⟨h1.2 a ha, h2.2 a ha, ?_, ?_⟩
      · have := h3.2 a ha
        omega
      · have := h4.2 a ha
        omega
  · intro x y w h hall
    have he' := hall e (List.mem_cons_self _ _)
    unfold XEvent.inside at he' ⊢
    simp only
    have h1 := (hb x).1.2 ⟨he'.1, fun a ha => (hall a (List.mem_cons_of_mem _ ha)).1⟩
    have h2 := (hb y).2.1.2 ⟨he'.2.1, fun a ha => (hall a (List.mem_cons_of_mem _ ha)).2.1⟩
    have h3 := (hb (x + w - 1)).2.2.1.2 ⟨by omega, fun a ha => by
      have := (hall a (List.mem_cons_of_mem _ ha)).2.2.1
      omega⟩
    have h4 := (hb (y + h - 1)).2.2.2.2 ⟨by omega, fun a ha => by
      have := (hall a (List.mem_cons_of_mem _ ha)).2.2.2
      omega⟩
    refine ⟨h1, h2, ?_, ?_⟩ <;> omega

theorem expose_events_merged_witness :
    ∃ delivered,
      process_event plainApplication
        [exposeAt 0 0 10 10, motionAt 3 3, exposeAt 20 5 10 10] (exposeAt 5 5 2 2) 3 =
        some (plainApplication,
          eventsBut 5 Expose [exposeAt 0 0 10 10, motionAt 3 3, exposeAt 20 5 10 10],
          [Effect.deliver 1 delivered]) ∧
      delivered.type = Expose ∧ delivered.window = 5 ∧
      (∀ a ∈ exposeAt 5 5 2 2 ::
          eventsOf 5 Expose [exposeAt 0 0 10 10, motionAt 3 3, exposeAt 20 5 10 10],
        a.inside delivered.x delivered.y delivered.width delivered.height) ∧
      (∀ x y w h : Int, (∀ a ∈ exposeAt 5 5 2 2 ::
          eventsOf 5 Expose [exposeAt 0 0 10 10, motionAt 3 3, exposeAt 20 5 10 10],
            a.inside x y w h) →
        delivered.inside x y w h) :=
  expose_events_merged plainApplication (exposeAt 5 5 2 2)
    [exposeAt 0 0 10 10, motionAt 3 3, exposeAt 20 5 10 10] 1 3 rfl rfl (by decide)

/-! ### Events for a bad window -/

/-- C24 (amended): once a BadWindow error has been recorded for the window W
(not None) while the loop runs, the events for W that the loop dequeues next,
before an event for another window or another error, are discarded without
being dispatched: the run goes on as if they had not been queued. -/
theorem bad_window_events_skipped (d d1 : BaseDisplay) (W : Nat) (evs : List XEvent)
    (rest : List LoopStep) (hW : W ≠ XNone) (hrun : d._shutdown = false)
    (hrec : handleXErrors d BadWindow W = some d1)
    (hevs : ∀ e ∈ evs, e.window = W) :
    d1.last_bad_window = W ∧
    eventLoop d1 (evs.map LoopStep.event ++ rest) = eventLoop d1 rest := by
  have hd1 : d1.last_bad_window = W ∧ d1._shutdown = false ∧ d1.internal_error = false := by
    unfold handleXErrors at hrec
    simp only [if_true] at hrec
    split at hrec
    · cases hrec
    · rename_i hie
      injection hrec with hrec
      subst hrec
      exact ⟨rfl, hrun, by simpa using hie⟩
  refine ⟨hd1.1, ?_⟩
  induction evs with
  | nil => rfl
  | cons e es ih =>
    have he := hevs e (List.mem_cons_self _ _)
    rw [List.map_cons, List.cons_append, eventLoop]
    rw [if_neg (by simp [hd1.2.1, hd1.2.2]), if_pos ⟨by rw [hd1.1]; exact hW, by rw [hd1.1, he]⟩]
    exact ih (fun x hx => hevs x (List.mem_cons_of_mem _ hx))

/-- C24 as stated fails: after a BadWindow error for window 5, an event for
window 6 is dispatched and clears the record, and the event for window 5 that
follows is dispatched as well. -/
theorem bad_window_counterexample :
    eventLoop runningDisplay
      [LoopStep.xerror BadWindow 5, LoopStep.event { motionAt 0 0 with window := 6 },
        LoopStep.event (motionAt 1 1)] =
      some (runningDisplay, [{ motionAt 0 0 with window := 6 }, motionAt 1 1]) ∧
    (motionAt 1 1).window = 5 := by
  decide

theorem bad_window_events_skipped_witness :
    ({ runningDisplay with last_bad_window := 5 } : BaseDisplay).last_bad_window = 5 ∧
    eventLoop { runningDisplay with last_bad_window := 5 }
      ([motionAt 1 1, motionAt 2 2].map LoopStep.event ++
        [LoopStep.event { motionAt 0 0 with window := 6 }]) =
      eventLoop { runningDisplay with last_bad_window := 5 }
        [LoopStep.event { motionAt 0 0 with window := 6 }] :=
  bad_window_events_skipped runningDisplay { runningDisplay with last_bad_window := 5 } 5
    [motionAt 1 1, motionAt 2 2] [LoopStep.event { motionAt 0 0 with window := 6 }]
    (by decide) rfl rfl (by
      intro e he
      simp at he
      rcases he with rfl | rfl <;> rfl)

/-! ### A failed pointer grab -/

/-- C25 at its failing input: a window that is neither moving nor resizing gets
a button-1 motion event on its title (and another such window one on its right
grip) while XGrabPointer returns AlreadyGrabbed. The move (the resize) begins all
the same: `client.state.moving` (`resizing`) is set and the server is grabbed
for the rubber band. -/
theorem motionNotify_ignores_grab_failure :
    idleWindow.w.moving = false ∧ idleWindow.w.resizing = false ∧
    (motionNotifyEvent dragScreen AlreadyGrabbed idleWindow
      (dragMotion FramePart.title 50 50)).map
        (fun r => (r.1.w.moving, r.2.contains XRequest.XGrabServer)) = some (true, true) ∧
    (motionNotifyEvent dragScreen AlreadyGrabbed idleWindow
      (dragMotion FramePart.right_grip 50 50)).map
        (fun r => (r.1.w.resizing, r.2.contains XRequest.XGrabServer)) = some (true, true) := by
  decide

/-! ### Server grabs and the destructor -/

/-- C26 at its failing input: a resize begins (one XGrabServer) and the window
is destroyed before the button is released. The destructor ungrabs the pointer
only: the window is gone, one XGrabServer was issued and no XUngrabServer. The
same holds for a window destroyed in the middle of a rubber-band move. -/
theorem destroy_leaves_server_grabbed :
    (deliver dragScreen (some idleWindow)
      [WindowEvent.motion GrabSuccess (dragMotion FramePart.right_grip 50 50),
        WindowEvent.destroy]).map
      (fun r => (r.1.isNone, grabServerCount r.2, ungrabServerCount r.2,
        r.2.contains XRequest.XUngrabPointer)) = some (true, 1, 0, true) ∧
    (deliver dragScreen (some idleWindow)
      [WindowEvent.motion GrabSuccess (dragMotion FramePart.title 50 50),
        WindowEvent.motion GrabSuccess (dragMotion FramePart.title 60 60),
        WindowEvent.destroy]).map
      (fun r => (r.1.isNone, grabServerCount r.2, ungrabServerCount r.2,
        r.2.contains XRequest.XUngrabPointer)) = some (true, 1, 0, true) := by
  decide

/-! ### applyGravity and restoreGravity -/

theorem toSigned_shift (a b : Int) (h1 : -2147483648 ≤ a + b) (h2 : a + b < 2147483648) :
    toSigned (toSigned a + b) = a + b := by
  unfold toSigned UMAX
  push_cast
  omega

theorem restore_applyGravityX (g : Nat) (m : Margin) (x : Int)
    (h1 : -2147483648 ≤ x) (h2 : x < 2147483648) :
    restoreGravityX g m (applyGravityX g m x) = x ∧
    applyGravityX g m (restoreGravityX g m x) = x := by
  unfold restoreGravityX applyGravityX
  split_ifs
  · constructor
    · have := toSigned_shift (x - (uadd m.left m.right / 2 : Nat))
        (uadd m.left m.right / 2 : Nat) (by omega) (by omega)
      rw [this]; omega
    · have := toSigned_shift (x + (uadd m.left m.right / 2 : Nat))
        (-(uadd m.left m.right / 2 : Nat)) (by omega) (by omega)
      rw [← sub_eq_add_neg] at this
      rw [this]; omega
  · constructor
    · have := toSigned_shift (x - (uadd m.left m.right : Nat) + 2)
        ((uadd m.left m.right : Nat) - 2) (by omega) (by omega)
      rw [← add_sub_assoc] at this
      rw [this]; omega
    · have := toSigned_shift (x + (uadd m.left m.right : Nat) - 2)
        (-(uadd m.left m.right : Nat) + 2) (by omega) (by omega)
      rw [← add_assoc, ← sub_eq_add_neg] at this
      rw [this]; omega
  · constructor
    · have := toSigned_shift (x - (m.left : Nat)) (m.left : Nat) (by omega) (by omega)
      rw [this]; omega
    · have := toSigned_shift (x + (m.left : Nat)) (-(m.left : Nat)) (by omega) (by omega)
      rw [← sub_eq_add_neg] at this
      rw [this]; omega
  · exact ⟨rfl, rfl⟩

theorem restore_applyGravityY (g : Nat) (m : Margin) (y : Int)
    (h1 : -2147483648 ≤ y) (h2 : y < 2147483648) :
    restoreGravityY g m (applyGravityY g m y) = y ∧
    applyGravityY g m (restoreGravityY g m y) = y := by
  unfold restoreGravityY applyGravityY
  split_ifs
  · constructor
    · have := toSigned_shift (y - (uadd m.top m.bottom / 2 : Nat))
        (uadd m.top m.bottom / 2 : Nat) (by omega) (by omega)
      rw [this]; omega
    · have := toSigned_shift (y + (uadd m.top m.bottom / 2 : Nat))
        (-(uadd m.top m.bottom / 2 : Nat)) (by omega) (by omega)
      rw [← sub_eq_add_neg] at this
      rw [this]; omega
  · constructor
    · have hcomm : uadd m.bottom m.top = uadd m.top m.bottom := by
        unfold uadd
        rw [Nat.add_comm]
      rw [hcomm]
      have := toSigned_shift (y - (uadd m.top m.bottom : Nat) + 2)
        ((uadd m.top m.bottom : Nat) - 2) (by omega) (by omega)
      rw [← add_sub_assoc] at this
      rw [this]; omega
    · have hcomm : uadd m.bottom m.top = uadd m.top m.bottom := by
        unfold uadd
        rw [Nat.add_comm]
      rw [hcomm]
      have := toSigned_shift (y + (uadd m.top m.bottom : Nat) - 2)
        (-(uadd m.top m.bottom : Nat) + 2) (by omega) (by omega)
      rw [← add_assoc, ← sub_eq_add_neg] at this
      rw [this]; omega
  · constructor
    · have := toSigned_shift (y - (m.top : Nat)) (m.top : Nat) (by omega) (by omega)
      rw [this]; omega
    · have := toSigned_shift (y + (m.top : Nat)) (-(m.top : Nat)) (by omega) (by omega)
      rw [← sub_eq_add_neg] at this
      rw [this]; omega
  · exact ⟨rfl, rfl⟩

theorem Rect.setPos_same (r : Rect) : (r.setX r.x1).setY r.y1 = r := by
  cases r
  simp [Rect.setX, Rect.setY]

/-- C27: restoreGravity is the reverse of applyGravity. For every gravity value
and all frame margins, a client rectangle whose position (x, y) is a pair of
`int` values is restored by restoreGravity from the frame position that
applyGravity computes for it (so it is at (x, y) again), and a frame rectangle
is restored likewise by applyGravity from the client position that
restoreGravity computes. -/
theorem restoreGravity_reverses_applyGravity (w : BlackboxWindow) :
    (w.rect.PosIsInt →
      restoreGravity { w with frame_rect := applyGravity w w.frame_rect } w.rect = w.rect ∧
      (restoreGravity { w with frame_rect := applyGravity w w.frame_rect } w.rect).x =
        w.rect.x ∧
      (restoreGravity { w with frame_rect := applyGravity w w.frame_rect } w.rect).y =
        w.rect.y) ∧
    (w.frame_rect.PosIsInt →
      applyGravity { w with rect := restoreGravity w w.rect } w.frame_rect = w.frame_rect ∧
      (applyGravity { w with rect := restoreGravity w w.rect } w.frame_rect).x =
        w.frame_rect.x ∧
      (applyGravity { w with rect := restoreGravity w w.rect } w.frame_rect).y =
        w.frame_rect.y) := by
  constructor
  · intro h
    have hx := (restore_applyGravityX w.win_gravity w.margin w.rect.x1 h.1.1 h.1.2).1
    have hy := (restore_applyGravityY w.win_gravity w.margin w.rect.y1 h.2.1 h.2.2).1
    have key : restoreGravity { w with frame_rect := applyGravity w w.frame_rect } w.rect =
        w.rect := by
      show (w.rect.setX (restoreGravityX w.win_gravity w.margin
        (applyGravityX w.win_gravity w.margin w.rect.x1))).setY
          (restoreGravityY w.win_gravity w.margin
            (applyGravityY w.win_gravity w.margin w.rect.y1)) = w.rect
      rw [hx, hy]
      exact Rect.setPos_same _
    rw [key]
    exact ⟨rfl, rfl, rfl⟩
  · intro h
    have hx := (restore_applyGravityX w.win_gravity w.margin w.frame_rect.x1 h.1.1 h.1.2).2
    have hy := (restore_applyGravityY w.win_gravity w.margin w.frame_rect.y1 h.2.1 h.2.2).2
    have key : applyGravity { w with rect := restoreGravity w w.rect } w.frame_rect =
        w.frame_rect := by
      show (w.frame_rect.setX (applyGravityX w.win_gravity w.margin
        (restoreGravityX w.win_gravity w.margin w.frame_rect.x1))).setY
          (applyGravityY w.win_gravity w.margin
            (restoreGravityY w.win_gravity w.margin w.frame_rect.y1)) = w.frame_rect
      rw [hx, hy]
      exact Rect.setPos_same _
    rw [key]
    exact ⟨rfl, rfl, rfl⟩

theorem restoreGravity_reverses_applyGravity_witness :
    (applyGravity gravityWindow gravityWindow.frame_rect).x = 34 ∧
    (applyGravity gravityWindow gravityWindow.frame_rect).y = 44 ∧
    restoreGravity
      { gravityWindow with frame_rect := applyGravity gravityWindow gravityWindow.frame_rect }
      gravityWindow.rect = gravityWindow.rect ∧
    (restoreGravity
      { gravityWindow with frame_rect := applyGravity gravityWindow gravityWindow.frame_rect }
      gravityWindow.rect).x = 40 :=
  ⟨by decide, by decide,
    ((restoreGravity_reverses_applyGravity gravityWindow).1
      (by unfold Rect.PosIsInt; decide)).1,
    ((restoreGravity_reverses_applyGravity gravityWindow).1
      (by unfold Rect.PosIsInt; decide)).2.1⟩

/-! ### The assertion of constrain -/

/-- C28 at its failing input: hints with PBaseSize only and a base size of
200x200 leave the minimum size at 1x1; for a requested 100x100 frame the clamp
keeps 100x100 while base_width and base_height are 200, so the assertion of
constrain fails, and the subtraction dw - base_width would wrap. -/
theorem constrain_assertion_fails :
    baseOnlyWindow.base_width = 200 ∧ baseOnlyWindow.min_width = 1 ∧
    baseOnlyWindow.max_width = 1024 ∧
    constrainClamp baseOnlyWindow (stripMargin baseOnlyWindow) = (100, 100, 200, 200) ∧
    constrainAssertion baseOnlyWindow (stripMargin baseOnlyWindow) = false ∧
    constrain baseOnlyWindow Corner.TopLeft = none ∧
    usub 100 200 = 4294967196 := by
  decide

/-! ### Resize increments of zero -/

/-- C29 at its failing input: hints with PResizeInc and increments of 0 are
stored as they are (width_inc = 0 and height_inc = 0); the assertion of
constrain holds for a requested 100x100 frame, and the divisions by the
increments in constrain and in showGeometry are divisions by zero. -/
theorem getWMNormalHints_zero_increment :
    zeroIncWindow.width_inc = 0 ∧ zeroIncWindow.height_inc = 0 ∧
    constrainAssertion zeroIncWindow (stripMargin zeroIncWindow) = true ∧
    constrainIncrements zeroIncWindow 1 1 100 100 = none ∧
    constrain zeroIncWindow Corner.TopLeft = none ∧
    showGeometry zeroIncWindow zeroIncWindow.changing = none := by
  decide

/-! ### The maximize mode across a restart -/

theorem netwmStateStep_mode (c : NetwmState) (a : NetAtom) (v h : Bool)
    (hc : c.maximized = maximizeMode v h) :
    (netwmStateStep c a).maximized =
      maximizeMode (v || decide (a = NetAtom.wmStateMaximizedVert))
        (h || decide (a = NetAtom.wmStateMaximizedHorz)) := by
  cases a <;> cases v <;> cases h <;>
    simp [netwmStateStep, maximizeMode] at hc ⊢ <;>
    (try split_ifs) <;> simp_all

theorem foldl_netwmStateStep_mode (l : List NetAtom) :
    ∀ (c : NetwmState) (v h : Bool), c.maximized = maximizeMode v h →
      (l.foldl netwmStateStep c).maximized =
        maximizeMode (v || decide (NetAtom.wmStateMaximizedVert ∈ l))
          (h || decide (NetAtom.wmStateMaximizedHorz ∈ l)) := by
  induction l with
  | nil => intro c v h hc; simpa using hc
  | cons a rest ih =>
    intro c v h hc
    rw [List.foldl_cons, ih _ _ _ (netwmStateStep_mode c a v h hc)]
    congr 1
    · cases v <;> by_cases ha : a = NetAtom.wmStateMaximizedVert <;>
        by_cases hr : NetAtom.wmStateMaximizedVert ∈ rest <;> simp [ha, hr, eq_comm]
    · cases h <;> by_cases ha : a = NetAtom.wmStateMaximizedHorz <;>
        by_cases hr : NetAtom.wmStateMaximizedHorz ∈ rest <;> simp [ha, hr, eq_comm]

theorem setStateAtoms_mem (c : NetwmState) (hm : c.maximized ≤ 3) :
    (NetAtom.wmStateMaximizedVert ∈ setStateAtoms c ↔ (c.maximized = 1 ∨ c.maximized = 2)) ∧
    (NetAtom.wmStateMaximizedHorz ∈ setStateAtoms c ↔ (c.maximized = 1 ∨ c.maximized = 3)) := by
  have hA : ∀ x, x ∈ (if c.modal then [NetAtom.wmStateModal] else []) →
      x = NetAtom.wmStateModal := by
    intro x
    cases c.modal <;> simp
  have hS : ∀ x, x ∈ (if c.shaded then [NetAtom.wmStateShaded] else []) →
      x = NetAtom.wmStateShaded := by
    intro x
    cases c.shaded <;> simp
  have hK : ∀ x, x ∈ (match c.skip with
      | .SKIP_NONE => []
      | .SKIP_BOTH => [NetAtom.wmStateSkipTaskbar, NetAtom.wmStateSkipPager]
      | .SKIP_TASKBAR => [NetAtom.wmStateSkipTaskbar]
      | .SKIP_PAGER => [NetAtom.wmStateSkipPager]) →
      x = NetAtom.wmStateSkipTaskbar ∨ x = NetAtom.wmStateSkipPager := by
    intro x
    cases c.skip <;> simp <;> intro h <;> simp [h]
  have hI : ∀ x, x ∈ (if c.iconic then [NetAtom.wmStateHidden] else []) →
      x = NetAtom.wmStateHidden := by
    intro x
    cases c.iconic <;> simp
  have hF : ∀ x, x ∈ (if c.fullscreen then [NetAtom.wmStateFullscreen] else []) →
      x = NetAtom.wmStateFullscreen := by
    intro x
    cases c.fullscreen <;> simp
  have hL : ∀ x, x ∈ (match c.layer with
      | .LayerAbove => [NetAtom.wmStateAbove]
      | .LayerBelow => [NetAtom.wmStateBelow]
      | _ => []) → x = NetAtom.wmStateAbove ∨ x = NetAtom.wmStateBelow := by
    intro x
    cases c.layer <;> simp <;> intro h <;> simp [h]
  have hcases : c.maximized = 0 ∨ c.maximized = 1 ∨ c.maximized = 2 ∨ c.maximized = 3 := by
    omega
  unfold setStateAtoms
  simp only [List.mem_append]
  constructor
  · constructor
    · rintro ((((((h | h) | h) | h) | h) | h) | h)
      · cases hA _ h
      · rcases hcases with e | e | e | e <;> rw [e] at h ⊢ <;> simp at h ⊢
      · cases hS _ h
      · rcases hK _ h with h | h <;> cases h
      · cases hI _ h
      · cases hF _ h
      · rcases hL _ h with h | h <;> cases h
    · intro h
      refine Or.inl (Or.inl (Or.inl (Or.inl (Or.inl (Or.inr ?_)))))
      rcases h with e | e <;> rw [e] <;> simp
  · constructor
    · rintro ((((((h | h) | h) | h) | h) | h) | h)
      · cases hA _ h
      · rcases hcases with e | e | e | e <;> rw [e] at h ⊢ <;> simp at h ⊢
      · cases hS _ h
      · rcases hK _ h with h | h <;> cases h
      · cases hI _ h
      · cases hF _ h
      · rcases hL _ h with h | h <;> cases h
    · intro h
      refine Or.inl (Or.inl (Or.inl (Or.inl (Or.inl (Or.inr ?_)))))
      rcases h with e | e <;> rw [e] <;> simp

/-- C30: the maximize mode survives a restart. For every mode m in
{0, 1, 2, 3} and whatever the rest of the state, the decoding loop of
getNetwmHints, started from mode 0, run over the atoms that setState writes
for a window in mode m, taken in any order, ends in mode m; an empty list
removes the property, and the mode then stays 0. -/
theorem ewmh_maximize_round_trip (c c0 : NetwmState) (l : List NetAtom)
    (hm : c.maximized ≤ 3) (h0 : c0.maximized = 0) (hperm : l.Perm (setStateAtoms c)) :
    (getNetwmHints c0 (setWMState l)).maximized = c.maximized := by
  have hfold : (l.foldl netwmStateStep c0).maximized = c.maximized := by
    rw [foldl_netwmStateStep_mode l c0 false false (by rw [h0]; rfl)]
    have hv : NetAtom.wmStateMaximizedVert ∈ l ↔ (c.maximized = 1 ∨ c.maximized = 2) := by
      rw [hperm.mem_iff]
      exact (setStateAtoms_mem c hm).1
    have hh : NetAtom.wmStateMaximizedHorz ∈ l ↔ (c.maximized = 1 ∨ c.maximized = 3) := by
      rw [hperm.mem_iff]
      exact (setStateAtoms_mem c hm).2
    have hcases : c.maximized = 0 ∨ c.maximized = 1 ∨ c.maximized = 2 ∨ c.maximized = 3 := by
      omega
    rcases hcases with e | e | e | e <;> rw [e] at hv hh ⊢ <;>
      simp [maximizeMode, hv, hh]
  unfold getNetwmHints setWMState
  by_cases hl : l = []
  · rw [if_pos hl]
    rw [hl] at hfold
    exact hfold
  · rw [if_neg hl]
    exact hfold

theorem ewmh_maximize_round_trip_witness :
    setStateAtoms { freshState with maximized := 1, shaded := true } =
      [NetAtom.wmStateMaximizedVert, NetAtom.wmStateMaximizedHorz, NetAtom.wmStateShaded] ∧
    (getNetwmHints freshState (setWMState
      [NetAtom.wmStateMaximizedHorz, NetAtom.wmStateShaded,
        NetAtom.wmStateMaximizedVert])).maximized = 1 :=
  ⟨by decide,
    ewmh_maximize_round_trip { freshState with maximized := 1, shaded := true } freshState
      [NetAtom.wmStateMaximizedHorz, NetAtom.wmStateShaded, NetAtom.wmStateMaximizedVert]
      (by decide) rfl (by decide)⟩

end Blackbox
